import Mathlib

/-!
# darc.lv2: the Dyncomp engine of `src/src/lv2.c`

A shallow embedding of the dynamic-range compressor core and the properties
of it that the specification states.

Conventions of the embedding

* A C `float` is an element of a linearly ordered field `F`; every arithmetic
  operation of `lv2.c` is exact (no rounding, no overflow, no NaN).  The
  definitions are computable for every such field (`ℚ` evaluates them); the
  concrete inputs below are taken in `ℝ`, where `logf`, `expf` and `exp10f` are
  read as the real functions `ln`, `exp` and `10^x`.  The float literals are
  the decimal numbers they are written as (`0.5f` is `1/2`, `8.68589f` is
  `868589/100000`), except the two bounds `1e-5f` and `1e-3f` of the snap
  tests, which are the binary32 values.
* Where a property depends on what binary32 does and exact arithmetic does
  not, it is stated on a second model: `fl32` rounds a number to the nearest
  `float` (`Dyncomp_attack32` is the attack update with every operation
  rounded, and the knob mapping of `gui/darc.c` rounds through `Libm.tofloat`),
  and the type `Fl` adds the infinities and NaN to the field, with overflow of
  sums and products (`Dyncomp_process_fl` is the process over `Fl`).
* The functions of `math.h` whose values are not field operations (`logf`,
  `expf`, `exp10f`, `log10f`) and the classification `isfinite` are the
  fields of a record `Libm F` that every function using them receives.
  `fabsf`, `fmaxf`, `fminf` and `isless` are `|.|`, `max`, `min` and `<`.
* `uint32_t` counters (`n_channels`, `n_samples`, the loop indices) are
  natural numbers; none of the loops can wrap. The one sum that can,
  `samplecnt += n_samples` in `run`, is taken modulo `2^32`.
* `float* io[]` is a function `io i j` (channel `i`, sample `j`); the channel
  buffers are taken to be pairwise distinct. A function that writes through
  `self` returns the new record.
* The plugin wrapper (`instantiate`, `activate`, `run`) and the knob mapping
  and transfer curve of `gui/darc.c` are embedded the same way. The metering
  loop of `run` is the only loop without a bound in its header; it takes a
  fuel argument and has no result when the fuel runs out.
-/

namespace Darc

/-- The part of `math.h` that `lv2.c` calls and that is not field arithmetic.
`exp10f x` also stands for `powf (10.0f, x)` of the non-GNU branch. `tofloat`
is the conversion of a `double` to `float`, which the one double-precision
expression of `lv2.c` (`rms + 1e-12`, line 346) goes through when it is stored,
and which `gui/darc.c` applies to the result of each `float` operation. -/
structure Libm (F : Type) where
  logf : F → F
  expf : F → F
  exp10f : F → F
  log10f : F → F
  isfinite : F → Bool
  tofloat : F → F

/-- The record `Dyncomp` of `lv2.c`, field by field. -/
structure Dyncomp (F : Type) where
  sample_rate : F
  n_channels : Nat
  norm_input : F
  ratio : F
  p_rat : F
  hold : Bool
  igain : F
  p_ign : F
  l_ign : F
  p_thr : F
  l_thr : F
  w_att : F
  w_rel : F
  t_att : F
  t_rel : F
  za1 : F
  zr1 : F
  zr2 : F
  newg : Bool
  gmax : F
  gmin : F
  rms : F
  w_rms : F
  w_lpf : F

/-- The three values `Dyncomp_get_gain` writes through its pointer arguments. -/
structure Gain (F : Type) where
  gmin : F
  gmax : F
  rms : F

/-- The variables that the sample loop of `Dyncomp_process` changes: its
locals `g`, `r`, `za1`, `zr1`, `zr2`, `rms`, `gmax`, `gmin`, and the buffers. -/
structure Loop (F : Type) where
  g : F
  r : F
  za1 : F
  zr1 : F
  zr2 : F
  rms : F
  gmax : F
  gmin : F
  io : Nat → Nat → F

variable {F : Type} [LinearOrderedField F]

/-- `Dyncomp_reset` (lv2.c 91-101). -/
def Dyncomp_reset (self : Dyncomp F) : Dyncomp F :=
  { self with za1 := 0, zr1 := 0, zr2 := 0, rms := 0, gmin := 0, gmax := 0, newg := true }

/-- `Dyncomp_set_ratio` (lv2.c 103-107): `p_rat = 0.5f * r`. -/
def Dyncomp_set_ratio (self : Dyncomp F) (r : F) : Dyncomp F :=
  { self with p_rat := 1 / 2 * r }

/-- `Dyncomp_set_inputgain` (lv2.c 109-121): `p_ign = exp10f (0.05f * g)`
unless `g` is the cached `l_ign`. -/
def Dyncomp_set_inputgain (m : Libm F) (self : Dyncomp F) (g : F) : Dyncomp F :=
  if g = self.l_ign then self
  else { self with l_ign := g, p_ign := m.exp10f (1 / 20 * g) }

/-- `Dyncomp_set_threshold` (lv2.c 123-136): `p_thr = 0.5f * exp10f (0.1f * t)`
unless `t` is the cached `l_thr`. -/
def Dyncomp_set_threshold (m : Libm F) (self : Dyncomp F) (t : F) : Dyncomp F :=
  if t = self.l_thr then self
  else { self with l_thr := t, p_thr := 1 / 2 * m.exp10f (1 / 10 * t) }

/-- `Dyncomp_set_hold` (lv2.c 138-142). -/
def Dyncomp_set_hold (self : Dyncomp F) (hold : Bool) : Dyncomp F :=
  { self with hold := hold }

/-- `Dyncomp_set_attack` (lv2.c 144-152): `w_att = 0.5f / (sample_rate * a)`
unless `a` is the cached `t_att`. -/
def Dyncomp_set_attack (self : Dyncomp F) (a : F) : Dyncomp F :=
  if a = self.t_att then self
  else { self with t_att := a, w_att := 1 / 2 / (self.sample_rate * a) }

/-- `Dyncomp_set_release` (lv2.c 154-162): `w_rel = 3.5f / (sample_rate * r)`
unless `r` is the cached `t_rel`. -/
def Dyncomp_set_release (self : Dyncomp F) (r : F) : Dyncomp F :=
  if r = self.t_rel then self
  else { self with t_rel := r, w_rel := 7 / 2 / (self.sample_rate * r) }

/-- `Dyncomp_get_gain` (lv2.c 164-175): the report and the record with `newg` set. -/
def Dyncomp_get_gain (m : Libm F) (self : Dyncomp F) : Dyncomp F × Gain F :=
  ({ self with newg := true },
   { gmin := self.gmin * (868589 / 100000),
     gmax := self.gmax * (868589 / 100000),
     rms := if self.rms > 1 / 100000000 then 10 * m.log10f (2 * self.rms) else -80 })

/-- `Dyncomp_init` (lv2.c 177-205). `self` is the memory handed in; every field
the function does not assign is assigned by the setters and the reset it calls,
or is unchanged (`w_att`, `w_rel` until the setters run). -/
def Dyncomp_init (self : Dyncomp F) (sample_rate : F) (n_channels : Nat) : Dyncomp F :=
  let s : Dyncomp F :=
    { self with
      sample_rate := sample_rate
      n_channels := n_channels
      norm_input := 1 / (n_channels : F)
      ratio := 0
      p_rat := 0
      igain := 1
      p_ign := 1
      l_ign := 0
      p_thr := 1 / 20
      l_thr := -10
      hold := false
      t_att := 0
      t_rel := 0
      w_rms := 5 / sample_rate
      w_lpf := 160 / sample_rate }
  Dyncomp_reset (Dyncomp_set_release (Dyncomp_set_attack s (1 / 100)) (3 / 100))

/-- Value of `dg` when the sample loop is entered (lv2.c 223-229): `0` when the
smoothed gain is snapped to its target, `p_ign - igain` otherwise. The bounds
of the two comparisons are the binary32 values of the literals:
`1e-5f = 2748779 / 2^38` and `1e-3f = 8589935 / 2^33`. -/
def Dyncomp_dg (self : Dyncomp F) : F :=
  let g := self.igain
  let g1 := self.p_ign
  let dg := g1 - g
  if |dg| < 2748779 / 274877906944 ∨ (g > 1 ∧ |dg| < 8589935 / 8589934592) then 0 else dg

/-- Value of `dr` when the sample loop is entered (lv2.c 232-238). -/
def Dyncomp_dr (self : Dyncomp F) : F :=
  let r := self.ratio
  let r1 := self.p_rat
  let dr := r1 - r
  if |dr| < 2748779 / 274877906944 then 0 else dr

/-- The locals of `Dyncomp_process` when the sample loop is entered
(lv2.c 210-245). -/
def Dyncomp_locals (self : Dyncomp F) (io : Nat → Nat → F) : Loop F :=
  let g := self.igain
  let g1 := self.p_ign
  let dg := g1 - g
  let r := self.ratio
  let r1 := self.p_rat
  let dr := r1 - r
  { gmax := if self.newg then -100 else self.gmax
    gmin := if self.newg then 100 else self.gmin
    g := if |dg| < 2748779 / 274877906944 ∨ (g > 1 ∧ |dg| < 8589935 / 8589934592) then g1 else g
    r := if |dr| < 2748779 / 274877906944 then r1 else r
    za1 := self.za1
    zr1 := self.zr1
    zr2 := self.zr2
    rms := self.rms
    io := io }

/-- The key sum of lv2.c 265-269 after `i` channels: `v += x * x` with
`x = g * io[i][j]`, starting from `v = 0`. -/
def Dyncomp_key (g : F) (io : Nat → Nat → F) (j : Nat) : Nat → F
  | 0 => 0
  | i + 1 => Dyncomp_key g io j i + g * io i j * (g * io i j)

/-- The flag `hold` of one loop iteration for the updated `za1` (lv2.c 253 and
280): `isless (za1, p_hold)` with `p_hold = self->hold ? 2.f * p_thr : 0.f`. -/
def Dyncomp_holding (self : Dyncomp F) (za1 : F) : Bool :=
  let p_hold := if self.hold then 2 * self.p_thr else 0
  decide (za1 < p_hold)

/-- One iteration of the sample loop (lv2.c 258-321), for sample index `j`. -/
def Dyncomp_sample (m : Libm F) (self : Dyncomp F) (dg dr : F) (j : Nat)
    (st : Loop F) : Loop F :=
  let g1 := self.p_ign
  let r1 := self.p_rat
  let w_rms := self.w_rms
  let w_lpf := self.w_lpf
  let w_att := self.w_att
  let w_rel := self.w_rel
  let p_thr := self.p_thr
  let nc := self.n_channels
  let n_1 := self.norm_input
  let g := if dg ≠ 0 then st.g + w_lpf * (g1 - st.g) else st.g
  let v := Dyncomp_key g st.io j nc * n_1
  let rms := st.rms + w_rms * (v - st.rms)
  let za1 := st.za1 + w_att * (p_thr + v - st.za1)
  let hold : Bool := Dyncomp_holding self za1
  let zr1 :=
    if st.zr1 < za1 then za1
    else if !hold then st.zr1 - w_rel * st.zr1
    else st.zr1
  let zr2 :=
    if st.zr2 < za1 then za1
    else if !hold then st.zr2 + w_rel * (zr1 - st.zr2)
    else st.zr2
  let r := if dr ≠ 0 then st.r + w_lpf * (r1 - st.r) else st.r
  let pg := -r * m.logf (20 * zr2)
  let gmax := max st.gmax pg
  let gmin := min st.gmin pg
  let pg := g * m.expf pg
  { g := g
    r := r
    za1 := za1
    zr1 := zr1
    zr2 := zr2
    rms := rms
    gmax := gmax
    gmin := gmin
    io := fun i k => if k = j ∧ i < nc then st.io i k * pg else st.io i k }

/-- The sample loop `for (j = 0; j < n_samples; ++j)`: the locals after the
first `n` iterations. -/
def Dyncomp_loop (m : Libm F) (self : Dyncomp F) (dg dr : F) : Nat → Loop F → Loop F
  | 0, st => st
  | j + 1, st => Dyncomp_sample m self dg dr j (Dyncomp_loop m self dg dr j st)

/-- The locals of `Dyncomp_process` after `k` samples of the block `io`. -/
def Dyncomp_at (m : Libm F) (self : Dyncomp F) (io : Nat → Nat → F) (k : Nat) : Loop F :=
  Dyncomp_loop m self (Dyncomp_dg self) (Dyncomp_dr self) k (Dyncomp_locals self io)

/-- `Dyncomp_process` (lv2.c 207-347): the new record and the buffers. The sum
`rms + 1e-12` is a `double`; the store to the `float` field converts it. -/
def Dyncomp_process (m : Libm F) (self : Dyncomp F) (n_samples : Nat)
    (io : Nat → Nat → F) : Dyncomp F × (Nat → Nat → F) :=
  let st := Dyncomp_at m self io n_samples
  let s0 : Dyncomp F := if self.newg then { self with newg := false } else self
  let s1 : Dyncomp F := { s0 with igain := st.g, ratio := st.r }
  let s2 : Dyncomp F :=
    if !m.isfinite st.za1 then
      { s1 with za1 := 0, zr1 := 0, zr2 := 0, newg := true }
    else
      { s1 with za1 := st.za1, zr1 := st.zr1, zr2 := st.zr2, gmax := st.gmax, gmin := st.gmin }
  let s3 : Dyncomp F :=
    if !m.isfinite st.rms then { s2 with rms := 0 }
    else if st.rms > 10 then { s2 with rms := 10 }
    else { s2 with rms := m.tofloat (st.rms + 1 / 1000000000000) }
  (s3, st.io)

/-- The calls a host can make on an initialised engine. -/
inductive Op (F : Type) where
  | reset : Op F
  | set_ratio : F → Op F
  | set_inputgain : F → Op F
  | set_threshold : F → Op F
  | set_hold : Bool → Op F
  | set_attack : F → Op F
  | set_release : F → Op F
  | get_gain : Op F
  | process : Nat → (Nat → Nat → F) → Op F

/-- The record after one call. -/
def Dyncomp_call (m : Libm F) (self : Dyncomp F) : Op F → Dyncomp F
  | Op.reset => Dyncomp_reset self
  | Op.set_ratio r => Dyncomp_set_ratio self r
  | Op.set_inputgain g => Dyncomp_set_inputgain m self g
  | Op.set_threshold t => Dyncomp_set_threshold m self t
  | Op.set_hold b => Dyncomp_set_hold self b
  | Op.set_attack a => Dyncomp_set_attack self a
  | Op.set_release r => Dyncomp_set_release self r
  | Op.get_gain => (Dyncomp_get_gain m self).1
  | Op.process n io => (Dyncomp_process m self n io).1

/-- The record after `Dyncomp_init` followed by the calls `ops`, in order. -/
def Dyncomp_run (m : Libm F) (self : Dyncomp F) (sample_rate : F) (n_channels : Nat)
    (ops : List (Op F)) : Dyncomp F :=
  ops.foldl (Dyncomp_call m) (Dyncomp_init self sample_rate n_channels)

/-- The zero-filled memory that `calloc` returns in `instantiate` (lv2.c 381). -/
def Dyncomp_calloc : Dyncomp F :=
  { sample_rate := 0, n_channels := 0, norm_input := 0, ratio := 0, p_rat := 0, hold := false,
    igain := 0, p_ign := 0, l_ign := 0, p_thr := 0, l_thr := 0,
    w_att := 0, w_rel := 0, t_att := 0, t_rel := 0, za1 := 0, zr1 := 0, zr2 := 0,
    newg := false, gmax := 0, gmin := 0, rms := 0, w_rms := 0, w_lpf := 0 }

/-- The engine of the specification's concrete scenario with everything settled:
48 kHz, mono, threshold -30 dB (`p_thr = 0.5 * 10^-3`), user ratio 1.0
(`p_rat = 0.5`), attack 0.01 s, release 0.3 s, input gain 0 dB, hold off, the
smoothed gain and ratio at their targets, `za1 = zr1 = zr2 = p_thr`, and a fresh
extrema window. -/
def Dyncomp_scenario : Dyncomp F :=
  { sample_rate := 48000, n_channels := 1, norm_input := 1,
    ratio := 1 / 2, p_rat := 1 / 2, hold := false,
    igain := 1, p_ign := 1, l_ign := 0,
    p_thr := 1 / 2000, l_thr := -30,
    w_att := 1 / 960, w_rel := 7 / 28800, t_att := 1 / 100, t_rel := 3 / 10,
    za1 := 1 / 2000, zr1 := 1 / 2000, zr2 := 1 / 2000,
    newg := true, gmax := 0, gmin := 0,
    rms := 0, w_rms := 5 / 48000, w_lpf := 160 / 48000 }

/-- Calls in which `Dyncomp_set_ratio` receives a user ratio in `[0, 1]`. -/
def Op_ratio_ok : Op F → Prop
  | Op.set_ratio r => 0 ≤ r ∧ r ≤ 1
  | _ => True

/-- The plugin instance of lv2.c (351-374), the record `Darc` behind the
`LV2_Handle` that `instantiate` returns: the engine, the last
reported values and the metering counters. The port pointers and the fields of
the optional inline display are left out. -/
structure Darc_handle (F : Type) where
  dyncomp : Dyncomp F
  _gmin : F
  _gmax : F
  _rms : F
  samplecnt : Nat
  sampletme : Nat

/-- `DARC_URI` of darc.h. -/
def DARC_URI : String := "http://gareus.org/oss/lv2/darc#"

/-- `instantiate` (lv2.c 376-408) for the descriptor URI `uri` and the sample
rate `rate`: `none` is the `NULL` it returns for an unknown URI. The instance
memory is the zero-filled `calloc` block; `ceilf (rate * 0.05)` converted to
`uint32_t` is the natural-number ceiling (0 for `rate <= 0`; for
`rate <= -20` the C conversion of the negative value is undefined and the
model keeps 0). -/
def instantiate [FloorRing F] (uri : String) (rate : F) : Option (Darc_handle F) :=
  if uri = DARC_URI ++ "mono" then
    some
      { dyncomp := Dyncomp_init Dyncomp_calloc rate 1
        _gmin := 0
        _gmax := 0
        _rms := 0
        sampletme := Nat.ceil (rate * (1 / 20))
        samplecnt := Nat.ceil (rate * (1 / 20)) }
  else if uri = DARC_URI ++ "stereo" then
    some
      { dyncomp := Dyncomp_init Dyncomp_calloc rate 2
        _gmin := 0
        _gmax := 0
        _rms := 0
        sampletme := Nat.ceil (rate * (1 / 20))
        samplecnt := Nat.ceil (rate * (1 / 20)) }
  else none

/-- A `float` with the special values of IEEE 754: a finite value of the field,
an infinity or NaN. A sum or product of finite values is exact as long as it
is below the overflow bound of binary32 and an infinity from there on; signed
zeros and the rounding of finite results are not modelled. -/
inductive Fl (F : Type) where
  | fin : F → Fl F
  | pinf : Fl F
  | ninf : Fl F
  | nan : Fl F
  deriving DecidableEq

/-- `isfinite` of math.h. -/
def Fl.isfinite : Fl F → Bool
  | Fl.fin _ => true
  | _ => false

/-- Unary minus. -/
def Fl.neg : Fl F → Fl F
  | Fl.fin a => Fl.fin (-a)
  | Fl.pinf => Fl.ninf
  | Fl.ninf => Fl.pinf
  | Fl.nan => Fl.nan

/-- The binary32 result of an operation on finite operands whose exact value
is `x`: a value of magnitude `2^128 - 2^103` or more (the numbers that round
to `2^128`) overflows to the infinity of its sign. -/
def Fl.of (x : F) : Fl F :=
  if |x| < 2 ^ 128 - 2 ^ 103 then Fl.fin x else if 0 < x then Fl.pinf else Fl.ninf

/-- Addition: a finite sum can overflow, NaN propagates and infinities of
opposite sign give NaN. -/
def Fl.add : Fl F → Fl F → Fl F
  | Fl.fin a, Fl.fin b => Fl.of (a + b)
  | Fl.fin _, Fl.pinf => Fl.pinf
  | Fl.fin _, Fl.ninf => Fl.ninf
  | Fl.pinf, Fl.fin _ => Fl.pinf
  | Fl.pinf, Fl.pinf => Fl.pinf
  | Fl.ninf, Fl.fin _ => Fl.ninf
  | Fl.ninf, Fl.ninf => Fl.ninf
  | _, _ => Fl.nan

/-- Multiplication: a finite product can overflow, NaN propagates and
`0 * inf` is NaN. -/
def Fl.mul : Fl F → Fl F → Fl F
  | Fl.fin a, Fl.fin b => Fl.of (a * b)
  | Fl.fin a, Fl.pinf => if 0 < a then Fl.pinf else if a < 0 then Fl.ninf else Fl.nan
  | Fl.fin a, Fl.ninf => if 0 < a then Fl.ninf else if a < 0 then Fl.pinf else Fl.nan
  | Fl.pinf, Fl.fin b => if 0 < b then Fl.pinf else if b < 0 then Fl.ninf else Fl.nan
  | Fl.ninf, Fl.fin b => if 0 < b then Fl.ninf else if b < 0 then Fl.pinf else Fl.nan
  | Fl.pinf, Fl.pinf => Fl.pinf
  | Fl.ninf, Fl.ninf => Fl.pinf
  | Fl.pinf, Fl.ninf => Fl.ninf
  | Fl.ninf, Fl.pinf => Fl.ninf
  | _, _ => Fl.nan

/-- The comparison `<` (also `isless`): false as soon as an operand is NaN. -/
def Fl.lt : Fl F → Fl F → Bool
  | Fl.fin a, Fl.fin b => decide (a < b)
  | Fl.fin _, Fl.pinf => true
  | Fl.ninf, Fl.fin _ => true
  | Fl.ninf, Fl.pinf => true
  | _, _ => false

/-- `fabsf` of math.h. -/
def Fl.fabsf : Fl F → Fl F
  | Fl.fin a => Fl.fin |a|
  | Fl.pinf => Fl.pinf
  | Fl.ninf => Fl.pinf
  | Fl.nan => Fl.nan

/-- `fmaxf` of math.h: a NaN operand is ignored. -/
def Fl.fmaxf : Fl F → Fl F → Fl F
  | Fl.nan, b => b
  | a, Fl.nan => a
  | a, b => if Fl.lt a b then b else a

/-- `fminf` of math.h: a NaN operand is ignored. -/
def Fl.fminf : Fl F → Fl F → Fl F
  | Fl.nan, b => b
  | a, Fl.nan => a
  | a, b => if Fl.lt b a then b else a

instance : Add (Fl F) := ⟨Fl.add⟩

instance : Mul (Fl F) := ⟨Fl.mul⟩

instance : Neg (Fl F) := ⟨Fl.neg⟩

instance : Sub (Fl F) := ⟨fun a b => Fl.add a (Fl.neg b)⟩

instance : LT (Fl F) := ⟨fun a b => Fl.lt a b = true⟩

instance (a b : Fl F) : Decidable (a < b) := inferInstanceAs (Decidable (Fl.lt a b = true))

/-- The order `a <= b` of two floats that are numbers: neither operand is NaN
and `b < a` does not hold. -/
def Fl.le (a b : Fl F) : Prop := a ≠ Fl.nan ∧ b ≠ Fl.nan ∧ ¬ (b < a)

/-- A `float` that is finite and not negative. -/
def Fl.nonneg_float (x : Fl F) : Prop := ∃ a, x = Fl.fin a ∧ 0 ≤ a ∧ a < 2 ^ 128 - 2 ^ 103

/-- `Dyncomp_dg` computed over `Fl`: `dg` when the sample loop is entered
(lv2.c 223-229). -/
def Dyncomp_dg_fl (self : Dyncomp (Fl F)) : Fl F :=
  let g := self.igain
  let g1 := self.p_ign
  let dg := g1 - g
  if Fl.fabsf dg < Fl.fin (2748779 / 274877906944) ∨ (Fl.fin 1 < g ∧ Fl.fabsf dg < Fl.fin (8589935 / 8589934592)) then
    Fl.fin 0
  else dg

/-- `Dyncomp_dr` computed over `Fl` (lv2.c 232-238). -/
def Dyncomp_dr_fl (self : Dyncomp (Fl F)) : Fl F :=
  let r := self.ratio
  let r1 := self.p_rat
  let dr := r1 - r
  if Fl.fabsf dr < Fl.fin (2748779 / 274877906944) then Fl.fin 0 else dr

/-- `Dyncomp_locals` computed over `Fl` (lv2.c 210-245). -/
def Dyncomp_locals_fl (self : Dyncomp (Fl F)) (io : Nat → Nat → Fl F) : Loop (Fl F) :=
  let g := self.igain
  let g1 := self.p_ign
  let dg := g1 - g
  let r := self.ratio
  let r1 := self.p_rat
  let dr := r1 - r
  { gmax := if self.newg then Fl.fin (-100) else self.gmax
    gmin := if self.newg then Fl.fin 100 else self.gmin
    g := if Fl.fabsf dg < Fl.fin (2748779 / 274877906944) ∨
        (Fl.fin 1 < g ∧ Fl.fabsf dg < Fl.fin (8589935 / 8589934592)) then g1 else g
    r := if Fl.fabsf dr < Fl.fin (2748779 / 274877906944) then r1 else r
    za1 := self.za1
    zr1 := self.zr1
    zr2 := self.zr2
    rms := self.rms
    io := io }

/-- `Dyncomp_key` computed over `Fl` (lv2.c 265-269). -/
def Dyncomp_key_fl (g : Fl F) (io : Nat → Nat → Fl F) (j : Nat) : Nat → Fl F
  | 0 => Fl.fin 0
  | i + 1 => Dyncomp_key_fl g io j i + g * io i j * (g * io i j)

/-- `Dyncomp_holding` computed over `Fl` (lv2.c 253 and 280). -/
def Dyncomp_holding_fl (self : Dyncomp (Fl F)) (za1 : Fl F) : Bool :=
  let p_hold := if self.hold then Fl.fin 2 * self.p_thr else Fl.fin 0
  decide (za1 < p_hold)

/-- `Dyncomp_sample` computed over `Fl`: one iteration of the sample loop
(lv2.c 258-321), for sample index `j`. -/
def Dyncomp_sample_fl (m : Libm (Fl F)) (self : Dyncomp (Fl F)) (dg dr : Fl F) (j : Nat)
    (st : Loop (Fl F)) : Loop (Fl F) :=
  let g1 := self.p_ign
  let r1 := self.p_rat
  let w_rms := self.w_rms
  let w_lpf := self.w_lpf
  let w_att := self.w_att
  let w_rel := self.w_rel
  let p_thr := self.p_thr
  let nc := self.n_channels
  let n_1 := self.norm_input
  let g := if dg ≠ Fl.fin 0 then st.g + w_lpf * (g1 - st.g) else st.g
  let v := Dyncomp_key_fl g st.io j nc * n_1
  let rms := st.rms + w_rms * (v - st.rms)
  let za1 := st.za1 + w_att * (p_thr + v - st.za1)
  let hold : Bool := Dyncomp_holding_fl self za1
  let zr1 :=
    if st.zr1 < za1 then za1
    else if !hold then st.zr1 - w_rel * st.zr1
    else st.zr1
  let zr2 :=
    if st.zr2 < za1 then za1
    else if !hold then st.zr2 + w_rel * (zr1 - st.zr2)
    else st.zr2
  let r := if dr ≠ Fl.fin 0 then st.r + w_lpf * (r1 - st.r) else st.r
  let pg := -r * m.logf (Fl.fin 20 * zr2)
  let gmax := Fl.fmaxf st.gmax pg
  let gmin := Fl.fminf st.gmin pg
  let pg := g * m.expf pg
  { g := g
    r := r
    za1 := za1
    zr1 := zr1
    zr2 := zr2
    rms := rms
    gmax := gmax
    gmin := gmin
    io := fun i k => if k = j ∧ i < nc then st.io i k * pg else st.io i k }

/-- `Dyncomp_loop` computed over `Fl`. -/
def Dyncomp_loop_fl (m : Libm (Fl F)) (self : Dyncomp (Fl F)) (dg dr : Fl F) :
    Nat → Loop (Fl F) → Loop (Fl F)
  | 0, st => st
  | j + 1, st => Dyncomp_sample_fl m self dg dr j (Dyncomp_loop_fl m self dg dr j st)

/-- `Dyncomp_at` computed over `Fl`: the locals after `k` samples of the block. -/
def Dyncomp_at_fl (m : Libm (Fl F)) (self : Dyncomp (Fl F)) (io : Nat → Nat → Fl F)
    (k : Nat) : Loop (Fl F) :=
  Dyncomp_loop_fl m self (Dyncomp_dg_fl self) (Dyncomp_dr_fl self) k (Dyncomp_locals_fl self io)

/-- `Dyncomp_process` (lv2.c 207-347) computed over `Fl`, so that samples and
states can be infinite or NaN. `isfinite` is `Fl.isfinite`; of the record `m`
only `logf` and `expf` are used. -/
def Dyncomp_process_fl (m : Libm (Fl F)) (self : Dyncomp (Fl F)) (n_samples : Nat)
    (io : Nat → Nat → Fl F) : Dyncomp (Fl F) × (Nat → Nat → Fl F) :=
  let st := Dyncomp_at_fl m self io n_samples
  let s0 : Dyncomp (Fl F) := if self.newg then { self with newg := false } else self
  let s1 : Dyncomp (Fl F) := { s0 with igain := st.g, ratio := st.r }
  let s2 : Dyncomp (Fl F) :=
    if !Fl.isfinite st.za1 then
      { s1 with za1 := Fl.fin 0, zr1 := Fl.fin 0, zr2 := Fl.fin 0, newg := true }
    else
      { s1 with za1 := st.za1, zr1 := st.zr1, zr2 := st.zr2, gmax := st.gmax, gmin := st.gmin }
  let s3 : Dyncomp (Fl F) :=
    if !Fl.isfinite st.rms then { s2 with rms := Fl.fin 0 }
    else if Fl.fin 10 < st.rms then { s2 with rms := Fl.fin 10 }
    else { s2 with rms := m.tofloat (st.rms + Fl.fin (1 / 1000000000000)) }
  (s3, st.io)

/-- The functions of a field `Libm` extended to `Fl` with the values `math.h`
gives at the special arguments: `logf` is `-inf` at 0 and NaN below 0, `expf`
is 0 at `-inf` and overflows like a product. -/
def Libm_fl (m : Libm F) : Libm (Fl F) :=
  { logf := fun x =>
      match x with
      | Fl.fin a => if 0 < a then Fl.fin (m.logf a) else if a = 0 then Fl.ninf else Fl.nan
      | Fl.pinf => Fl.pinf
      | _ => Fl.nan
    expf := fun x =>
      match x with
      | Fl.fin a => Fl.of (m.expf a)
      | Fl.pinf => Fl.pinf
      | Fl.ninf => Fl.fin 0
      | Fl.nan => Fl.nan
    exp10f := fun x =>
      match x with
      | Fl.fin a => Fl.of (m.exp10f a)
      | Fl.pinf => Fl.pinf
      | Fl.ninf => Fl.fin 0
      | Fl.nan => Fl.nan
    log10f := fun x =>
      match x with
      | Fl.fin a => if 0 < a then Fl.fin (m.log10f a) else if a = 0 then Fl.ninf else Fl.nan
      | Fl.pinf => Fl.pinf
      | _ => Fl.nan
    isfinite := Fl.isfinite
    tofloat := fun x =>
      match x with
      | Fl.fin a => Fl.of (m.tofloat a)
      | o => o }

/-- An engine record with finite fields, as a record over `Fl`. -/
def Dyncomp_fl (s : Dyncomp F) : Dyncomp (Fl F) :=
  { sample_rate := Fl.fin s.sample_rate
    n_channels := s.n_channels
    norm_input := Fl.fin s.norm_input
    ratio := Fl.fin s.ratio
    p_rat := Fl.fin s.p_rat
    hold := s.hold
    igain := Fl.fin s.igain
    p_ign := Fl.fin s.p_ign
    l_ign := Fl.fin s.l_ign
    p_thr := Fl.fin s.p_thr
    l_thr := Fl.fin s.l_thr
    w_att := Fl.fin s.w_att
    w_rel := Fl.fin s.w_rel
    t_att := Fl.fin s.t_att
    t_rel := Fl.fin s.t_rel
    za1 := Fl.fin s.za1
    zr1 := Fl.fin s.zr1
    zr2 := Fl.fin s.zr2
    newg := s.newg
    gmax := Fl.fin s.gmax
    gmin := Fl.fin s.gmin
    rms := Fl.fin s.rms
    w_rms := Fl.fin s.w_rms
    w_lpf := Fl.fin s.w_lpf }
/-- Loop locals with finite values, as locals over `Fl`. -/
def Loop_fl (st : Loop F) : Loop (Fl F) :=
  { g := Fl.fin st.g
    r := Fl.fin st.r
    za1 := Fl.fin st.za1
    zr1 := Fl.fin st.zr1
    zr2 := Fl.fin st.zr2
    rms := Fl.fin st.rms
    gmax := Fl.fin st.gmax
    gmin := Fl.fin st.gmin
    io := fun i j => Fl.fin (st.io i j) }

/-- The body of the metering loop of `run` (lv2.c 465-470): one report is
taken and clamped. The body runs only when `samplecnt >= sampletme`, so the
`uint32_t` subtraction does not wrap. -/
def run_meter_body (m : Libm F) (self : Darc_handle F) : Darc_handle F :=
  let q := Dyncomp_get_gain m self.dyncomp
  { self with
    samplecnt := self.samplecnt - self.sampletme
    dyncomp := q.1
    _gmin := min 40 (max (-20) q.2.gmin)
    _gmax := min 40 (max (-20) q.2.gmax)
    _rms := min 10 (max (-80) q.2.rms) }

/-- One row of `ctrl_range` (gui/darc.c 106-114). -/
structure CtrlRange (F : Type) where
  min : F
  max : F
  dflt : F
  step : F
  mult : F
  log : Bool
  name : String

/-- The table `ctrl_range` (gui/darc.c 116-124); the five controls are input
gain, threshold, ratio, attack and release. -/
def ctrl_range : Fin 5 → CtrlRange F
  | 0 => { min := -10, max := 30, dflt := 0, step := 1 / 5, mult := 5, log := false,
           name := "Input Gain" }
  | 1 => { min := -50, max := -10, dflt := -30, step := 1 / 10, mult := 5, log := false,
           name := "Threshold" }
  | 2 => { min := 0, max := 1, dflt := 0, step := 72, mult := 2, log := true,
           name := "Ratio" }
  | 3 => { min := 1 / 1000, max := 1 / 10, dflt := 1 / 100, step := 100, mult := 5,
           log := true, name := "Attack" }
  | 4 => { min := 3 / 100, max := 3, dflt := 3 / 10, step := 100, mult := 5, log := true,
           name := "Release" }

/-- `rintf` of `math.h` in the default rounding mode: the nearest integer, a
tie going to the even one. -/
def rintf [FloorRing F] (x : F) : F :=
  let f : Int := Int.floor x
  let d : F := x - (f : F)
  if d < 1 / 2 then (f : F)
  else if 1 / 2 < d then (f : F) + 1
  else if f % 2 = 0 then (f : F)
  else (f : F) + 1

/-- The binary32 value nearest to `x`, a tie going to the even significand:
`x` is rounded to a multiple of `2^(e - 23)`, where `2^e <= |x| < 2^(e + 1)`
and `e` is at least `-126` (below that the values are subnormal, with the
fixed quantum `2^-149`). This is the conversion of a real number to `float`
for `|x| < 2^128 - 2^103`; it is applied to such values only. -/
def fl32 [FloorRing F] (x : F) : F :=
  let e : Int := max (Int.log 2 |x|) (-126)
  let q : F := (2 : F) ^ (e - 23)
  rintf (x / q) * q

/-- The update `za1 += w_att * (p_thr + v - za1)` of the attack filter
(lv2.c 277) as binary32 evaluates it: the result of each of the four
operations is rounded to the nearest `float`. -/
def Dyncomp_attack32 [FloorRing F] (w_att p_thr v za1 : F) : F :=
  fl32 (za1 + fl32 (w_att * fl32 (fl32 (p_thr + v) - za1)))

/-- `ctrl_to_gui` (gui/darc.c 135-146). The result of every `float` operation
and of every call of `logf` goes through `m.tofloat`. -/
def ctrl_to_gui [FloorRing F] (m : Libm F) (c : Fin 5) (v : F) : F :=
  if !(ctrl_range c : CtrlRange F).log then v
  else if (ctrl_range c : CtrlRange F).min = 0 then
    m.tofloat (m.tofloat (v * v) * (ctrl_range c : CtrlRange F).step)
  else
    let r : F := m.tofloat (m.logf (m.tofloat
      ((ctrl_range c : CtrlRange F).max / (ctrl_range c : CtrlRange F).min)))
    rintf (m.tofloat (m.tofloat ((ctrl_range c : CtrlRange F).step / r) *
      m.tofloat (m.logf (m.tofloat (v / (ctrl_range c : CtrlRange F).min)))))

/-- `gui_to_ctrl` (gui/darc.c 148-159); `sqrt` is the function of `math.h`, and
the double-precision `log` is read as `logf`. The result of every `float`
operation, and the `double` value that is returned as a `float`, goes through
`m.tofloat`. -/
def gui_to_ctrl (m : Libm F) (sqrt : F → F) (c : Fin 5) (v : F) : F :=
  if !(ctrl_range c : CtrlRange F).log then v
  else if (ctrl_range c : CtrlRange F).min = 0 then
    m.tofloat (sqrt (m.tofloat (v / (ctrl_range c : CtrlRange F).step)))
  else
    let r : F := m.tofloat (m.logf (m.tofloat
      ((ctrl_range c : CtrlRange F).max / (ctrl_range c : CtrlRange F).min)))
    m.tofloat (m.expf (m.tofloat (m.tofloat (m.logf (ctrl_range c : CtrlRange F).min) +
      m.tofloat (m.tofloat (v * r) / (ctrl_range c : CtrlRange F).step))))

/-- `k_min` (gui/darc.c 161-168). -/
def k_min (c : Fin 5) : F :=
  if !(ctrl_range c : CtrlRange F).log then (ctrl_range c : CtrlRange F).min else 0

/-- `k_max` (gui/darc.c 170-177). -/
def k_max (c : Fin 5) : F :=
  if !(ctrl_range c : CtrlRange F).log then (ctrl_range c : CtrlRange F).max
  else (ctrl_range c : CtrlRange F).step

/-- `k_step` (gui/darc.c 179-186). -/
def k_step (c : Fin 5) : F :=
  if !(ctrl_range c : CtrlRange F).log then (ctrl_range c : CtrlRange F).step else 1

/-- The locals as a call on the rest of a block sees them: the buffer pointers
advanced by `n` samples (`io[i] + n`). -/
def Loop_shift (n : Nat) (st : Loop F) : Loop F :=
  { st with io := fun i l => st.io i (n + l) }

/-! ## Rounding to binary32 -/

theorem rintf_near [FloorRing F] (y : F) (n : Int) (h : |y - (n : F)| < 1 / 2) :
    rintf y = (n : F) := by
  rw [abs_lt] at h
  obtain ⟨h1, h2⟩ := h
  unfold rintf
  by_cases hy : (n : F) ≤ y
  · have hf : Int.floor y = n := by
      rw [Int.floor_eq_iff]; constructor
      · exact hy
      · linarith
    simp only [hf]
    rw [if_pos (by linarith)]
  · push_neg at hy
    have hf : Int.floor y = n - 1 := by
      rw [Int.floor_eq_iff]; push_cast; constructor
      · linarith
      · linarith
    simp only [hf]
    push_cast
    rw [if_neg (by linarith), if_pos (by linarith)]
    ring

theorem rintf_le [FloorRing F] (y : F) (n : Int) (h : y < (n : F) + 1 / 2) :
    rintf y ≤ (n : F) := by
  have hfl : Int.floor y ≤ n := by
    by_contra hc
    push_neg at hc
    have h1 : ((n + 1 : Int) : F) ≤ y := by
      have := Int.le_floor.mp (show n + 1 ≤ Int.floor y by omega)
      exact this
    push_cast at h1
    linarith
  have hle : ((Int.floor y : Int) : F) ≤ y := Int.floor_le y
  rcases lt_or_eq_of_le hfl with hlt | heq
  · have h2 : ((Int.floor y : Int) : F) + 1 ≤ (n : F) := by
      have : Int.floor y + 1 ≤ n := by omega
      exact_mod_cast this
    unfold rintf
    simp only
    split_ifs <;> linarith
  · unfold rintf
    simp only [heq]
    rw [heq] at hle
    rw [if_pos (by linarith)]

theorem rintf_nonneg [FloorRing F] (y : F) (h : 0 ≤ y) : 0 ≤ rintf y := by
  have hfl : (0 : Int) ≤ Int.floor y := Int.floor_nonneg.mpr h
  have h2 : (0 : F) ≤ ((Int.floor y : Int) : F) := by exact_mod_cast hfl
  unfold rintf
  simp only
  split_ifs <;> linarith

theorem fl32_log [FloorRing F] (x : F) (e : Int) (h1 : (2 : F) ^ e ≤ |x|)
    (h2 : |x| < (2 : F) ^ (e + 1)) : Int.log 2 |x| = e := by
  have hpos : (0 : F) < |x| := lt_of_lt_of_le (zpow_pos (by norm_num) e) h1
  have a1 : e ≤ Int.log 2 |x| := by
    rw [← Int.zpow_le_iff_le_log (by norm_num) hpos]; exact_mod_cast h1
  have a2 : Int.log 2 |x| < e + 1 := by
    rw [← Int.lt_zpow_iff_log_lt (by norm_num) hpos]; exact_mod_cast h2
  omega

theorem fl32_normal [FloorRing F] (x : F) (e n : Int) (he : -126 ≤ e) (h1 : (2 : F) ^ e ≤ |x|)
    (h2 : |x| < (2 : F) ^ (e + 1)) (hn : |x / (2 : F) ^ (e - 23) - (n : F)| < 1 / 2) :
    fl32 x = (n : F) * (2 : F) ^ (e - 23) := by
  unfold fl32
  simp only [fl32_log x e h1 h2, max_eq_left he]
  rw [rintf_near _ n hn]

theorem fl32_zero [FloorRing F] : fl32 (0 : F) = 0 := by
  unfold fl32
  simp only [zero_div]
  rw [rintf_near 0 0 (by norm_num)]
  simp

theorem fl32_subnormal [FloorRing F] (x : F) (n : Int) (h : |x| < (2 : F) ^ (-126 : Int))
    (hn : |x / (2 : F) ^ (-149 : Int) - (n : F)| < 1 / 2) :
    fl32 x = (n : F) * (2 : F) ^ (-149 : Int) := by
  rcases eq_or_lt_of_le (abs_nonneg x) with h0 | hpos
  · have hx : x = 0 := abs_eq_zero.mp h0.symm
    subst hx
    rw [zero_div, zero_sub, abs_neg] at hn
    have hn0 : n = 0 := by
      by_contra hc
      have h1 : (1 : F) ≤ |(n : F)| := by
        have : (1 : Int) ≤ |n| := Int.one_le_abs hc
        exact_mod_cast this
      linarith
    rw [hn0, fl32_zero]; simp
  · have hl : Int.log 2 |x| ≤ -126 := by
      have : Int.log 2 |x| < -126 := by
        rw [← Int.lt_zpow_iff_log_lt (by norm_num) hpos]; exact_mod_cast h
      omega
    unfold fl32
    simp only [max_eq_right hl]
    norm_num only at hn ⊢
    rw [rintf_near _ n hn]

theorem fl32_nonneg [FloorRing F] (x : F) (h : 0 ≤ x) : 0 ≤ fl32 x := by
  unfold fl32
  simp only
  have hq : (0 : F) < (2 : F) ^ (max (Int.log 2 |x|) (-126) - 23) := zpow_pos (by norm_num) _
  exact mul_nonneg (rintf_nonneg _ (div_nonneg h hq.le)) hq.le

theorem fl32_le_ten [FloorRing F] (x : F) (h : x ≤ 10 + 1 / 1000000000000) : fl32 x ≤ 10 := by
  rcases le_or_lt x 0 with h0 | hpos
  · unfold fl32
    simp only
    have hq : (0 : F) < (2 : F) ^ (max (Int.log 2 |x|) (-126) - 23) := zpow_pos (by norm_num) _
    have hr := rintf_le (x / (2 : F) ^ (max (Int.log 2 |x|) (-126) - 23)) 0
      (by have := div_nonpos_of_nonpos_of_nonneg h0 hq.le; push_cast; linarith)
    push_cast at hr
    have := mul_nonpos_of_nonpos_of_nonneg hr hq.le
    linarith
  · have habs : |x| = x := abs_of_pos hpos
    have hL : Int.log 2 |x| < 4 := by
      rw [← Int.lt_zpow_iff_log_lt (by norm_num) (by rw [habs]; exact hpos), habs]
      norm_num; linarith
    rcases eq_or_lt_of_le (show Int.log 2 |x| ≤ 3 by omega) with h3 | hlt
    · unfold fl32
      simp only [h3]
      have hr := rintf_le (x / (2 : F) ^ (-20 : Int)) 10485760 (by
        rw [zpow_neg, div_inv_eq_mul]; push_cast; norm_num only; linarith)
      push_cast at hr
      have hq : (0 : F) < (2 : F) ^ (-20 : Int) := zpow_pos (by norm_num) _
      calc rintf (x / (2 : F) ^ (-20 : Int)) * (2 : F) ^ (-20 : Int)
          ≤ 10485760 * (2 : F) ^ (-20 : Int) := mul_le_mul_of_nonneg_right hr hq.le
        _ = 10 := by rw [zpow_neg]; norm_num
    · have he : max (Int.log 2 |x|) (-126) ≤ 2 := max_le (by omega) (by norm_num)
      have hx : x < (2 : F) ^ (max (Int.log 2 |x|) (-126) + 1) := by
        have a := Int.lt_zpow_succ_log_self (show 1 < 2 by norm_num) |x|
        rw [habs] at a
        push_cast at a
        refine lt_of_lt_of_le a ?_
        exact zpow_le_zpow_right₀ (by norm_num) (by have := le_max_left (Int.log 2 x) (-126); rw [habs]; omega)
      unfold fl32
      simp only
      generalize max (Int.log 2 |x|) (-126) = e at he hx
      have hq : (0 : F) < (2 : F) ^ (e - 23) := zpow_pos (by norm_num) _
      have hsplit : (2 : F) ^ (e + 1) = 16777216 * (2 : F) ^ (e - 23) := by
        have : e + 1 = 24 + (e - 23) := by ring
        rw [this, zpow_add₀ (by norm_num)]; norm_num
      have hr := rintf_le (x / (2 : F) ^ (e - 23)) 16777216 (by
        rw [div_lt_iff₀ hq]; push_cast
        have : (0 : F) < 1 / 2 * (2 : F) ^ (e - 23) := by positivity
        rw [hsplit] at hx; linarith)
      push_cast at hr
      calc rintf (x / (2 : F) ^ (e - 23)) * (2 : F) ^ (e - 23)
          ≤ 16777216 * (2 : F) ^ (e - 23) := mul_le_mul_of_nonneg_right hr hq.le
        _ = (2 : F) ^ (e + 1) := hsplit.symm
        _ ≤ (2 : F) ^ (3 : Int) := zpow_le_zpow_right₀ (by norm_num) (by omega)
        _ ≤ 10 := by norm_num

/-- Evaluation of `fl32` at a positive number of the normal range: with
`2^23 <= x * 2^k < 2^24` the quantum is `2^-k`, and `x` rounds to `n / 2^k`
for the integer `n` nearest to `x * 2^k`. -/
theorem fl32_at_pos [FloorRing F] (x : F) (k : Nat) (n : Int) (hk : k ≤ 149)
    (h1 : 2 ^ 23 ≤ x * 2 ^ k) (h2 : x * 2 ^ k < 2 ^ 24)
    (h3 : (n : F) - 1 / 2 < x * 2 ^ k) (h4 : x * 2 ^ k < (n : F) + 1 / 2) :
    fl32 x = (n : F) / 2 ^ k := by
  have hp : (0 : F) < 2 ^ k := by positivity
  have hx : 0 < x := by
    by_contra hc
    have := mul_nonpos_of_nonpos_of_nonneg (not_lt.mp hc) hp.le
    have : (0 : F) < 2 ^ 23 := by positivity
    linarith
  have hz : ∀ c : Int, (2 : F) ^ (c - (k : Int)) = 2 ^ c / 2 ^ k := by
    intro c
    rw [zpow_sub₀ (by norm_num), zpow_natCast]
  have e := fl32_normal x (23 - (k : Int)) n (by omega)
    (by rw [abs_of_pos hx, hz, div_le_iff₀ hp]; exact_mod_cast h1)
    (by
      have : (23 : Int) - (k : Int) + 1 = 24 - (k : Int) := by ring
      rw [abs_of_pos hx, this, hz, lt_div_iff₀ hp]; exact_mod_cast h2)
    (by
      have : (23 : Int) - (k : Int) - 23 = 0 - (k : Int) := by ring
      rw [this, hz, zpow_zero, div_div_eq_mul_div, div_one, abs_lt]
      constructor <;> linarith)
  rw [e]
  have : (23 : Int) - (k : Int) - 23 = 0 - (k : Int) := by ring
  rw [this, hz, zpow_zero, mul_one_div]

/-- Evaluation of `fl32` below the normal range, where the quantum is
`2^-149`. -/
theorem fl32_at_sub [FloorRing F] (x : F) (n : Int)
    (h1 : -(2 ^ 23) < x * 2 ^ 149) (h2 : x * 2 ^ 149 < 2 ^ 23)
    (h3 : (n : F) - 1 / 2 < x * 2 ^ 149) (h4 : x * 2 ^ 149 < (n : F) + 1 / 2) :
    fl32 x = (n : F) / 2 ^ 149 := by
  have hp : (0 : F) < 2 ^ 149 := by positivity
  have hq : (2 : F) ^ (-149 : Int) = 1 / 2 ^ 149 := by
    rw [zpow_neg, one_div]; norm_cast
  have hm : (2 : F) ^ (-126 : Int) = 2 ^ 23 / 2 ^ 149 := by
    rw [zpow_neg, eq_div_iff (ne_of_gt hp)]
    have : (2 : F) ^ (126 : Int) = 2 ^ 126 := by norm_cast
    rw [this]
    norm_num
  have e := fl32_subnormal x n
    (by
      rw [hm, lt_div_iff₀ hp]
      have : |x| * 2 ^ 149 = |x * 2 ^ 149| := by rw [abs_mul, abs_of_pos hp]
      rw [this, abs_lt]
      exact ⟨h1, h2⟩)
    (by rw [hq, div_div_eq_mul_div, div_one, abs_lt]; constructor <;> linarith)
  rw [e, hq, mul_one_div]

/-- The `float` nearest to `10^-100` is 0: the number is below half the
smallest positive `float`, `2^-149`. -/
theorem exp10f_underflow : fl32 ((10 : ℝ) ^ ((1 / 10 : ℝ) * (-1000))) = 0 := by
  have hpow : (10 : ℝ) ^ ((1 / 10 : ℝ) * (-1000)) = 1 / 10 ^ 100 := by
    have : (1 / 10 : ℝ) * (-1000) = -((100 : ℕ) : ℝ) := by norm_num
    rw [this, Real.rpow_neg (by norm_num), Real.rpow_natCast, one_div]
  rw [hpow, fl32_at_sub (1 / 10 ^ 100 : ℝ) 0 (by norm_num) (by norm_num) (by norm_num)
    (by norm_num)]
  norm_num

/-- `rintf` fixes the integers. -/
theorem rintf_intCast [FloorRing F] (z : Int) : rintf (z : F) = (z : F) := by
  simp only [rintf, Int.floor_intCast, sub_self]
  rw [if_pos (by norm_num)]

/-- `rintf` lies between the floor and the floor plus one, and is an integer. -/
theorem rintf_floor [FloorRing F] (y : F) :
    ((Int.floor y : Int) : F) ≤ rintf y ∧ rintf y ≤ ((Int.floor y : Int) : F) + 1 ∧
    ∃ n : Int, rintf y = (n : F) := by
  unfold rintf
  simp only
  split_ifs
  · exact ⟨le_refl _, by linarith, _, rfl⟩
  · exact ⟨by linarith, le_refl _, Int.floor y + 1, by push_cast; rfl⟩
  · exact ⟨le_refl _, by linarith, _, rfl⟩
  · exact ⟨by linarith, le_refl _, Int.floor y + 1, by push_cast; rfl⟩

/-- `rintf` is monotone. -/
theorem rintf_mono [FloorRing F] (a b : F) (h : a ≤ b) : rintf a ≤ rintf b := by
  have hf : Int.floor a ≤ Int.floor b := Int.floor_mono h
  rcases lt_or_eq_of_le hf with hlt | heq
  · have h1 := (rintf_floor a).2.1
    have h2 := (rintf_floor b).1
    have h3 : ((Int.floor a : Int) : F) + 1 ≤ ((Int.floor b : Int) : F) := by
      have : Int.floor a + 1 ≤ Int.floor b := by omega
      exact_mod_cast this
    linarith
  · unfold rintf
    simp only [heq]
    split_ifs <;> linarith

/-- `rintf` is odd: rounding to the nearest integer, ties to even, is symmetric
about 0. -/
theorem rintf_neg [FloorRing F] (y : F) : rintf (-y) = -rintf y := by
  by_cases hint : ((Int.floor y : Int) : F) = y
  · have e1 : rintf y = ((Int.floor y : Int) : F) := by
      conv_lhs => rw [← hint]
      exact rintf_intCast _
    have e2 : rintf (-y) = ((-(Int.floor y) : Int) : F) := by
      have : -y = ((-(Int.floor y) : Int) : F) := by push_cast; rw [hint]
      conv_lhs => rw [this]
      exact rintf_intCast _
    rw [e1, e2]; push_cast; rfl
  · have h1 : ((Int.floor y : Int) : F) < y := lt_of_le_of_ne (Int.floor_le y) hint
    have h2 : y < ((Int.floor y : Int) : F) + 1 := Int.lt_floor_add_one y
    have hfl : Int.floor (-y) = -(Int.floor y) - 1 := by
      rw [Int.floor_eq_iff]
      push_cast
      constructor <;> linarith
    unfold rintf
    simp only [hfl]
    push_cast
    split_ifs <;> first
      | (exfalso; linarith)
      | (exfalso; omega)
      | ring
/-- Rounding to binary32 is symmetric about 0. -/
theorem fl32_neg [FloorRing F] (x : F) : fl32 (-x) = -fl32 x := by
  unfold fl32
  simp only [abs_neg, neg_div, rintf_neg, neg_mul]

theorem fl32_nonpos [FloorRing F] (x : F) (h : x ≤ 0) : fl32 x ≤ 0 := by
  have := fl32_nonneg (-x) (by linarith)
  rw [fl32_neg] at this
  linarith

/-- Monotonicity of `fl32` on the non-negative numbers. -/
theorem fl32_mono_nonneg [FloorRing F] (x y : F) (hx : 0 ≤ x) (h : x ≤ y) :
    fl32 x ≤ fl32 y := by
  rcases eq_or_lt_of_le hx with h0 | hpos
  · rw [← h0, fl32_zero]
    exact fl32_nonneg y (le_trans hx h)
  · have hy : 0 < y := lt_of_lt_of_le hpos h
    have hlog : Int.log 2 x ≤ Int.log 2 y := Int.log_mono_right hpos h
    have ax : |x| = x := abs_of_pos hpos
    have ay : |y| = y := abs_of_pos hy
    rcases lt_or_eq_of_le (max_le_max_right (-126) hlog) with hlt | heq
    · -- different quanta: a power of two lies between the two values
      have hEy : max (Int.log 2 y) (-126) = Int.log 2 y := by
        rcases le_total (Int.log 2 y) (-126) with hc | hc
        · rw [max_eq_right hc] at hlt
          have := le_max_right (Int.log 2 x) (-126)
          omega
        · exact max_eq_left hc
      have hxu : fl32 x ≤ (2 : F) ^ (max (Int.log 2 x) (-126) + 1) := by
        unfold fl32
        simp only [ax]
        generalize hE : max (Int.log 2 x) (-126) = e
        have hle : Int.log 2 x ≤ e := by rw [← hE]; exact le_max_left _ _
        have hq : (0 : F) < (2 : F) ^ (e - 23) := zpow_pos (by norm_num) _
        have hsplit : (2 : F) ^ (e + 1) = 16777216 * (2 : F) ^ (e - 23) := by
          have : e + 1 = 24 + (e - 23) := by ring
          rw [this, zpow_add₀ (by norm_num)]; norm_num
        have hxlt : x < (2 : F) ^ (e + 1) := by
          have a := Int.lt_zpow_succ_log_self (show 1 < 2 by norm_num) x
          push_cast at a
          exact lt_of_lt_of_le a (zpow_le_zpow_right₀ (by norm_num) (by omega))
        have hr := rintf_le (x / (2 : F) ^ (e - 23)) 16777216 (by
          rw [div_lt_iff₀ hq]; push_cast
          have : (0 : F) < 1 / 2 * (2 : F) ^ (e - 23) := by positivity
          rw [hsplit] at hxlt; linarith)
        push_cast at hr
        calc rintf (x / (2 : F) ^ (e - 23)) * (2 : F) ^ (e - 23)
            ≤ 16777216 * (2 : F) ^ (e - 23) := mul_le_mul_of_nonneg_right hr hq.le
          _ = (2 : F) ^ (e + 1) := hsplit.symm
      have hyl : (2 : F) ^ (Int.log 2 y) ≤ fl32 y := by
        have hzy : (2 : F) ^ (Int.log 2 y) ≤ y := by
          have := Int.zpow_log_le_self (show 1 < 2 by norm_num) hy
          exact_mod_cast this
        unfold fl32
        simp only [ay, hEy]
        generalize Int.log 2 y = e at *
        have hq : (0 : F) < (2 : F) ^ (e - 23) := zpow_pos (by norm_num) _
        have hsplit : (2 : F) ^ e = 8388608 * (2 : F) ^ (e - 23) := by
          have : e = 23 + (e - 23) := by ring
          conv_lhs => rw [this]
          rw [zpow_add₀ (by norm_num)]; norm_num
        have hr : (8388608 : F) ≤ rintf (y / (2 : F) ^ (e - 23)) := by
          have := rintf_mono (((8388608 : Int) : F)) (y / (2 : F) ^ (e - 23)) (by
            rw [le_div_iff₀ hq]; push_cast; rw [← hsplit]; assumption)
          rw [rintf_intCast] at this
          exact_mod_cast this
        calc (2 : F) ^ e = 8388608 * (2 : F) ^ (e - 23) := hsplit
          _ ≤ rintf (y / (2 : F) ^ (e - 23)) * (2 : F) ^ (e - 23) :=
            mul_le_mul_of_nonneg_right hr hq.le
      have hstep : (2 : F) ^ (max (Int.log 2 x) (-126) + 1) ≤ (2 : F) ^ (Int.log 2 y) := by
        rw [hEy] at hlt
        exact zpow_le_zpow_right₀ (by norm_num) (by omega)
      exact le_trans hxu (le_trans hstep hyl)
    · unfold fl32
      simp only [ax, ay, heq]
      have hq : (0 : F) < (2 : F) ^ (max (Int.log 2 y) (-126) - 23) := zpow_pos (by norm_num) _
      exact mul_le_mul_of_nonneg_right
        (rintf_mono _ _ (div_le_div_of_nonneg_right h hq.le)) hq.le

/-- Rounding to binary32 is monotone. -/
theorem fl32_mono [FloorRing F] (x y : F) (h : x ≤ y) : fl32 x ≤ fl32 y := by
  rcases le_total 0 x with hx | hx
  · exact fl32_mono_nonneg x y hx h
  · rcases le_total 0 y with hy | hy
    · exact le_trans (fl32_nonpos x hx) (fl32_nonneg y hy)
    · have := fl32_mono_nonneg (-y) (-x) (by linarith) (by linarith)
      rw [fl32_neg, fl32_neg] at this
      linarith

/-- The attack update in binary32 moves a `float` state `za1` towards the
rounded target `fl32 (p_thr + v)` or leaves it where it is: it never moves it
away. -/
theorem attack32_direction [FloorRing F] (w p v za : F) (hw : 0 ≤ w) (hza : fl32 za = za) :
    (za ≤ fl32 (p + v) → za ≤ Dyncomp_attack32 w p v za) ∧
    (fl32 (p + v) ≤ za → Dyncomp_attack32 w p v za ≤ za) := by
  unfold Dyncomp_attack32
  constructor
  · intro h
    have hd : 0 ≤ fl32 (fl32 (p + v) - za) := fl32_nonneg _ (by linarith)
    have hu : 0 ≤ fl32 (w * fl32 (fl32 (p + v) - za)) := fl32_nonneg _ (mul_nonneg hw hd)
    have := fl32_mono za (za + fl32 (w * fl32 (fl32 (p + v) - za))) (by linarith)
    rw [hza] at this
    exact this
  · intro h
    have hd : fl32 (fl32 (p + v) - za) ≤ 0 := fl32_nonpos _ (by linarith)
    have hu : fl32 (w * fl32 (fl32 (p + v) - za)) ≤ 0 :=
      fl32_nonpos _ (mul_nonpos_of_nonneg_of_nonpos hw hd)
    have := fl32_mono (za + fl32 (w * fl32 (fl32 (p + v) - za))) za (by linarith)
    rw [hza] at this
    exact this

theorem key_silent (g : F) (io : Nat → Nat → F) (j : Nat) (h : ∀ i, io i j = 0) :
    ∀ n, Dyncomp_key g io j n = 0 := by
  intro n
  induction n with
  | zero => rfl
  | succ n ih => simp [Dyncomp_key, ih, h]

/-- The smoothing step of one sample (lv2.c 259-262, 295-298). -/
theorem sample_g (m : Libm F) (s : Dyncomp F) (dg dr : F) (j : Nat) (st : Loop F) :
    (Dyncomp_sample m s dg dr j st).g =
      (if dg ≠ 0 then st.g + s.w_lpf * (s.p_ign - st.g) else st.g) ∧
    (Dyncomp_sample m s dg dr j st).r =
      (if dr ≠ 0 then st.r + s.w_lpf * (s.p_rat - st.r) else st.r) :=
  ⟨rfl, rfl⟩

theorem loop_const (m : Libm F) (s : Dyncomp F) (dg dr : F) (st : Loop F) :
    ∀ k, (dg = 0 → (Dyncomp_loop m s dg dr k st).g = st.g) ∧
      (dr = 0 → (Dyncomp_loop m s dg dr k st).r = st.r) := by
  intro k
  induction k with
  | zero => exact ⟨fun _ => rfl, fun _ => rfl⟩
  | succ k ih =>
    obtain ⟨e1, e2⟩ := sample_g m s dg dr k (Dyncomp_loop m s dg dr k st)
    constructor
    · intro h
      show (Dyncomp_sample m s dg dr k (Dyncomp_loop m s dg dr k st)).g = st.g
      rw [e1, if_neg (not_not.mpr h)]
      exact ih.1 h
    · intro h
      show (Dyncomp_sample m s dg dr k (Dyncomp_loop m s dg dr k st)).r = st.r
      rw [e2, if_neg (not_not.mpr h)]
      exact ih.2 h

/-- What `Dyncomp_process` stores when `za1` ends the block finite. -/
theorem process_finite (m : Libm F) (s : Dyncomp F) (n : Nat) (io : Nat → Nat → F)
    (h : m.isfinite (Dyncomp_at m s io n).za1 = true) :
    (Dyncomp_process m s n io).1.za1 = (Dyncomp_at m s io n).za1 ∧
    (Dyncomp_process m s n io).1.zr1 = (Dyncomp_at m s io n).zr1 ∧
    (Dyncomp_process m s n io).1.zr2 = (Dyncomp_at m s io n).zr2 ∧
    (Dyncomp_process m s n io).1.gmax = (Dyncomp_at m s io n).gmax ∧
    (Dyncomp_process m s n io).1.gmin = (Dyncomp_at m s io n).gmin := by
  simp only [Dyncomp_process, h, Bool.not_true, Bool.false_eq_true, if_false]
  refine ⟨?_, ?_, ?_, ?_, ?_⟩ <;> split_ifs <;> rfl

theorem key_nonneg (g : F) (io : Nat → Nat → F) (j : Nat) :
    ∀ n, 0 ≤ Dyncomp_key g io j n := by
  intro n
  induction n with
  | zero => exact le_refl 0
  | succ n ih =>
    have := mul_self_nonneg (g * io n j)
    simp only [Dyncomp_key]
    linarith

/-- An invariant of the calls: it holds after `Dyncomp_init` and every admitted
call keeps it. -/
theorem run_invariant (m : Libm F) (P : Dyncomp F → Prop) (ok : Op F → Prop)
    (hstep : ∀ s op, ok op → P s → P (Dyncomp_call m s op)) :
    ∀ (ops : List (Op F)) (s0 : Dyncomp F), P s0 → (∀ op ∈ ops, ok op) →
      P (ops.foldl (Dyncomp_call m) s0) := by
  intro ops
  induction ops with
  | nil => intro s0 h0 _; exact h0
  | cons op ops ih =>
    intro s0 h0 hok
    simp only [List.foldl_cons]
    apply ih
    · exact hstep s0 op (hok op (List.mem_cons_self op ops)) h0
    · intro op1 h1
      exact hok op1 (List.mem_cons_of_mem op h1)

/-- The fields `Dyncomp_process` never assigns. -/
theorem process_frame (m : Libm F) (s : Dyncomp F) (n : Nat) (io : Nat → Nat → F) :
    (Dyncomp_process m s n io).1.sample_rate = s.sample_rate ∧
    (Dyncomp_process m s n io).1.n_channels = s.n_channels ∧
    (Dyncomp_process m s n io).1.norm_input = s.norm_input ∧
    (Dyncomp_process m s n io).1.p_rat = s.p_rat ∧
    (Dyncomp_process m s n io).1.hold = s.hold ∧
    (Dyncomp_process m s n io).1.p_ign = s.p_ign ∧
    (Dyncomp_process m s n io).1.l_ign = s.l_ign ∧
    (Dyncomp_process m s n io).1.p_thr = s.p_thr ∧
    (Dyncomp_process m s n io).1.l_thr = s.l_thr ∧
    (Dyncomp_process m s n io).1.w_att = s.w_att ∧
    (Dyncomp_process m s n io).1.w_rel = s.w_rel ∧
    (Dyncomp_process m s n io).1.t_att = s.t_att ∧
    (Dyncomp_process m s n io).1.t_rel = s.t_rel ∧
    (Dyncomp_process m s n io).1.w_rms = s.w_rms ∧
    (Dyncomp_process m s n io).1.w_lpf = s.w_lpf := by
  simp only [Dyncomp_process]
  split_ifs <;> exact ⟨rfl, rfl, rfl, rfl, rfl, rfl, rfl, rfl, rfl, rfl, rfl, rfl, rfl, rfl, rfl⟩

theorem init_fields (self : Dyncomp F) (sr : F) (nc : Nat) :
    Dyncomp_init self sr nc =
      { sample_rate := sr, n_channels := nc, norm_input := 1 / (nc : F),
        ratio := 0, p_rat := 0, hold := false, igain := 1, p_ign := 1, l_ign := 0,
        p_thr := 1 / 20, l_thr := -10,
        w_att := 1 / 2 / (sr * (1 / 100)), w_rel := 7 / 2 / (sr * (3 / 100)),
        t_att := 1 / 100, t_rel := 3 / 100, za1 := 0, zr1 := 0, zr2 := 0,
        newg := true, gmax := 0, gmin := 0, rms := 0,
        w_rms := 5 / sr, w_lpf := 160 / sr } := by
  have h1 : ¬ ((1 : F) / 100 = 0) := by norm_num
  have h2 : ¬ ((3 : F) / 100 = 0) := by norm_num
  simp [Dyncomp_init, Dyncomp_reset, Dyncomp_set_attack, Dyncomp_set_release, h1, h2]

/-- The test `!hold` of the cascade, read on the comparison itself. -/
theorem ite_not_decide {α : Type} (p : Prop) [Decidable p] (a b : α) :
    (if (!decide p) = true then a else b) = if p then b else a := by
  by_cases h : p <;> simp [h]

/-- The release cascade of one sample in terms of the updated `za1`
(lv2.c 279-293). -/
theorem sample_release (m : Libm F) (s : Dyncomp F) (dg dr : F) (j : Nat) (st : Loop F) :
    (Dyncomp_sample m s dg dr j st).zr1 =
      (if st.zr1 < (Dyncomp_sample m s dg dr j st).za1 then (Dyncomp_sample m s dg dr j st).za1
       else if (Dyncomp_sample m s dg dr j st).za1 < (if s.hold = true then 2 * s.p_thr else 0)
         then st.zr1
       else st.zr1 - s.w_rel * st.zr1) ∧
    (Dyncomp_sample m s dg dr j st).zr2 =
      (if st.zr2 < (Dyncomp_sample m s dg dr j st).za1 then (Dyncomp_sample m s dg dr j st).za1
       else if (Dyncomp_sample m s dg dr j st).za1 < (if s.hold = true then 2 * s.p_thr else 0)
         then st.zr2
       else st.zr2 + s.w_rel * ((Dyncomp_sample m s dg dr j st).zr1 - st.zr2)) := by
  simp only [Dyncomp_sample, Dyncomp_holding, ite_not_decide]
  exact ⟨trivial, trivial⟩

/-- C3 (as amended). With hold enabled, a sample step whose updated `za1` is
below `2 * p_thr` never lets the release states decay: `zr1` becomes
`max (zr1, za1)` and `zr2` becomes `max (zr2, za1)`. So each of them is unchanged
when it is at least the updated `za1` and is raised to `za1` otherwise, and when
`zr2 >= za1` and the ratio is settled (`dr = 0`) the gain exponent is unchanged,
whatever the sample values are. -/
theorem C3_hold_freezes_release (m : Libm F) (s : Dyncomp F) (dg dr : F) (j : Nat)
    (st : Loop F) (hh : s.hold = true)
    (hz : (Dyncomp_sample m s dg dr j st).za1 < 2 * s.p_thr) :
    (Dyncomp_sample m s dg dr j st).zr1 = max st.zr1 (Dyncomp_sample m s dg dr j st).za1 ∧
    (Dyncomp_sample m s dg dr j st).zr2 = max st.zr2 (Dyncomp_sample m s dg dr j st).za1 ∧
    ((Dyncomp_sample m s dg dr j st).za1 ≤ st.zr1 →
      (Dyncomp_sample m s dg dr j st).zr1 = st.zr1) ∧
    ((Dyncomp_sample m s dg dr j st).za1 ≤ st.zr2 →
      (Dyncomp_sample m s dg dr j st).zr2 = st.zr2) ∧
    (dr = 0 → (Dyncomp_sample m s dg dr j st).za1 ≤ st.zr2 →
      -(Dyncomp_sample m s dg dr j st).r * m.logf (20 * (Dyncomp_sample m s dg dr j st).zr2) =
        -st.r * m.logf (20 * st.zr2)) := by
  obtain ⟨e1, e2⟩ := sample_release m s dg dr j st
  have hflag : (Dyncomp_sample m s dg dr j st).za1 <
      (if s.hold = true then 2 * s.p_thr else 0) := by rw [if_pos hh]; exact hz
  rw [if_pos hflag] at e1 e2
  have m1 : (Dyncomp_sample m s dg dr j st).zr1 =
      max st.zr1 (Dyncomp_sample m s dg dr j st).za1 := by
    rw [e1]
    split_ifs with h
    · exact (max_eq_right (le_of_lt h)).symm
    · exact (max_eq_left (not_lt.mp h)).symm
  have m2 : (Dyncomp_sample m s dg dr j st).zr2 =
      max st.zr2 (Dyncomp_sample m s dg dr j st).za1 := by
    rw [e2]
    split_ifs with h
    · exact (max_eq_right (le_of_lt h)).symm
    · exact (max_eq_left (not_lt.mp h)).symm
  refine ⟨m1, m2, fun h => by rw [m1]; exact max_eq_left h,
    fun h => by rw [m2]; exact max_eq_left h, ?_⟩
  intro hdr h
  have hr : (Dyncomp_sample m s dg dr j st).r = st.r := by
    simp [Dyncomp_sample, Dyncomp_holding, hdr]
  rw [hr, m2, max_eq_left h]

/-- C3 witness: the settled scenario engine with hold switched on, first sample
of a silent block. -/
theorem C3_hold_freezes_release_witness :
    (Dyncomp_sample
      (Libm.mk Real.log Real.exp (fun x => (10 : ℝ) ^ x) (Real.logb 10) (fun _ => true) fl32)
      (Dyncomp_set_hold Dyncomp_scenario true) 0 0 0
      (Dyncomp_locals (Dyncomp_set_hold Dyncomp_scenario true) (fun _ _ => 0))).za1 <
      2 * (Dyncomp_set_hold (Dyncomp_scenario : Dyncomp ℝ) true).p_thr ∧
    (Dyncomp_sample
      (Libm.mk Real.log Real.exp (fun x => (10 : ℝ) ^ x) (Real.logb 10) (fun _ => true) fl32)
      (Dyncomp_set_hold Dyncomp_scenario true) 0 0 0
      (Dyncomp_locals (Dyncomp_set_hold Dyncomp_scenario true) (fun _ _ => 0))).zr1 =
      max (Dyncomp_locals (Dyncomp_set_hold (Dyncomp_scenario : Dyncomp ℝ) true)
          (fun _ _ => 0)).zr1
        (Dyncomp_sample
          (Libm.mk Real.log Real.exp (fun x => (10 : ℝ) ^ x) (Real.logb 10) (fun _ => true) fl32)
          (Dyncomp_set_hold Dyncomp_scenario true) 0 0 0
          (Dyncomp_locals (Dyncomp_set_hold Dyncomp_scenario true) (fun _ _ => 0))).za1 :=
  ⟨by norm_num [Dyncomp_sample, Dyncomp_holding, Dyncomp_key, Dyncomp_locals, Dyncomp_set_hold, Dyncomp_scenario],
   (C3_hold_freezes_release _ _ 0 0 0 _ rfl
     (by norm_num [Dyncomp_sample, Dyncomp_holding, Dyncomp_key, Dyncomp_locals, Dyncomp_set_hold,
       Dyncomp_scenario])).1⟩

/-- C3 counterexample: hold enabled right after `Dyncomp_init` (48 kHz, mono).
The first sample of a silent block updates `za1` to `p_thr / 960`, below
`2 * p_thr`, and yet changes `zr1` and `zr2` from 0 to that value. -/
theorem C3_hold_step_changes_release :
    (Dyncomp_set_hold (Dyncomp_init (Dyncomp_calloc : Dyncomp ℝ) 48000 1) true).hold = true ∧
    (Dyncomp_at
      (Libm.mk Real.log Real.exp (fun x => (10 : ℝ) ^ x) (Real.logb 10) (fun _ => true) fl32)
      (Dyncomp_set_hold (Dyncomp_init Dyncomp_calloc 48000 1) true) (fun _ _ => 0) 1).za1 <
      2 * (Dyncomp_set_hold (Dyncomp_init (Dyncomp_calloc : Dyncomp ℝ) 48000 1) true).p_thr ∧
    (Dyncomp_at
      (Libm.mk Real.log Real.exp (fun x => (10 : ℝ) ^ x) (Real.logb 10) (fun _ => true) fl32)
      (Dyncomp_set_hold (Dyncomp_init Dyncomp_calloc 48000 1) true) (fun _ _ => 0) 1).zr1 ≠
    (Dyncomp_at
      (Libm.mk Real.log Real.exp (fun x => (10 : ℝ) ^ x) (Real.logb 10) (fun _ => true) fl32)
      (Dyncomp_set_hold (Dyncomp_init Dyncomp_calloc 48000 1) true) (fun _ _ => 0) 0).zr1 ∧
    (Dyncomp_at
      (Libm.mk Real.log Real.exp (fun x => (10 : ℝ) ^ x) (Real.logb 10) (fun _ => true) fl32)
      (Dyncomp_set_hold (Dyncomp_init Dyncomp_calloc 48000 1) true) (fun _ _ => 0) 1).zr2 ≠
    (Dyncomp_at
      (Libm.mk Real.log Real.exp (fun x => (10 : ℝ) ^ x) (Real.logb 10) (fun _ => true) fl32)
      (Dyncomp_set_hold (Dyncomp_init Dyncomp_calloc 48000 1) true) (fun _ _ => 0) 0).zr2 := by
  simp only [init_fields, Dyncomp_set_hold, Dyncomp_at, Dyncomp_loop, Dyncomp_sample, Dyncomp_holding,
    Dyncomp_key, Dyncomp_locals, Dyncomp_dg, Dyncomp_dr]
  norm_num

/-- C4 (as amended). With hold mode enabled the holding flag of a sample step
equals `za1 < 2 * p_thr` for every `za1` and `p_thr`. With hold mode disabled it
equals `za1 < 0`: it is false for every `za1 >= 0`, and then the release cascade
is not frozen (`zr1` either follows `za1` or decays by `w_rel * zr1`, `zr2`
either follows `za1` or moves by `w_rel * (zr1 - zr2)`). -/
theorem C4_holding_flag (m : Libm F) (s : Dyncomp F) (dg dr : F) (j : Nat) (st : Loop F) :
    (s.hold = true → ∀ za1, Dyncomp_holding s za1 = decide (za1 < 2 * s.p_thr)) ∧
    (s.hold = false → ∀ za1, Dyncomp_holding s za1 = decide (za1 < 0)) ∧
    (s.hold = false → ∀ za1, 0 ≤ za1 → Dyncomp_holding s za1 = false) ∧
    (s.hold = false → 0 ≤ (Dyncomp_sample m s dg dr j st).za1 →
      (Dyncomp_sample m s dg dr j st).zr1 =
        (if st.zr1 < (Dyncomp_sample m s dg dr j st).za1
          then (Dyncomp_sample m s dg dr j st).za1
          else st.zr1 - s.w_rel * st.zr1) ∧
      (Dyncomp_sample m s dg dr j st).zr2 =
        (if st.zr2 < (Dyncomp_sample m s dg dr j st).za1
          then (Dyncomp_sample m s dg dr j st).za1
          else st.zr2 + s.w_rel * ((Dyncomp_sample m s dg dr j st).zr1 - st.zr2))) := by
  refine ⟨?_, ?_, ?_, ?_⟩
  · intro hh za1
    simp [Dyncomp_holding, hh]
  · intro hh za1
    simp [Dyncomp_holding, hh]
  · intro hh za1 hza
    simp [Dyncomp_holding, hh, hza]
  · intro hh hza
    obtain ⟨e1, e2⟩ := sample_release m s dg dr j st
    have hflag : ¬ (Dyncomp_sample m s dg dr j st).za1 <
        (if s.hold = true then 2 * s.p_thr else 0) := by
      simp [hh, hza]
    rw [if_neg hflag] at e1 e2
    exact ⟨e1, e2⟩

/-- C4 witness: the settled scenario engine (hold off), first sample of a silent
block; `zr1` decays by `w_rel * zr1`. -/
theorem C4_holding_flag_witness :
    (Dyncomp_scenario : Dyncomp ℝ).hold = false ∧
    (Dyncomp_sample
      (Libm.mk Real.log Real.exp (fun x => (10 : ℝ) ^ x) (Real.logb 10) (fun _ => true) fl32)
      Dyncomp_scenario 0 0 0 (Dyncomp_locals Dyncomp_scenario (fun _ _ => 0))).zr1 =
      1 / 2000 - 7 / 28800 * (1 / 2000) := by
  refine ⟨rfl, ?_⟩
  have h := (C4_holding_flag
      (Libm.mk Real.log Real.exp (fun x => (10 : ℝ) ^ x) (Real.logb 10) (fun _ => true) fl32)
      Dyncomp_scenario 0 0 0 (Dyncomp_locals Dyncomp_scenario (fun _ _ => 0))).2.2.2 rfl
      (by norm_num [Dyncomp_sample, Dyncomp_holding, Dyncomp_key, Dyncomp_locals,
        Dyncomp_scenario])
  rw [h.1]
  norm_num [Dyncomp_sample, Dyncomp_holding, Dyncomp_key, Dyncomp_locals, Dyncomp_scenario]

/-- C4 counterexample: hold mode disabled (the engine right after
`Dyncomp_init`, 48 kHz mono) and `za1 = -1`: the holding flag is true. Such a
`za1` occurs: with the attack time `1/192000` s (`w_att = 2`) a block whose first
sample is 1 and second is 0 takes `za1` to `2.1` and then to `-2`, and the second
step leaves `zr1 = 2.1` frozen although hold mode is disabled. -/
theorem C4_flag_set_with_hold_disabled :
    (Dyncomp_init (Dyncomp_calloc : Dyncomp ℝ) 48000 1).hold = false ∧
    Dyncomp_holding (Dyncomp_init (Dyncomp_calloc : Dyncomp ℝ) 48000 1) (-1) = true ∧
    (Dyncomp_at
      (Libm.mk Real.log Real.exp (fun x => (10 : ℝ) ^ x) (Real.logb 10) (fun _ => true) fl32)
      (Dyncomp_set_attack (Dyncomp_init Dyncomp_calloc 48000 1) (1 / 192000))
      (fun _ j => if j = 0 then 1 else 0) 2).za1 = -2 ∧
    (Dyncomp_at
      (Libm.mk Real.log Real.exp (fun x => (10 : ℝ) ^ x) (Real.logb 10) (fun _ => true) fl32)
      (Dyncomp_set_attack (Dyncomp_init Dyncomp_calloc 48000 1) (1 / 192000))
      (fun _ j => if j = 0 then 1 else 0) 1).zr1 = 21 / 10 ∧
    (Dyncomp_at
      (Libm.mk Real.log Real.exp (fun x => (10 : ℝ) ^ x) (Real.logb 10) (fun _ => true) fl32)
      (Dyncomp_set_attack (Dyncomp_init Dyncomp_calloc 48000 1) (1 / 192000))
      (fun _ j => if j = 0 then 1 else 0) 2).zr1 = 21 / 10 := by
  simp only [init_fields, Dyncomp_set_attack, Dyncomp_at, Dyncomp_loop, Dyncomp_sample,
    Dyncomp_holding, Dyncomp_key, Dyncomp_locals, Dyncomp_dg, Dyncomp_dr]
  norm_num [Dyncomp_key]

/-! ## Parameter smoothing (C5) -/

theorem abs_lt_of_eq_zero (x e : F) (he : 0 < e) (h : (if |x| < e then (0 : F) else x) = 0) :
    |x| < e := by
  by_contra hc
  rw [if_neg hc] at h
  rw [h, abs_zero] at hc
  exact hc he

/-- `dg` is 0 exactly when the gain is snapped, `dr` exactly when the ratio is. -/
theorem dg_dr_zero (s : Dyncomp F) :
    (Dyncomp_dg s = 0 ↔
      (|s.p_ign - s.igain| < 2748779 / 274877906944 ∨ (s.igain > 1 ∧ |s.p_ign - s.igain| < 8589935 / 8589934592))) ∧
    (Dyncomp_dr s = 0 ↔ |s.p_rat - s.ratio| < 2748779 / 274877906944) := by
  constructor
  · simp only [Dyncomp_dg]
    constructor
    · intro h
      by_contra hc
      rw [if_neg hc] at h
      apply hc
      left
      rw [h, abs_zero]
      norm_num
    · intro h
      rw [if_pos h]
  · simp only [Dyncomp_dr]
    constructor
    · intro h
      exact abs_lt_of_eq_zero _ _ (by norm_num) h
    · intro h
      rw [if_pos h]

/-- What `Dyncomp_process` stores as smoothed gain and ratio. -/
theorem process_smoothed (m : Libm F) (s : Dyncomp F) (n : Nat) (io : Nat → Nat → F) :
    (Dyncomp_process m s n io).1.igain = (Dyncomp_at m s io n).g ∧
    (Dyncomp_process m s n io).1.ratio = (Dyncomp_at m s io n).r := by
  simp only [Dyncomp_process]
  constructor <;> split_ifs <;> rfl

/-- The attack filter update of one sample, with the key power `v` of that
sample written out (lv2.c 264-277). -/
theorem sample_za1 (m : Libm F) (s : Dyncomp F) (dg dr : F) (j : Nat) (st : Loop F) :
    (Dyncomp_sample m s dg dr j st).za1 =
      st.za1 + s.w_att * (s.p_thr +
        Dyncomp_key (Dyncomp_sample m s dg dr j st).g st.io j s.n_channels * s.norm_input -
        st.za1) :=
  rfl

theorem sample_io_silent (m : Libm F) (s : Dyncomp F) (dg dr : F) (j : Nat) (st : Loop F)
    (h : ∀ i k, st.io i k = 0) : ∀ i k, (Dyncomp_sample m s dg dr j st).io i k = 0 := by
  intro i k
  show (if k = j ∧ i < s.n_channels then st.io i k * _ else st.io i k) = 0
  simp only [h i k, zero_mul, ite_self]

theorem loop_silent_za1 (m : Libm F) (s : Dyncomp F) (dg dr : F) (st : Loop F)
    (h : ∀ i k, st.io i k = 0) :
    ∀ k, (∀ i l, (Dyncomp_loop m s dg dr k st).io i l = 0) ∧
      (Dyncomp_loop m s dg dr k st).za1 - s.p_thr = (1 - s.w_att) ^ k * (st.za1 - s.p_thr) := by
  intro k
  induction k with
  | zero => exact ⟨h, by simp [Dyncomp_loop]⟩
  | succ k ih =>
    obtain ⟨hio, hz⟩ := ih
    refine ⟨sample_io_silent m s dg dr k _ hio, ?_⟩
    show (Dyncomp_sample m s dg dr k (Dyncomp_loop m s dg dr k st)).za1 - s.p_thr = _
    rw [sample_za1, key_silent _ _ _ (fun i => hio i k), pow_succ]
    linear_combination (1 - s.w_att) * hz

/-- C6 (as amended). In each sample step of `Dyncomp_process`, with `v` the
key power of the sample, `za1` becomes `za1 + w_att * (p_thr + v - za1)`. In
binary32 (`Dyncomp_attack32`, every operation rounded): when the four
operations of the update are exact, the error `za1 - (p_thr + v)` is multiplied
by exactly `1 - w_att`, for `w_att != 0` the step fixes `za1` exactly when
`za1 = p_thr + v`, and for `0 < w_att <= 1` the error neither grows nor changes
sign. With rounding, for `w_att >= 0` and a `float` state `za1`, the update
moves `za1` towards the rounded target `fl32 (p_thr + v)` or leaves it where it
is: a state at or below the target does not decrease, a state at or above it
does not increase, and the target itself is fixed. -/
theorem C6_attack_filter_contracts [FloorRing F] (m : Libm F) (s : Dyncomp F) (dg dr : F)
    (j : Nat) (st : Loop F) :
    (Dyncomp_sample m s dg dr j st).za1 =
      st.za1 + s.w_att * (s.p_thr +
        Dyncomp_key (Dyncomp_sample m s dg dr j st).g st.io j s.n_channels * s.norm_input -
        st.za1) ∧
    (∀ v za : F, fl32 (s.p_thr + v) = s.p_thr + v →
      fl32 (s.p_thr + v - za) = s.p_thr + v - za →
      fl32 (s.w_att * (s.p_thr + v - za)) = s.w_att * (s.p_thr + v - za) →
      fl32 (za + s.w_att * (s.p_thr + v - za)) = za + s.w_att * (s.p_thr + v - za) →
      Dyncomp_attack32 s.w_att s.p_thr v za = za + s.w_att * (s.p_thr + v - za) ∧
      Dyncomp_attack32 s.w_att s.p_thr v za - (s.p_thr + v) =
        (1 - s.w_att) * (za - (s.p_thr + v)) ∧
      (s.w_att ≠ 0 → (Dyncomp_attack32 s.w_att s.p_thr v za = za ↔ za = s.p_thr + v)) ∧
      (0 < s.w_att → s.w_att ≤ 1 →
        |Dyncomp_attack32 s.w_att s.p_thr v za - (s.p_thr + v)| ≤ |za - (s.p_thr + v)| ∧
        0 ≤ (Dyncomp_attack32 s.w_att s.p_thr v za - (s.p_thr + v)) *
          (za - (s.p_thr + v)))) ∧
    (0 ≤ s.w_att → ∀ v za : F, fl32 za = za →
      (za ≤ fl32 (s.p_thr + v) → za ≤ Dyncomp_attack32 s.w_att s.p_thr v za) ∧
      (fl32 (s.p_thr + v) ≤ za → Dyncomp_attack32 s.w_att s.p_thr v za ≤ za) ∧
      (za = fl32 (s.p_thr + v) → Dyncomp_attack32 s.w_att s.p_thr v za = za)) := by
  refine ⟨sample_za1 m s dg dr j st, ?_, ?_⟩
  · intro v za h1 h2 h3 h4
    have e0 : Dyncomp_attack32 s.w_att s.p_thr v za = za + s.w_att * (s.p_thr + v - za) := by
      unfold Dyncomp_attack32
      rw [h1, h2, h3, h4]
    have e1 : Dyncomp_attack32 s.w_att s.p_thr v za - (s.p_thr + v) =
        (1 - s.w_att) * (za - (s.p_thr + v)) := by
      rw [e0]; ring
    refine ⟨e0, e1, ?_, ?_⟩
    · intro hw
      constructor
      · intro h
        have h5 : s.w_att * (s.p_thr + v - za) = 0 := by
          have := e0
          rw [h] at this
          linarith
        rcases mul_eq_zero.mp h5 with h6 | h6
        · exact absurd h6 hw
        · linarith
      · intro h
        rw [e0, h]
        ring
    · intro h0 h1
      have hc : 0 ≤ 1 - s.w_att := by linarith
      constructor
      · rw [e1, abs_mul, abs_of_nonneg hc]
        have := abs_nonneg (za - (s.p_thr + v))
        nlinarith
      · rw [e1]
        nlinarith [mul_nonneg hc (mul_self_nonneg (za - (s.p_thr + v)))]
  · intro hw x za hza
    obtain ⟨a, b⟩ := attack32_direction s.w_att s.p_thr x za hw hza
    exact ⟨a, b, fun h => le_antisymm (b (le_of_eq h.symm)) (a (le_of_eq h))⟩

/-- C6 witness: the engine right after `Dyncomp_init` (48 kHz mono,
`w_att = 1/960`, `p_thr = 0.05`): the first sample of a block holding the
sample value 1 in exact arithmetic, and the binary32 update on silence from
`za1 = 0`, which does not go below 0. -/
theorem C6_attack_filter_contracts_witness :
    (Dyncomp_sample
      (Libm.mk Real.log Real.exp (fun x => (10 : ℝ) ^ x) (Real.logb 10) (fun _ => true) fl32)
      (Dyncomp_init Dyncomp_calloc 48000 1) 0 0 0
      (Dyncomp_locals (Dyncomp_init Dyncomp_calloc 48000 1) (fun _ _ => 1))).za1 =
      0 + 1 / 960 * (1 / 20 + 1 - 0) ∧
    (0 : ℝ) ≤ Dyncomp_attack32 (Dyncomp_init (Dyncomp_calloc : Dyncomp ℝ) 48000 1).w_att
      (Dyncomp_init (Dyncomp_calloc : Dyncomp ℝ) 48000 1).p_thr 0 0 := by
  refine ⟨?_, ?_⟩
  · rw [(C6_attack_filter_contracts
      (Libm.mk Real.log Real.exp (fun x => (10 : ℝ) ^ x) (Real.logb 10) (fun _ => true) fl32)
      (Dyncomp_init Dyncomp_calloc 48000 1) 0 0 0
      (Dyncomp_locals (Dyncomp_init Dyncomp_calloc 48000 1) (fun _ _ => 1))).1]
    have hg : (Dyncomp_sample
        (Libm.mk Real.log Real.exp (fun x => (10 : ℝ) ^ x) (Real.logb 10) (fun _ => true) fl32)
        (Dyncomp_init Dyncomp_calloc 48000 1) 0 0 0
        (Dyncomp_locals (Dyncomp_init Dyncomp_calloc 48000 1) (fun _ _ => 1))).g = 1 := by
      rw [(sample_g _ _ _ _ _ _).1]
      simp [init_fields, Dyncomp_locals]
    rw [hg]
    simp only [init_fields, Dyncomp_locals, Dyncomp_key]
    norm_num
  · have hw : (0 : ℝ) ≤ (Dyncomp_init (Dyncomp_calloc : Dyncomp ℝ) 48000 1).w_att := by
      norm_num [init_fields]
    have hp : (0 : ℝ) ≤ (Dyncomp_init (Dyncomp_calloc : Dyncomp ℝ) 48000 1).p_thr + 0 := by
      norm_num [init_fields]
    exact ((C6_attack_filter_contracts
      (Libm.mk Real.log Real.exp (fun x => (10 : ℝ) ^ x) (Real.logb 10) (fun _ => true) fl32)
      (Dyncomp_init Dyncomp_calloc 48000 1) 0 0 0
      (Dyncomp_locals (Dyncomp_init Dyncomp_calloc 48000 1) (fun _ _ => 1))).2.2
      hw 0 0 fl32_zero).1 (fl32_nonneg _ hp)

/-- C6 counterexample. The attack update in binary32 for the mono engine at
48 kHz with the default attack time and the threshold at -30 dB: the
coefficient is `w_att = 0.5f / (48000 * 0.01f) = 8947849 / 2^33` and the
threshold power `p_thr = 0.5f * 0.001f = 8589935 / 2^34`. On silence (`v = 0`)
the update maps `za1 = 536841 / 2^30` (0.000499972142) to itself, although it
is below `p_thr + v` (0.000500000024): the step `w_att * (p_thr - za1)` is less
than half the spacing of the floats at `za1`. So the error is not multiplied
by `1 - w_att`, and `p_thr + v` is not the only fixed point. -/
theorem C6_attack_filter_stalls :
    fl32 (1 / 2 / fl32 (48000 * fl32 (1 / 100 : ℝ))) = 8947849 / 8589934592 ∧
    fl32 (1 / 2 * fl32 (1 / 1000 : ℝ)) = 8589935 / 17179869184 ∧
    Dyncomp_attack32 (8947849 / 8589934592 : ℝ) (8589935 / 17179869184) 0
      (536841 / 1073741824) = 536841 / 1073741824 ∧
    (536841 / 1073741824 : ℝ) < 8589935 / 17179869184 + 0 ∧
    (0 : ℝ) < 8947849 / 8589934592 ∧ (8947849 / 8589934592 : ℝ) ≤ 1 := by
  have a1 : fl32 (1 / 100 : ℝ) = 5368709 / 536870912 := by
    rw [fl32_at_pos (1 / 100 : ℝ) 30 10737418 (by norm_num) (by norm_num) (by norm_num)
      (by norm_num) (by norm_num)]
    norm_num
  have a2 : fl32 (48000 * (5368709 / 536870912) : ℝ) = 480 := by
    rw [fl32_at_pos (48000 * (5368709 / 536870912) : ℝ) 15 15728640 (by norm_num)
      (by norm_num) (by norm_num) (by norm_num) (by norm_num)]
    norm_num
  have a3 : fl32 (1 / 2 / 480 : ℝ) = 8947849 / 8589934592 := by
    rw [fl32_at_pos (1 / 2 / 480 : ℝ) 33 8947849 (by norm_num) (by norm_num) (by norm_num)
      (by norm_num) (by norm_num)]
    norm_num
  have b1 : fl32 (1 / 1000 : ℝ) = 8589935 / 8589934592 := by
    rw [fl32_at_pos (1 / 1000 : ℝ) 33 8589935 (by norm_num) (by norm_num) (by norm_num)
      (by norm_num) (by norm_num)]
    norm_num
  have b2 : fl32 (1 / 2 * (8589935 / 8589934592) : ℝ) = 8589935 / 17179869184 := by
    rw [fl32_at_pos (1 / 2 * (8589935 / 8589934592) : ℝ) 34 8589935 (by norm_num)
      (by norm_num) (by norm_num) (by norm_num) (by norm_num)]
    norm_num
  have c1 : fl32 (8589935 / 17179869184 + 0 : ℝ) = 8589935 / 17179869184 := by
    rw [fl32_at_pos (8589935 / 17179869184 + 0 : ℝ) 34 8589935 (by norm_num)
      (by norm_num) (by norm_num) (by norm_num) (by norm_num)]
    norm_num
  have c2 : fl32 (8589935 / 17179869184 - 536841 / 1073741824 : ℝ) = 479 / 17179869184 := by
    rw [fl32_at_pos (8589935 / 17179869184 - 536841 / 1073741824 : ℝ) 49 15695872
      (by norm_num) (by norm_num) (by norm_num) (by norm_num) (by norm_num)]
    norm_num
  have c3 : fl32 (8947849 / 8589934592 * (479 / 17179869184) : ℝ) =
      2092783 / 72057594037927936 := by
    rw [fl32_at_pos (8947849 / 8589934592 * (479 / 17179869184) : ℝ) 59 16742264
      (by norm_num) (by norm_num) (by norm_num) (by norm_num) (by norm_num)]
    norm_num
  have c4 : fl32 (536841 / 1073741824 + 2092783 / 72057594037927936 : ℝ) =
      536841 / 1073741824 := by
    rw [fl32_at_pos (536841 / 1073741824 + 2092783 / 72057594037927936 : ℝ) 34 8589456
      (by norm_num) (by norm_num) (by norm_num) (by norm_num) (by norm_num)]
    norm_num
  refine ⟨by rw [a1, a2, a3], by rw [b1, b2], ?_, by norm_num, by norm_num, by norm_num⟩
  unfold Dyncomp_attack32
  rw [c1, c2, c3, c4]

/-! ## The cached setters (C7, C8, C9) -/

/-- After a cached setter ran with `x`, its cache holds `x`. -/
theorem setter_cache (m : Libm F) (s : Dyncomp F) (x : F) :
    (Dyncomp_set_inputgain m s x).l_ign = x ∧ (Dyncomp_set_threshold m s x).l_thr = x ∧
    (Dyncomp_set_attack s x).t_att = x ∧ (Dyncomp_set_release s x).t_rel = x := by
  refine ⟨?_, ?_, ?_, ?_⟩
  · simp only [Dyncomp_set_inputgain]; split_ifs with h
    · exact h.symm
    · rfl
  · simp only [Dyncomp_set_threshold]; split_ifs with h
    · exact h.symm
    · rfl
  · simp only [Dyncomp_set_attack]; split_ifs with h
    · exact h.symm
    · rfl
  · simp only [Dyncomp_set_release]; split_ifs with h
    · exact h.symm
    · rfl

/-- A cache is only written by its own setter. -/
theorem cache_frame (m : Libm F) (s : Dyncomp F) (op : Op F) :
    ((∀ g, op ≠ Op.set_inputgain g) → (Dyncomp_call m s op).l_ign = s.l_ign) ∧
    ((∀ t, op ≠ Op.set_threshold t) → (Dyncomp_call m s op).l_thr = s.l_thr) ∧
    ((∀ a, op ≠ Op.set_attack a) → (Dyncomp_call m s op).t_att = s.t_att) ∧
    ((∀ r, op ≠ Op.set_release r) → (Dyncomp_call m s op).t_rel = s.t_rel) := by
  cases op with
  | reset => exact ⟨fun _ => rfl, fun _ => rfl, fun _ => rfl, fun _ => rfl⟩
  | set_ratio r => exact ⟨fun _ => rfl, fun _ => rfl, fun _ => rfl, fun _ => rfl⟩
  | set_inputgain g =>
    refine ⟨fun h => absurd rfl (h g), fun _ => ?_, fun _ => ?_, fun _ => ?_⟩ <;>
      simp only [Dyncomp_call, Dyncomp_set_inputgain] <;> split_ifs <;> rfl
  | set_threshold t =>
    refine ⟨fun _ => ?_, fun h => absurd rfl (h t), fun _ => ?_, fun _ => ?_⟩ <;>
      simp only [Dyncomp_call, Dyncomp_set_threshold] <;> split_ifs <;> rfl
  | set_hold b => exact ⟨fun _ => rfl, fun _ => rfl, fun _ => rfl, fun _ => rfl⟩
  | set_attack a =>
    refine ⟨fun _ => ?_, fun _ => ?_, fun h => absurd rfl (h a), fun _ => ?_⟩ <;>
      simp only [Dyncomp_call, Dyncomp_set_attack] <;> split_ifs <;> rfl
  | set_release r =>
    refine ⟨fun _ => ?_, fun _ => ?_, fun _ => ?_, fun h => absurd rfl (h r)⟩ <;>
      simp only [Dyncomp_call, Dyncomp_set_release] <;> split_ifs <;> rfl
  | get_gain => exact ⟨fun _ => rfl, fun _ => rfl, fun _ => rfl, fun _ => rfl⟩
  | process n io =>
    obtain ⟨_, _, _, _, _, _, f7, _, f9, _, _, f12, f13, _⟩ := process_frame m s n io
    exact ⟨fun _ => f7, fun _ => f9, fun _ => f12, fun _ => f13⟩

/-- C7. `Dyncomp_set_inputgain`, `Dyncomp_set_threshold`, `Dyncomp_set_attack`
and `Dyncomp_set_release` leave the whole record unchanged when called with the
value they were last applied with: each returns the record as it is on its
cached value (`l_ign`, `l_thr`, `t_att`, `t_rel`), the cache holds the value of
the setter's last call, and no other call writes it. So calling one of them
twice with the same `x` gives the same record as calling it once. -/
theorem C7_setters_idempotent (m : Libm F) (s : Dyncomp F) (x : F) (op : Op F) :
    (Dyncomp_set_inputgain m s s.l_ign = s ∧ Dyncomp_set_threshold m s s.l_thr = s ∧
      Dyncomp_set_attack s s.t_att = s ∧ Dyncomp_set_release s s.t_rel = s) ∧
    ((Dyncomp_set_inputgain m s x).l_ign = x ∧ (Dyncomp_set_threshold m s x).l_thr = x ∧
      (Dyncomp_set_attack s x).t_att = x ∧ (Dyncomp_set_release s x).t_rel = x) ∧
    (((∀ g, op ≠ Op.set_inputgain g) → (Dyncomp_call m s op).l_ign = s.l_ign) ∧
      ((∀ t, op ≠ Op.set_threshold t) → (Dyncomp_call m s op).l_thr = s.l_thr) ∧
      ((∀ a, op ≠ Op.set_attack a) → (Dyncomp_call m s op).t_att = s.t_att) ∧
      ((∀ r, op ≠ Op.set_release r) → (Dyncomp_call m s op).t_rel = s.t_rel)) ∧
    (Dyncomp_set_inputgain m (Dyncomp_set_inputgain m s x) x = Dyncomp_set_inputgain m s x ∧
      Dyncomp_set_threshold m (Dyncomp_set_threshold m s x) x = Dyncomp_set_threshold m s x ∧
      Dyncomp_set_attack (Dyncomp_set_attack s x) x = Dyncomp_set_attack s x ∧
      Dyncomp_set_release (Dyncomp_set_release s x) x = Dyncomp_set_release s x) := by
  have hnoop : ∀ t : Dyncomp F,
      Dyncomp_set_inputgain m t t.l_ign = t ∧ Dyncomp_set_threshold m t t.l_thr = t ∧
      Dyncomp_set_attack t t.t_att = t ∧ Dyncomp_set_release t t.t_rel = t := by
    intro t
    simp [Dyncomp_set_inputgain, Dyncomp_set_threshold, Dyncomp_set_attack,
      Dyncomp_set_release]
  obtain ⟨c1, c2, c3, c4⟩ := setter_cache m s x
  refine ⟨hnoop s, setter_cache m s x, cache_frame m s op, ?_, ?_, ?_, ?_⟩
  · have := (hnoop (Dyncomp_set_inputgain m s x)).1
    rwa [c1] at this
  · have := (hnoop (Dyncomp_set_threshold m s x)).2.1
    rwa [c2] at this
  · have := (hnoop (Dyncomp_set_attack s x)).2.2.1
    rwa [c3] at this
  · have := (hnoop (Dyncomp_set_release s x)).2.2.2
    rwa [c4] at this

/-- C7 witness: `Dyncomp_set_attack (0.01)` right after `Dyncomp_init` and after
a processed block changes nothing. -/
theorem C7_setters_idempotent_witness :
    Dyncomp_set_attack (Dyncomp_init (Dyncomp_calloc : Dyncomp ℝ) 48000 1) (1 / 100) =
      Dyncomp_init (Dyncomp_calloc : Dyncomp ℝ) 48000 1 ∧
    (Dyncomp_call
      (Libm.mk Real.log Real.exp (fun x => (10 : ℝ) ^ x) (Real.logb 10) (fun _ => true) fl32)
      (Dyncomp_init Dyncomp_calloc 48000 1) (Op.process 2 (fun _ _ => 1))).t_att =
      (Dyncomp_init (Dyncomp_calloc : Dyncomp ℝ) 48000 1).t_att := by
  have h := C7_setters_idempotent
    (Libm.mk Real.log Real.exp (fun x => (10 : ℝ) ^ x) (Real.logb 10) (fun _ => true) fl32)
    (Dyncomp_init Dyncomp_calloc 48000 1) (1 / 100) (Op.process 2 (fun _ _ => 1))
  refine ⟨?_, h.2.2.1.2.2.1 (fun a hc => Op.noConfusion hc)⟩
  have h3 := h.1.2.2.1
  have ht : (Dyncomp_init (Dyncomp_calloc : Dyncomp ℝ) 48000 1).t_att = 1 / 100 := by
    rw [init_fields]
  rwa [ht] at h3

/-- Invariant behind C8: the cached decibel values and the stored linear values
agree. -/
theorem target_invariant (m : Libm F) (s : Dyncomp F) (op : Op F)
    (h : s.p_thr = 1 / 2 * m.exp10f (1 / 10 * s.l_thr) ∧ s.p_ign = m.exp10f (1 / 20 * s.l_ign)) :
    (Dyncomp_call m s op).p_thr = 1 / 2 * m.exp10f (1 / 10 * (Dyncomp_call m s op).l_thr) ∧
    (Dyncomp_call m s op).p_ign = m.exp10f (1 / 20 * (Dyncomp_call m s op).l_ign) := by
  cases op with
  | reset => exact h
  | set_ratio r => exact h
  | set_inputgain g =>
    simp only [Dyncomp_call, Dyncomp_set_inputgain]
    split_ifs
    · exact h
    · exact ⟨h.1, rfl⟩
  | set_threshold t =>
    simp only [Dyncomp_call, Dyncomp_set_threshold]
    split_ifs
    · exact h
    · exact ⟨rfl, h.2⟩
  | set_hold b => exact h
  | set_attack a =>
    simp only [Dyncomp_call, Dyncomp_set_attack]
    split_ifs <;> exact h
  | set_release r =>
    simp only [Dyncomp_call, Dyncomp_set_release]
    split_ifs <;> exact h
  | get_gain => exact h
  | process n io =>
    obtain ⟨_, _, _, _, _, f6, f7, f8, f9, _⟩ := process_frame m s n io
    show (Dyncomp_process m s n io).1.p_thr = _ ∧ (Dyncomp_process m s n io).1.p_ign = _
    rw [f6, f8]
    show s.p_thr = 1 / 2 * m.exp10f (1 / 10 * (Dyncomp_process m s n io).1.l_thr) ∧
      s.p_ign = m.exp10f (1 / 20 * (Dyncomp_process m s n io).1.l_ign)
    rw [f7, f9]
    exact h

/-- C8 (as amended). In every state reachable from `Dyncomp_init`, after
`Dyncomp_set_threshold (t)` with `t` in `[-370, 370]` dB the threshold power is
`p_thr = 0.5 * 10^(0.1 * t) > 0`, and after `Dyncomp_set_inputgain (g)` with `g`
in `[-740, 740]` dB the gain target is `p_ign = 10^(0.05 * g) > 0`, whether the
setter recomputes or returns on its cached value; neither setter changes the
smoothed gain `igain`. In these ranges the argument of `exp10f` is in
`[-37, 37]`, where `10^x` is a normal `float`; only there `exp10f` is taken to
be `10^x`. The calls before may have any arguments. -/
theorem C8_threshold_and_gain_targets (m : Libm ℝ) (self : Dyncomp ℝ) (sample_rate : ℝ)
    (n_channels : Nat) (ops : List (Op ℝ)) (t g : ℝ)
    (h10 : ∀ x, -37 ≤ x → x ≤ 37 → m.exp10f x = (10 : ℝ) ^ x)
    (ht : -370 ≤ t ∧ t ≤ 370) (hg : -740 ≤ g ∧ g ≤ 740) :
    (Dyncomp_set_threshold m (Dyncomp_run m self sample_rate n_channels ops) t).p_thr =
      1 / 2 * (10 : ℝ) ^ (1 / 10 * t) ∧
    0 < (Dyncomp_set_threshold m (Dyncomp_run m self sample_rate n_channels ops) t).p_thr ∧
    (Dyncomp_set_inputgain m (Dyncomp_run m self sample_rate n_channels ops) g).p_ign =
      (10 : ℝ) ^ (1 / 20 * g) ∧
    0 < (Dyncomp_set_inputgain m (Dyncomp_run m self sample_rate n_channels ops) g).p_ign ∧
    (Dyncomp_set_threshold m (Dyncomp_run m self sample_rate n_channels ops) t).igain =
      (Dyncomp_run m self sample_rate n_channels ops).igain ∧
    (Dyncomp_set_inputgain m (Dyncomp_run m self sample_rate n_channels ops) g).igain =
      (Dyncomp_run m self sample_rate n_channels ops).igain := by
  have hthr : m.exp10f (1 / 10 * t) = (10 : ℝ) ^ (1 / 10 * t) :=
    h10 _ (by linarith [ht.1]) (by linarith [ht.2])
  have hign : m.exp10f (1 / 20 * g) = (10 : ℝ) ^ (1 / 20 * g) :=
    h10 _ (by linarith [hg.1]) (by linarith [hg.2])
  have hinit : (Dyncomp_init self sample_rate n_channels).p_thr =
        1 / 2 * m.exp10f (1 / 10 * (Dyncomp_init self sample_rate n_channels).l_thr) ∧
      (Dyncomp_init self sample_rate n_channels).p_ign =
        m.exp10f (1 / 20 * (Dyncomp_init self sample_rate n_channels).l_ign) := by
    rw [init_fields]
    constructor
    · show (1 / 20 : ℝ) = 1 / 2 * m.exp10f (1 / 10 * (-10))
      rw [h10 _ (by norm_num) (by norm_num)]
      have : (1 / 10 : ℝ) * (-10) = -1 := by norm_num
      rw [this, Real.rpow_neg_one]
      norm_num
    · show (1 : ℝ) = m.exp10f (1 / 20 * 0)
      rw [h10 _ (by norm_num) (by norm_num)]
      simp
  have hrun := run_invariant m
    (fun s => s.p_thr = 1 / 2 * m.exp10f (1 / 10 * s.l_thr) ∧
      s.p_ign = m.exp10f (1 / 20 * s.l_ign))
    (fun _ => True) (fun s op _ h => target_invariant m s op h)
    ops (Dyncomp_init self sample_rate n_channels) hinit (fun _ _ => trivial)
  have hs : (Dyncomp_run m self sample_rate n_channels ops).p_thr =
        1 / 2 * m.exp10f (1 / 10 * (Dyncomp_run m self sample_rate n_channels ops).l_thr) ∧
      (Dyncomp_run m self sample_rate n_channels ops).p_ign =
        m.exp10f (1 / 20 * (Dyncomp_run m self sample_rate n_channels ops).l_ign) := hrun
  have e1 : (Dyncomp_set_threshold m (Dyncomp_run m self sample_rate n_channels ops) t).p_thr =
      1 / 2 * (10 : ℝ) ^ (1 / 10 * t) := by
    simp only [Dyncomp_set_threshold]
    split_ifs with h
    · rw [hs.1, ← h, hthr]
    · show 1 / 2 * m.exp10f (1 / 10 * t) = _
      rw [hthr]
  have e2 : (Dyncomp_set_inputgain m (Dyncomp_run m self sample_rate n_channels ops) g).p_ign =
      (10 : ℝ) ^ (1 / 20 * g) := by
    simp only [Dyncomp_set_inputgain]
    split_ifs with h
    · rw [hs.2, ← h, hign]
    · show m.exp10f (1 / 20 * g) = _
      rw [hign]
  have hpos : ∀ x : ℝ, 0 < (10 : ℝ) ^ x := fun x => Real.rpow_pos_of_pos (by norm_num) x
  refine ⟨e1, ?_, e2, ?_, ?_, ?_⟩
  · rw [e1]
    have := hpos (1 / 10 * t)
    linarith
  · rw [e2]
    exact hpos _
  · simp only [Dyncomp_set_threshold]
    split_ifs <;> rfl
  · simp only [Dyncomp_set_inputgain]
    split_ifs <;> rfl

/-- C8 witness: 48 kHz mono, threshold set to -30 dB and input gain to 6 dB
after `Dyncomp_init`; then the threshold -20 dB is stored as
`0.5 * 10^(-2)`. -/
theorem C8_threshold_and_gain_targets_witness :
    (∀ x : ℝ, -37 ≤ x → x ≤ 37 →
      (Libm.mk Real.log Real.exp (fun x => (10 : ℝ) ^ x) (Real.logb 10) (fun _ => true)
        fl32).exp10f x = (10 : ℝ) ^ x) ∧
    ((-370 : ℝ) ≤ -20 ∧ (-20 : ℝ) ≤ 370) ∧ ((-740 : ℝ) ≤ 0 ∧ (0 : ℝ) ≤ 740) ∧
    (Dyncomp_set_threshold
      (Libm.mk Real.log Real.exp (fun x => (10 : ℝ) ^ x) (Real.logb 10) (fun _ => true) fl32)
      (Dyncomp_run
        (Libm.mk Real.log Real.exp (fun x => (10 : ℝ) ^ x) (Real.logb 10) (fun _ => true) fl32)
        Dyncomp_calloc 48000 1 [Op.set_threshold (-30), Op.set_inputgain 6]) (-20)).p_thr =
      1 / 2 * (10 : ℝ) ^ (1 / 10 * (-20 : ℝ)) :=
  ⟨fun _ _ _ => rfl, ⟨by norm_num, by norm_num⟩, ⟨by norm_num, by norm_num⟩,
   (C8_threshold_and_gain_targets
      (Libm.mk Real.log Real.exp (fun x => (10 : ℝ) ^ x) (Real.logb 10) (fun _ => true) fl32)
      Dyncomp_calloc 48000 1 [Op.set_threshold (-30), Op.set_inputgain 6] (-20) 0
      (fun _ _ _ => rfl) ⟨by norm_num, by norm_num⟩ ⟨by norm_num, by norm_num⟩).1⟩

/-- C8 counterexample: 48 kHz mono right after `Dyncomp_init`, with `exp10f`
returning the `float` nearest to `10^x`. The threshold -1000 dB is not the
cached value, so the setter computes `0.5f * exp10f (-100)`; `10^-100` is
below half the smallest positive `float` (`2^-149`, about `1.4e-45`) and
rounds to 0: the stored threshold power is 0, not positive. -/
theorem C8_threshold_power_zero :
    (Dyncomp_set_threshold
      (Libm.mk Real.log Real.exp (fun x => fl32 ((10 : ℝ) ^ x)) (Real.logb 10) (fun _ => true)
        fl32)
      (Dyncomp_run
        (Libm.mk Real.log Real.exp (fun x => fl32 ((10 : ℝ) ^ x)) (Real.logb 10)
          (fun _ => true) fl32)
        Dyncomp_calloc 48000 1 []) (-1000)).p_thr = 0 := by
  simp only [Dyncomp_run, List.foldl_nil, Dyncomp_set_threshold, init_fields]
  rw [if_neg (by norm_num)]
  show 1 / 2 * fl32 ((10 : ℝ) ^ ((1 / 10 : ℝ) * (-1000))) = 0
  rw [exp10f_underflow, mul_zero]

/-- Invariant behind C9: the cached times and the coefficients agree. -/
theorem coeff_invariant (m : Libm F) (sr : F) (s : Dyncomp F) (op : Op F)
    (h : s.sample_rate = sr ∧ s.w_att = 1 / 2 / (sr * s.t_att) ∧
      s.w_rel = 7 / 2 / (sr * s.t_rel)) :
    (Dyncomp_call m s op).sample_rate = sr ∧
    (Dyncomp_call m s op).w_att = 1 / 2 / (sr * (Dyncomp_call m s op).t_att) ∧
    (Dyncomp_call m s op).w_rel = 7 / 2 / (sr * (Dyncomp_call m s op).t_rel) := by
  obtain ⟨h1, h2, h3⟩ := h
  cases op with
  | reset => exact ⟨h1, h2, h3⟩
  | set_ratio r => exact ⟨h1, h2, h3⟩
  | set_inputgain g =>
    simp only [Dyncomp_call, Dyncomp_set_inputgain]
    split_ifs <;> exact ⟨h1, h2, h3⟩
  | set_threshold t =>
    simp only [Dyncomp_call, Dyncomp_set_threshold]
    split_ifs <;> exact ⟨h1, h2, h3⟩
  | set_hold b => exact ⟨h1, h2, h3⟩
  | set_attack a =>
    simp only [Dyncomp_call, Dyncomp_set_attack]
    split_ifs
    · exact ⟨h1, h2, h3⟩
    · refine ⟨h1, ?_, h3⟩
      show 1 / 2 / (s.sample_rate * a) = 1 / 2 / (sr * a)
      rw [h1]
  | set_release r =>
    simp only [Dyncomp_call, Dyncomp_set_release]
    split_ifs
    · exact ⟨h1, h2, h3⟩
    · refine ⟨h1, h2, ?_⟩
      show 7 / 2 / (s.sample_rate * r) = 7 / 2 / (sr * r)
      rw [h1]
  | get_gain => exact ⟨h1, h2, h3⟩
  | process n io =>
    obtain ⟨f1, _, _, _, _, _, _, _, _, f10, f11, f12, f13, _⟩ := process_frame m s n io
    show (Dyncomp_process m s n io).1.sample_rate = sr ∧
      (Dyncomp_process m s n io).1.w_att = 1 / 2 / (sr * (Dyncomp_process m s n io).1.t_att) ∧
      (Dyncomp_process m s n io).1.w_rel = 7 / 2 / (sr * (Dyncomp_process m s n io).1.t_rel)
    rw [f1, f10, f11, f12, f13]
    exact ⟨h1, h2, h3⟩

/-- C9. In every state reachable from `Dyncomp_init` at a sample rate other
than 0, the coefficients and the cached times agree, so after
`Dyncomp_set_attack (a)` with `a > 0` the attack coefficient is
`w_att = 0.5 / (sample_rate * a)` and after `Dyncomp_set_release (r)` with
`r > 0` the release coefficient is `w_rel = 3.5 / (sample_rate * r)`, on the
recomputing and on the cached path. The quotients are those of the field: the
divisors `sample_rate * a` and `sample_rate * r` are not 0 (at
`sample_rate = 0` the C division gives an infinity, which the field does not
have) and lie between `2^-126` and `2^126` in absolute value, the range in
which the `float` product is normal and its reciprocal does not overflow; the
coefficients are then at most `2^125` and `7 * 2^125` in absolute value. The
calls before may have any arguments; the coefficient of the state agrees with
its cached time whenever that time is in the same range. Both coefficients are
positive for a positive sample rate. -/
theorem C9_attack_release_coefficients (m : Libm F) (self : Dyncomp F) (sample_rate : F)
    (n_channels : Nat) (ops : List (Op F)) (a r : F) (hsr : sample_rate ≠ 0)
    (ha : 0 < a) (hr : 0 < r)
    (hA : 1 / 2 ^ 126 ≤ |sample_rate * a| ∧ |sample_rate * a| ≤ 2 ^ 126)
    (hR : 1 / 2 ^ 126 ≤ |sample_rate * r| ∧ |sample_rate * r| ≤ 2 ^ 126) :
    sample_rate * a ≠ 0 ∧ sample_rate * r ≠ 0 ∧
    (Dyncomp_set_attack (Dyncomp_run m self sample_rate n_channels ops) a).w_att =
      1 / 2 / (sample_rate * a) ∧
    (Dyncomp_set_release (Dyncomp_run m self sample_rate n_channels ops) r).w_rel =
      7 / 2 / (sample_rate * r) ∧
    (1 / 2 ^ 126 ≤ |sample_rate * (Dyncomp_run m self sample_rate n_channels ops).t_att| →
      |sample_rate * (Dyncomp_run m self sample_rate n_channels ops).t_att| ≤ 2 ^ 126 →
      (Dyncomp_run m self sample_rate n_channels ops).w_att =
        1 / 2 / (sample_rate * (Dyncomp_run m self sample_rate n_channels ops).t_att)) ∧
    (1 / 2 ^ 126 ≤ |sample_rate * (Dyncomp_run m self sample_rate n_channels ops).t_rel| →
      |sample_rate * (Dyncomp_run m self sample_rate n_channels ops).t_rel| ≤ 2 ^ 126 →
      (Dyncomp_run m self sample_rate n_channels ops).w_rel =
        7 / 2 / (sample_rate * (Dyncomp_run m self sample_rate n_channels ops).t_rel)) ∧
    (0 < sample_rate →
      0 < (Dyncomp_set_attack (Dyncomp_run m self sample_rate n_channels ops) a).w_att ∧
      0 < (Dyncomp_set_release (Dyncomp_run m self sample_rate n_channels ops) r).w_rel) ∧
    |(Dyncomp_set_attack (Dyncomp_run m self sample_rate n_channels ops) a).w_att| ≤ 2 ^ 125 ∧
    |(Dyncomp_set_release (Dyncomp_run m self sample_rate n_channels ops) r).w_rel| ≤
      7 * 2 ^ 125 := by
  have hinit : (Dyncomp_init self sample_rate n_channels).sample_rate = sample_rate ∧
      (Dyncomp_init self sample_rate n_channels).w_att =
        1 / 2 / (sample_rate * (Dyncomp_init self sample_rate n_channels).t_att) ∧
      (Dyncomp_init self sample_rate n_channels).w_rel =
        7 / 2 / (sample_rate * (Dyncomp_init self sample_rate n_channels).t_rel) := by
    rw [init_fields]
    exact ⟨rfl, rfl, rfl⟩
  have hrun := run_invariant m
    (fun s => s.sample_rate = sample_rate ∧ s.w_att = 1 / 2 / (sample_rate * s.t_att) ∧
      s.w_rel = 7 / 2 / (sample_rate * s.t_rel))
    (fun _ => True) (fun s op _ h => coeff_invariant m sample_rate s op h)
    ops (Dyncomp_init self sample_rate n_channels) hinit (fun _ _ => trivial)
  have hs : (Dyncomp_run m self sample_rate n_channels ops).sample_rate = sample_rate ∧
      (Dyncomp_run m self sample_rate n_channels ops).w_att =
        1 / 2 / (sample_rate * (Dyncomp_run m self sample_rate n_channels ops).t_att) ∧
      (Dyncomp_run m self sample_rate n_channels ops).w_rel =
        7 / 2 / (sample_rate * (Dyncomp_run m self sample_rate n_channels ops).t_rel) := hrun
  obtain ⟨h1, h2, h3⟩ := hs
  have ea : (Dyncomp_set_attack (Dyncomp_run m self sample_rate n_channels ops) a).w_att =
      1 / 2 / (sample_rate * a) := by
    simp only [Dyncomp_set_attack]
    split_ifs with h
    · rw [h2, h]
    · show 1 / 2 / ((Dyncomp_run m self sample_rate n_channels ops).sample_rate * a) = _
      rw [h1]
  have er : (Dyncomp_set_release (Dyncomp_run m self sample_rate n_channels ops) r).w_rel =
      7 / 2 / (sample_rate * r) := by
    simp only [Dyncomp_set_release]
    split_ifs with h
    · rw [h3, h]
    · show 7 / 2 / ((Dyncomp_run m self sample_rate n_channels ops).sample_rate * r) = _
      rw [h1]
  have hbound : ∀ (c x : F), 0 < c → 1 / 2 ^ 126 ≤ |x| → |c / x| ≤ c * 2 ^ 126 := by
    intro c x hc hx
    have hx0 : 0 < |x| := lt_of_lt_of_le (by positivity) hx
    rw [abs_div, abs_of_pos hc, div_le_iff₀ hx0]
    calc c = c * 2 ^ 126 * (1 / 2 ^ 126) := by field_simp
      _ ≤ c * 2 ^ 126 * |x| := mul_le_mul_of_nonneg_left hx (by positivity)
  refine ⟨mul_ne_zero hsr (ne_of_gt ha), mul_ne_zero hsr (ne_of_gt hr), ea, er,
    fun _ _ => h2, fun _ _ => h3, ?_, ?_, ?_⟩
  · intro hpos
    rw [ea, er]
    exact ⟨div_pos (by norm_num) (mul_pos hpos ha), div_pos (by norm_num) (mul_pos hpos hr)⟩
  · rw [ea]
    have := hbound (1 / 2) (sample_rate * a) (by norm_num) hA.1
    calc |1 / 2 / (sample_rate * a)| ≤ 1 / 2 * 2 ^ 126 := this
      _ = 2 ^ 125 := by norm_num
  · rw [er]
    have := hbound (7 / 2) (sample_rate * r) (by norm_num) hR.1
    calc |7 / 2 / (sample_rate * r)| ≤ 7 / 2 * 2 ^ 126 := this
      _ = 7 * 2 ^ 125 := by norm_num

/-- C9 witness: 48 kHz mono right after `Dyncomp_init`; attack 0.01 s hits the
cached path, release 0.3 s recomputes. -/
theorem C9_attack_release_coefficients_witness :
    (48000 : ℝ) ≠ 0 ∧ (0 : ℝ) < 1 / 100 ∧ (0 : ℝ) < 3 / 10 ∧
    ((1 : ℝ) / 2 ^ 126 ≤ |48000 * (1 / 100)| ∧ |(48000 : ℝ) * (1 / 100)| ≤ 2 ^ 126) ∧
    ((1 : ℝ) / 2 ^ 126 ≤ |48000 * (3 / 10)| ∧ |(48000 : ℝ) * (3 / 10)| ≤ 2 ^ 126) ∧
    (Dyncomp_set_attack
      (Dyncomp_run
        (Libm.mk Real.log Real.exp (fun x => (10 : ℝ) ^ x) (Real.logb 10) (fun _ => true) fl32)
        Dyncomp_calloc (48000 : ℝ) 1 [])
      (1 / 100)).w_att = 1 / 2 / (48000 * (1 / 100)) ∧
    (Dyncomp_set_release
      (Dyncomp_run
        (Libm.mk Real.log Real.exp (fun x => (10 : ℝ) ^ x) (Real.logb 10) (fun _ => true) fl32)
        Dyncomp_calloc (48000 : ℝ) 1 [])
      (3 / 10)).w_rel = 7 / 2 / (48000 * (3 / 10)) :=
  ⟨by norm_num, by norm_num, by norm_num,
   ⟨by norm_num [abs_of_pos], by norm_num [abs_of_pos]⟩,
   ⟨by norm_num [abs_of_pos], by norm_num [abs_of_pos]⟩,
   (C9_attack_release_coefficients
      (Libm.mk Real.log Real.exp (fun x => (10 : ℝ) ^ x) (Real.logb 10) (fun _ => true) fl32)
      Dyncomp_calloc (48000 : ℝ) 1 [] (1 / 100) (3 / 10) (by norm_num) (by norm_num)
      (by norm_num) ⟨by norm_num [abs_of_pos], by norm_num [abs_of_pos]⟩
      ⟨by norm_num [abs_of_pos], by norm_num [abs_of_pos]⟩).2.2.1,
   (C9_attack_release_coefficients
      (Libm.mk Real.log Real.exp (fun x => (10 : ℝ) ^ x) (Real.logb 10) (fun _ => true) fl32)
      Dyncomp_calloc (48000 : ℝ) 1 [] (1 / 100) (3 / 10) (by norm_num) (by norm_num)
      (by norm_num) ⟨by norm_num [abs_of_pos], by norm_num [abs_of_pos]⟩
      ⟨by norm_num [abs_of_pos], by norm_num [abs_of_pos]⟩).2.2.2.1⟩

/-! ## Range of the ratio (C10) -/

theorem sample_ratio_range (m : Libm F) (s : Dyncomp F) (dg dr : F) (j : Nat) (st : Loop F)
    (hw0 : 0 ≤ s.w_lpf) (hw1 : s.w_lpf ≤ 1) (hp0 : 0 ≤ s.p_rat) (hp1 : s.p_rat ≤ 1 / 2)
    (h0 : 0 ≤ st.r) (h1 : st.r ≤ 1 / 2) :
    0 ≤ (Dyncomp_sample m s dg dr j st).r ∧ (Dyncomp_sample m s dg dr j st).r ≤ 1 / 2 := by
  rw [(sample_g m s dg dr j st).2]
  split_ifs
  · constructor
    · linarith [mul_nonneg hw0 hp0, mul_nonneg (sub_nonneg.mpr hw1) h0]
    · linarith [mul_nonneg hw0 (sub_nonneg.mpr hp1),
        mul_nonneg (sub_nonneg.mpr hw1) (sub_nonneg.mpr h1)]
  · exact ⟨h0, h1⟩

theorem at_ratio_range (m : Libm F) (s : Dyncomp F) (io : Nat → Nat → F)
    (hw0 : 0 ≤ s.w_lpf) (hw1 : s.w_lpf ≤ 1) (hp0 : 0 ≤ s.p_rat) (hp1 : s.p_rat ≤ 1 / 2)
    (h0 : 0 ≤ s.ratio) (h1 : s.ratio ≤ 1 / 2) :
    ∀ k, 0 ≤ (Dyncomp_at m s io k).r ∧ (Dyncomp_at m s io k).r ≤ 1 / 2 := by
  intro k
  induction k with
  | zero =>
    show 0 ≤ (Dyncomp_locals s io).r ∧ (Dyncomp_locals s io).r ≤ 1 / 2
    simp only [Dyncomp_locals]
    split_ifs
    · exact ⟨hp0, hp1⟩
    · exact ⟨h0, h1⟩
  | succ k ih => exact sample_ratio_range m s _ _ k _ hw0 hw1 hp0 hp1 ih.1 ih.2

/-- Invariant behind C10. -/
theorem ratio_invariant (m : Libm F) (s : Dyncomp F) (op : Op F) (hop : Op_ratio_ok op)
    (h : (0 < s.w_lpf ∧ s.w_lpf ≤ 1) ∧ (0 ≤ s.p_rat ∧ s.p_rat ≤ 1 / 2) ∧
      (0 ≤ s.ratio ∧ s.ratio ≤ 1 / 2)) :
    (0 < (Dyncomp_call m s op).w_lpf ∧ (Dyncomp_call m s op).w_lpf ≤ 1) ∧
    (0 ≤ (Dyncomp_call m s op).p_rat ∧ (Dyncomp_call m s op).p_rat ≤ 1 / 2) ∧
    (0 ≤ (Dyncomp_call m s op).ratio ∧ (Dyncomp_call m s op).ratio ≤ 1 / 2) := by
  obtain ⟨hw, hp, hr⟩ := h
  cases op with
  | reset => exact ⟨hw, hp, hr⟩
  | set_ratio r =>
    refine ⟨hw, ?_, hr⟩
    show 0 ≤ 1 / 2 * r ∧ 1 / 2 * r ≤ 1 / 2
    obtain ⟨a, b⟩ := hop
    constructor <;> linarith
  | set_inputgain g =>
    simp only [Dyncomp_call, Dyncomp_set_inputgain]
    split_ifs <;> exact ⟨hw, hp, hr⟩
  | set_threshold t =>
    simp only [Dyncomp_call, Dyncomp_set_threshold]
    split_ifs <;> exact ⟨hw, hp, hr⟩
  | set_hold b => exact ⟨hw, hp, hr⟩
  | set_attack a =>
    simp only [Dyncomp_call, Dyncomp_set_attack]
    split_ifs <;> exact ⟨hw, hp, hr⟩
  | set_release r =>
    simp only [Dyncomp_call, Dyncomp_set_release]
    split_ifs <;> exact ⟨hw, hp, hr⟩
  | get_gain => exact ⟨hw, hp, hr⟩
  | process n io =>
    obtain ⟨_, _, _, f4, _, _, _, _, _, _, _, _, _, _, f15⟩ := process_frame m s n io
    show (0 < (Dyncomp_process m s n io).1.w_lpf ∧ (Dyncomp_process m s n io).1.w_lpf ≤ 1) ∧
      (0 ≤ (Dyncomp_process m s n io).1.p_rat ∧ (Dyncomp_process m s n io).1.p_rat ≤ 1 / 2) ∧
      (0 ≤ (Dyncomp_process m s n io).1.ratio ∧ (Dyncomp_process m s n io).1.ratio ≤ 1 / 2)
    rw [f4, f15, (process_smoothed m s n io).2]
    exact ⟨hw, hp, at_ratio_range m s io (le_of_lt hw.1) hw.2 hp.1 hp.2 hr.1 hr.2 n⟩

/-- C10. If `Dyncomp_set_ratio` is only called with `r` in `[0, 1]` and the
sample rate is at least 160 (so that `0 < w_lpf <= 1`), then in every state
reachable from `Dyncomp_init` the ratio target `p_rat` and the stored smoothed
ratio lie in `[0, 0.5]`, and so does the smoothed ratio at every sample of a
`Dyncomp_process` block. -/
theorem C10_ratio_range (m : Libm F) (self : Dyncomp F) (sample_rate : F)
    (n_channels : Nat) (ops : List (Op F)) (hsr : 160 ≤ sample_rate)
    (hops : ∀ op ∈ ops, Op_ratio_ok op) :
    (0 < (Dyncomp_run m self sample_rate n_channels ops).w_lpf ∧
      (Dyncomp_run m self sample_rate n_channels ops).w_lpf ≤ 1) ∧
    (0 ≤ (Dyncomp_run m self sample_rate n_channels ops).p_rat ∧
      (Dyncomp_run m self sample_rate n_channels ops).p_rat ≤ 1 / 2) ∧
    (0 ≤ (Dyncomp_run m self sample_rate n_channels ops).ratio ∧
      (Dyncomp_run m self sample_rate n_channels ops).ratio ≤ 1 / 2) ∧
    (∀ io k,
      0 ≤ (Dyncomp_at m (Dyncomp_run m self sample_rate n_channels ops) io k).r ∧
      (Dyncomp_at m (Dyncomp_run m self sample_rate n_channels ops) io k).r ≤ 1 / 2) := by
  have hpos : (0 : F) < sample_rate := by linarith
  have hinit : (0 < (Dyncomp_init self sample_rate n_channels).w_lpf ∧
        (Dyncomp_init self sample_rate n_channels).w_lpf ≤ 1) ∧
      (0 ≤ (Dyncomp_init self sample_rate n_channels).p_rat ∧
        (Dyncomp_init self sample_rate n_channels).p_rat ≤ 1 / 2) ∧
      (0 ≤ (Dyncomp_init self sample_rate n_channels).ratio ∧
        (Dyncomp_init self sample_rate n_channels).ratio ≤ 1 / 2) := by
    rw [init_fields]
    refine ⟨⟨?_, ?_⟩, ⟨?_, ?_⟩, ⟨?_, ?_⟩⟩
    · show (0 : F) < 160 / sample_rate
      exact div_pos (by norm_num) hpos
    · show (160 : F) / sample_rate ≤ 1
      exact (div_le_one hpos).mpr hsr
    · exact le_refl _
    · show (0 : F) ≤ 1 / 2
      norm_num
    · exact le_refl _
    · show (0 : F) ≤ 1 / 2
      norm_num
  have hrun := run_invariant m
    (fun s => (0 < s.w_lpf ∧ s.w_lpf ≤ 1) ∧ (0 ≤ s.p_rat ∧ s.p_rat ≤ 1 / 2) ∧
      (0 ≤ s.ratio ∧ s.ratio ≤ 1 / 2))
    Op_ratio_ok (fun s op hop h => ratio_invariant m s op hop h)
    ops (Dyncomp_init self sample_rate n_channels) hinit hops
  obtain ⟨hw, hp, hr⟩ := hrun
  refine ⟨hw, hp, hr, ?_⟩
  intro io k
  exact at_ratio_range m (Dyncomp_run m self sample_rate n_channels ops) io
    (le_of_lt hw.1) hw.2 hp.1 hp.2 hr.1 hr.2 k

/-- C10 witness: 48 kHz mono, user ratio 1.0, a block of three samples; the
smoothed ratio after the second sample. -/
theorem C10_ratio_range_witness :
    (160 : ℝ) ≤ 48000 ∧
    (Dyncomp_at
      (Libm.mk Real.log Real.exp (fun x => (10 : ℝ) ^ x) (Real.logb 10) (fun _ => true) fl32)
      (Dyncomp_run
        (Libm.mk Real.log Real.exp (fun x => (10 : ℝ) ^ x) (Real.logb 10) (fun _ => true) fl32)
        Dyncomp_calloc 48000 1 [Op.set_ratio 1, Op.process 3 (fun _ _ => 1)])
      (fun _ _ => 1) 2).r ≤ 1 / 2 :=
  ⟨by norm_num,
   ((C10_ratio_range
      (Libm.mk Real.log Real.exp (fun x => (10 : ℝ) ^ x) (Real.logb 10) (fun _ => true) fl32)
      Dyncomp_calloc 48000 1 [Op.set_ratio 1, Op.process 3 (fun _ _ => 1)] (by norm_num)
      (by
        intro op hop
        simp only [List.mem_cons, List.mem_singleton, List.not_mem_nil, or_false] at hop
        rcases hop with rfl | rfl
        · exact ⟨zero_le_one, le_refl 1⟩
        · trivial)).2.2.2 (fun _ _ => 1) 2).2⟩

/-- `Dyncomp_scenario` is the record the calls of the scenario produce from
`Dyncomp_init`, with the detector and the smoothed ratio put at their settled
values. -/
theorem scenario_from_calls :
    (Dyncomp_scenario : Dyncomp ℝ) =
      { Dyncomp_run
          (Libm.mk Real.log Real.exp (fun x => (10 : ℝ) ^ x) (Real.logb 10) (fun _ => true) fl32)
          Dyncomp_calloc 48000 1
          [Op.set_inputgain 0, Op.set_threshold (-30), Op.set_ratio 1, Op.set_hold false,
            Op.set_attack (1 / 100), Op.set_release (3 / 10)] with
        ratio := 1 / 2, za1 := 1 / 2000, zr1 := 1 / 2000, zr2 := 1 / 2000 } := by
  have h10 : (10 : ℝ) ^ ((1 / 10 : ℝ) * (-30)) = 1 / 1000 := by
    rw [show (1 / 10 : ℝ) * (-30) = -((3 : ℕ) : ℝ) by norm_num,
      Real.rpow_neg (by norm_num), Real.rpow_natCast]
    norm_num
  simp only [Dyncomp_run, List.foldl_cons, List.foldl_nil, init_fields, Dyncomp_call,
    Dyncomp_set_inputgain, Dyncomp_set_threshold, Dyncomp_set_ratio, Dyncomp_set_hold,
    Dyncomp_set_attack, Dyncomp_set_release, Dyncomp_scenario]
  norm_num [h10]

/-! ## Reset and reporting (C11, C12, C13) -/

/-- C11. `Dyncomp_reset` sets `za1`, `zr1`, `zr2`, `rms`, `gmin` and `gmax` to 0
and the new-window flag `newg` to true, and leaves every other field as it was:
the smoothed gain and ratio (`igain`, `ratio`), their targets (`p_ign`, `p_rat`)
and cached values (`l_ign`, `l_thr`), the threshold power, the attack and
release coefficients and cached times, the smoothing coefficients, `hold`, the
sample rate, the channel count and `norm_input`. -/
theorem C11_reset_frame (s : Dyncomp F) :
    ((Dyncomp_reset s).za1 = 0 ∧ (Dyncomp_reset s).zr1 = 0 ∧ (Dyncomp_reset s).zr2 = 0 ∧
      (Dyncomp_reset s).rms = 0 ∧ (Dyncomp_reset s).gmin = 0 ∧ (Dyncomp_reset s).gmax = 0 ∧
      (Dyncomp_reset s).newg = true) ∧
    ((Dyncomp_reset s).igain = s.igain ∧ (Dyncomp_reset s).ratio = s.ratio ∧
      (Dyncomp_reset s).p_ign = s.p_ign ∧ (Dyncomp_reset s).p_rat = s.p_rat ∧
      (Dyncomp_reset s).l_ign = s.l_ign ∧ (Dyncomp_reset s).l_thr = s.l_thr ∧
      (Dyncomp_reset s).p_thr = s.p_thr) ∧
    ((Dyncomp_reset s).w_att = s.w_att ∧ (Dyncomp_reset s).w_rel = s.w_rel ∧
      (Dyncomp_reset s).t_att = s.t_att ∧ (Dyncomp_reset s).t_rel = s.t_rel ∧
      (Dyncomp_reset s).w_rms = s.w_rms ∧ (Dyncomp_reset s).w_lpf = s.w_lpf) ∧
    ((Dyncomp_reset s).hold = s.hold ∧ (Dyncomp_reset s).sample_rate = s.sample_rate ∧
      (Dyncomp_reset s).n_channels = s.n_channels ∧
      (Dyncomp_reset s).norm_input = s.norm_input) ∧
    Dyncomp_reset (Dyncomp_reset s) = Dyncomp_reset s :=
  ⟨⟨rfl, rfl, rfl, rfl, rfl, rfl, rfl⟩, ⟨rfl, rfl, rfl, rfl, rfl, rfl, rfl⟩,
    ⟨rfl, rfl, rfl, rfl, rfl, rfl⟩, ⟨rfl, rfl, rfl, rfl⟩, rfl⟩
/-- C12. For every engine state, `Dyncomp_get_gain` returns
`gain_min_db = 8.68589 * gmin`, `gain_max_db = 8.68589 * gmax` and
`rms_db = 10 * log10 (2 * rms)` when `rms > 1e-8`, `-80` otherwise; the reported
`rms_db` is never below `-80`; and the record it leaves is the old one with the
new-window flag `newg` set, nothing else changed. -/
theorem C12_get_gain_report (m : Libm ℝ) (s : Dyncomp ℝ)
    (h10 : ∀ x, m.log10f x = Real.logb 10 x) :
    (Dyncomp_get_gain m s).2.gmin = 868589 / 100000 * s.gmin ∧
    (Dyncomp_get_gain m s).2.gmax = 868589 / 100000 * s.gmax ∧
    (1 / 100000000 < s.rms → (Dyncomp_get_gain m s).2.rms = 10 * Real.logb 10 (2 * s.rms)) ∧
    (s.rms ≤ 1 / 100000000 → (Dyncomp_get_gain m s).2.rms = -80) ∧
    -80 ≤ (Dyncomp_get_gain m s).2.rms ∧
    (Dyncomp_get_gain m s).1 = { s with newg := true } := by
  have hhi : 1 / 100000000 < s.rms →
      (Dyncomp_get_gain m s).2.rms = 10 * Real.logb 10 (2 * s.rms) := by
    intro h
    simp only [Dyncomp_get_gain, gt_iff_lt]
    rw [if_pos h, h10]
  have hlo : s.rms ≤ 1 / 100000000 → (Dyncomp_get_gain m s).2.rms = -80 := by
    intro h
    simp only [Dyncomp_get_gain, gt_iff_lt]
    rw [if_neg (not_lt.mpr h)]
  refine ⟨?_, ?_, hhi, hlo, ?_, rfl⟩
  · simp only [Dyncomp_get_gain]; ring
  · simp only [Dyncomp_get_gain]; ring
  · rcases lt_or_le (1 / 100000000) s.rms with h | h
    · rw [hhi h]
      have hpow : (10 : ℝ) ^ (-8 : ℝ) = 1 / 100000000 := by
        rw [show (-8 : ℝ) = -((8 : ℕ) : ℝ) by norm_num, Real.rpow_neg (by norm_num),
          Real.rpow_natCast]
        norm_num
      have hle : (-8 : ℝ) ≤ Real.logb 10 (2 * s.rms) := by
        rw [Real.le_logb_iff_rpow_le (by norm_num) (by linarith), hpow]
        linarith
      linarith
    · rw [hlo h]

/-- C12 witness: the real `log10`, a stored `rms` of `1/2` (0 dB). -/
theorem C12_get_gain_report_witness :
    -80 ≤ (Dyncomp_get_gain
      (Libm.mk Real.log Real.exp (fun x => (10 : ℝ) ^ x) (Real.logb 10) (fun _ => true) fl32)
      { (Dyncomp_scenario : Dyncomp ℝ) with rms := 1 / 2 }).2.rms :=
  (C12_get_gain_report
    (Libm.mk Real.log Real.exp (fun x => (10 : ℝ) ^ x) (Real.logb 10) (fun _ => true) fl32)
    { (Dyncomp_scenario : Dyncomp ℝ) with rms := 1 / 2 } (fun _ => rfl)).2.2.2.2.1
/-- The sample loop does not read the stored `gmin`, `gmax` and `newg`. -/
theorem loop_extrema_blind (m : Libm F) (s : Dyncomp F) (a b : F) (c : Bool) (dg dr : F)
    (st : Loop F) :
    ∀ k, Dyncomp_loop m { s with gmin := a, gmax := b, newg := c } dg dr k st =
      Dyncomp_loop m s dg dr k st := by
  intro k
  induction k with
  | zero => rfl
  | succ k ih =>
    show Dyncomp_sample m { s with gmin := a, gmax := b, newg := c } dg dr k _ =
      Dyncomp_sample m s dg dr k _
    rw [ih]
    rfl

/-- C13. Reading the extrema starts a new window: for two engine states that
differ only in the stored `gmin` and `gmax`, `Dyncomp_get_gain` followed by
`Dyncomp_process` on the same block, when the block ends with a finite `za1`,
gives the same record and the same output buffers. The extrema stored after the
block are those of the block alone, accumulated from `gmax = -100`,
`gmin = 100`. -/
theorem C13_read_starts_window (m : Libm F) (s : Dyncomp F) (a b : F) (n : Nat)
    (io : Nat → Nat → F)
    (hfin : m.isfinite (Dyncomp_at m (Dyncomp_get_gain m s).1 io n).za1 = true) :
    Dyncomp_process m (Dyncomp_get_gain m { s with gmin := a, gmax := b }).1 n io =
      Dyncomp_process m (Dyncomp_get_gain m s).1 n io ∧
    (Dyncomp_process m (Dyncomp_get_gain m s).1 n io).1.gmax =
      (Dyncomp_loop m s (Dyncomp_dg s) (Dyncomp_dr s) n
        { Dyncomp_locals s io with gmax := -100, gmin := 100 }).gmax ∧
    (Dyncomp_process m (Dyncomp_get_gain m s).1 n io).1.gmin =
      (Dyncomp_loop m s (Dyncomp_dg s) (Dyncomp_dr s) n
        { Dyncomp_locals s io with gmax := -100, gmin := 100 }).gmin := by
  have hat : ∀ (t : Dyncomp F),
      Dyncomp_at m (Dyncomp_get_gain m t).1 io n =
        Dyncomp_loop m t (Dyncomp_dg t) (Dyncomp_dr t) n
          { Dyncomp_locals t io with gmax := -100, gmin := 100 } := by
    intro t
    have := loop_extrema_blind m t t.gmin t.gmax true (Dyncomp_dg t) (Dyncomp_dr t)
      { Dyncomp_locals t io with gmax := -100, gmin := 100 } n
    exact this
  have hsame : Dyncomp_at m (Dyncomp_get_gain m { s with gmin := a, gmax := b }).1 io n =
      Dyncomp_at m (Dyncomp_get_gain m s).1 io n := by
    rw [hat, hat]
    exact loop_extrema_blind m s a b s.newg (Dyncomp_dg s) (Dyncomp_dr s) _ n
  refine ⟨?_, ?_, ?_⟩
  · simp only [Dyncomp_process, hsame, hfin, Bool.not_true, Bool.false_eq_true, if_false]
    simp only [Dyncomp_get_gain, if_true]
  · rw [(process_finite m _ n io hfin).2.2.2.1, hat]
  · rw [(process_finite m _ n io hfin).2.2.2.2, hat]

/-- C13 witness: the scenario engine and a copy with other stored extrema, one
sample of silence after the report. -/
theorem C13_read_starts_window_witness :
    Dyncomp_process
      (Libm.mk Real.log Real.exp (fun x => (10 : ℝ) ^ x) (Real.logb 10) (fun _ => true) fl32)
      (Dyncomp_get_gain
        (Libm.mk Real.log Real.exp (fun x => (10 : ℝ) ^ x) (Real.logb 10) (fun _ => true) fl32)
        { (Dyncomp_scenario : Dyncomp ℝ) with gmin := -3, gmax := 7 }).1 1 (fun _ _ => 0) =
    Dyncomp_process
      (Libm.mk Real.log Real.exp (fun x => (10 : ℝ) ^ x) (Real.logb 10) (fun _ => true) fl32)
      (Dyncomp_get_gain
        (Libm.mk Real.log Real.exp (fun x => (10 : ℝ) ^ x) (Real.logb 10) (fun _ => true) fl32)
        (Dyncomp_scenario : Dyncomp ℝ)).1 1 (fun _ _ => 0) :=
  (C13_read_starts_window
    (Libm.mk Real.log Real.exp (fun x => (10 : ℝ) ^ x) (Real.logb 10) (fun _ => true) fl32)
    Dyncomp_scenario (-3) 7 1 (fun _ _ => 0) rfl).1
/-! ## The gain factor and its extrema (C15, C16) -/

/-- The extrema update of one sample (lv2.c 309-313). -/
theorem sample_extrema (m : Libm F) (s : Dyncomp F) (dg dr : F) (j : Nat) (st : Loop F) :
    (Dyncomp_sample m s dg dr j st).gmax =
      max st.gmax (-(Dyncomp_sample m s dg dr j st).r *
        m.logf (20 * (Dyncomp_sample m s dg dr j st).zr2)) ∧
    (Dyncomp_sample m s dg dr j st).gmin =
      min st.gmin (-(Dyncomp_sample m s dg dr j st).r *
        m.logf (20 * (Dyncomp_sample m s dg dr j st).zr2)) :=
  ⟨rfl, rfl⟩

/-- Running extrema over the first `k` samples of the loop. -/
theorem loop_extrema (m : Libm F) (s : Dyncomp F) (dg dr : F) (st : Loop F) :
    ∀ k,
      (∀ j, j < k →
        (Dyncomp_loop m s dg dr k st).gmin ≤
          -(Dyncomp_loop m s dg dr (j + 1) st).r *
            m.logf (20 * (Dyncomp_loop m s dg dr (j + 1) st).zr2) ∧
        -(Dyncomp_loop m s dg dr (j + 1) st).r *
            m.logf (20 * (Dyncomp_loop m s dg dr (j + 1) st).zr2) ≤
          (Dyncomp_loop m s dg dr k st).gmax) ∧
      (st.gmax ≤ (Dyncomp_loop m s dg dr k st).gmax ∧
        ((Dyncomp_loop m s dg dr k st).gmax = st.gmax ∨
          ∃ j, j < k ∧ (Dyncomp_loop m s dg dr k st).gmax =
            -(Dyncomp_loop m s dg dr (j + 1) st).r *
              m.logf (20 * (Dyncomp_loop m s dg dr (j + 1) st).zr2))) ∧
      ((Dyncomp_loop m s dg dr k st).gmin ≤ st.gmin ∧
        ((Dyncomp_loop m s dg dr k st).gmin = st.gmin ∨
          ∃ j, j < k ∧ (Dyncomp_loop m s dg dr k st).gmin =
            -(Dyncomp_loop m s dg dr (j + 1) st).r *
              m.logf (20 * (Dyncomp_loop m s dg dr (j + 1) st).zr2))) := by
  intro k
  induction k with
  | zero =>
    exact ⟨fun j hj => absurd hj (Nat.not_lt_zero j), ⟨le_refl _, Or.inl rfl⟩,
      ⟨le_refl _, Or.inl rfl⟩⟩
  | succ k ih =>
    obtain ⟨hb, ⟨hmax, hmaxw⟩, ⟨hmin, hminw⟩⟩ := ih
    obtain ⟨e1, e2⟩ := sample_extrema m s dg dr k (Dyncomp_loop m s dg dr k st)
    have e1' : (Dyncomp_loop m s dg dr (k + 1) st).gmax =
        max (Dyncomp_loop m s dg dr k st).gmax
          (-(Dyncomp_loop m s dg dr (k + 1) st).r *
            m.logf (20 * (Dyncomp_loop m s dg dr (k + 1) st).zr2)) := e1
    have e2' : (Dyncomp_loop m s dg dr (k + 1) st).gmin =
        min (Dyncomp_loop m s dg dr k st).gmin
          (-(Dyncomp_loop m s dg dr (k + 1) st).r *
            m.logf (20 * (Dyncomp_loop m s dg dr (k + 1) st).zr2)) := e2
    refine ⟨?_, ⟨?_, ?_⟩, ⟨?_, ?_⟩⟩
    · intro j hj
      rcases Nat.lt_succ_iff_lt_or_eq.mp hj with h | h
      · obtain ⟨a, b⟩ := hb j h
        exact ⟨le_trans (by rw [e2']; exact min_le_left _ _) a,
          le_trans b (by rw [e1']; exact le_max_left _ _)⟩
      · subst h
        exact ⟨by rw [e2']; exact min_le_right _ _, by rw [e1']; exact le_max_right _ _⟩
    · exact le_trans hmax (by rw [e1']; exact le_max_left _ _)
    · rcases max_choice (Dyncomp_loop m s dg dr k st).gmax
          (-(Dyncomp_loop m s dg dr (k + 1) st).r *
            m.logf (20 * (Dyncomp_loop m s dg dr (k + 1) st).zr2)) with h | h
      · rcases hmaxw with h0 | ⟨j, hj, h0⟩
        · left; rw [e1', h, h0]
        · right; exact ⟨j, Nat.lt_succ_of_lt hj, by rw [e1', h, h0]⟩
      · right; exact ⟨k, Nat.lt_succ_self k, by rw [e1', h]⟩
    · exact le_trans (by rw [e2']; exact min_le_left _ _) hmin
    · rcases min_choice (Dyncomp_loop m s dg dr k st).gmin
          (-(Dyncomp_loop m s dg dr (k + 1) st).r *
            m.logf (20 * (Dyncomp_loop m s dg dr (k + 1) st).zr2)) with h | h
      · rcases hminw with h0 | ⟨j, hj, h0⟩
        · left; rw [e2', h, h0]
        · right; exact ⟨j, Nat.lt_succ_of_lt hj, by rw [e2', h, h0]⟩
      · right; exact ⟨k, Nat.lt_succ_self k, by rw [e2', h]⟩
/-- The buffer writes of one sample (lv2.c 315-320). -/
theorem sample_io (m : Libm F) (s : Dyncomp F) (dg dr : F) (j : Nat) (st : Loop F)
    (i l : Nat) :
    (Dyncomp_sample m s dg dr j st).io i l =
      if l = j ∧ i < s.n_channels then
        st.io i l * ((Dyncomp_sample m s dg dr j st).g *
          m.expf (-(Dyncomp_sample m s dg dr j st).r *
            m.logf (20 * (Dyncomp_sample m s dg dr j st).zr2)))
      else st.io i l :=
  rfl

/-- The buffers after `k` samples: sample `l < k` of every channel has been
multiplied by the factor of sample `l`, everything else is untouched. -/
theorem loop_io (m : Libm F) (s : Dyncomp F) (dg dr : F) (st : Loop F) :
    ∀ k i l, (Dyncomp_loop m s dg dr k st).io i l =
      if l < k ∧ i < s.n_channels then
        st.io i l * ((Dyncomp_loop m s dg dr (l + 1) st).g *
          m.expf (-(Dyncomp_loop m s dg dr (l + 1) st).r *
            m.logf (20 * (Dyncomp_loop m s dg dr (l + 1) st).zr2)))
      else st.io i l := by
  intro k
  induction k with
  | zero =>
    intro i l
    simp [Dyncomp_loop]
  | succ k ih =>
    intro i l
    show (Dyncomp_sample m s dg dr k (Dyncomp_loop m s dg dr k st)).io i l = _
    rw [sample_io, ih i l]
    by_cases hl : l = k
    · subst hl
      by_cases hi : i < s.n_channels
      · simp only [hi, and_true, lt_irrefl, false_and, if_false, if_true, Nat.lt_succ_self]
        rfl
      · simp [hi]
    · by_cases hlk : l < k
      · have : l < k + 1 := Nat.lt_succ_of_lt hlk
        simp [hl, hlk, this]
      · have : ¬ l < k + 1 := fun h => by omega
        simp [hl, hlk, this]
/-- C15. For every sample index `j` of a block, `Dyncomp_process` multiplies
the sample of every channel by one and the same factor
`g_j * expf (-r_j * logf (20 * zr2_j))`, where `g_j`, `r_j` and `zr2_j` are the
smoothed gain, the smoothed ratio and the second release state after the
updates of that sample; with the real `exp` and `ln` and `zr2_j > 0` the factor
is `g_j * (20 * zr2_j) ^ (-r_j)`. Samples outside the block and channels beyond
`n_channels` are not written, and the ratio between the samples of two channels
at an index is preserved. -/
theorem C15_common_gain_factor (m : Libm ℝ) (s : Dyncomp ℝ) (n : Nat) (io : Nat → Nat → ℝ)
    (hlog : ∀ x, m.logf x = Real.log x) (hexp : ∀ x, m.expf x = Real.exp x) :
    (∀ i j, i < s.n_channels → j < n →
      (Dyncomp_process m s n io).2 i j =
        io i j * ((Dyncomp_at m s io (j + 1)).g *
          m.expf (-(Dyncomp_at m s io (j + 1)).r *
            m.logf (20 * (Dyncomp_at m s io (j + 1)).zr2)))) ∧
    (∀ j, 0 < (Dyncomp_at m s io (j + 1)).zr2 →
      (Dyncomp_at m s io (j + 1)).g *
          m.expf (-(Dyncomp_at m s io (j + 1)).r *
            m.logf (20 * (Dyncomp_at m s io (j + 1)).zr2)) =
        (Dyncomp_at m s io (j + 1)).g *
          (20 * (Dyncomp_at m s io (j + 1)).zr2) ^ (-(Dyncomp_at m s io (j + 1)).r)) ∧
    (∀ i j, ¬ (i < s.n_channels ∧ j < n) → (Dyncomp_process m s n io).2 i j = io i j) ∧
    (∀ i k j, i < s.n_channels → k < s.n_channels → j < n →
      (Dyncomp_process m s n io).2 i j * io k j = (Dyncomp_process m s n io).2 k j * io i j) := by
  have hio : ∀ i l, (Dyncomp_process m s n io).2 i l =
      if l < n ∧ i < s.n_channels then
        io i l * ((Dyncomp_at m s io (l + 1)).g *
          m.expf (-(Dyncomp_at m s io (l + 1)).r *
            m.logf (20 * (Dyncomp_at m s io (l + 1)).zr2)))
      else io i l := by
    intro i l
    exact loop_io m s (Dyncomp_dg s) (Dyncomp_dr s) (Dyncomp_locals s io) n i l
  refine ⟨?_, ?_, ?_, ?_⟩
  · intro i j hi hj
    rw [hio, if_pos ⟨hj, hi⟩]
  · intro j hz
    rw [hexp, hlog, Real.rpow_def_of_pos (by linarith)]
    congr 2
    ring
  · intro i j h
    rw [hio, if_neg (fun hc => h ⟨hc.2, hc.1⟩)]
  · intro i k j hi hk hj
    rw [hio, hio, if_pos ⟨hj, hi⟩, if_pos ⟨hj, hk⟩]
    ring

/-- C15 witness: the scenario engine, two samples of value 1; the first output
sample is the input times `1 * (20 * zr2) ^ (-1/2)`. -/
theorem C15_common_gain_factor_witness :
    (Dyncomp_process
      (Libm.mk Real.log Real.exp (fun x => (10 : ℝ) ^ x) (Real.logb 10) (fun _ => true) fl32)
      Dyncomp_scenario 2 (fun _ _ => 1)).2 0 0 =
      1 * ((Dyncomp_at
        (Libm.mk Real.log Real.exp (fun x => (10 : ℝ) ^ x) (Real.logb 10) (fun _ => true) fl32)
        Dyncomp_scenario (fun _ _ => 1) 1).g *
        Real.exp (-(Dyncomp_at
          (Libm.mk Real.log Real.exp (fun x => (10 : ℝ) ^ x) (Real.logb 10) (fun _ => true) fl32)
          Dyncomp_scenario (fun _ _ => 1) 1).r *
          Real.log (20 * (Dyncomp_at
            (Libm.mk Real.log Real.exp (fun x => (10 : ℝ) ^ x) (Real.logb 10) (fun _ => true) fl32)
            Dyncomp_scenario (fun _ _ => 1) 1).zr2))) :=
  (C15_common_gain_factor
    (Libm.mk Real.log Real.exp (fun x => (10 : ℝ) ^ x) (Real.logb 10) (fun _ => true) fl32)
    Dyncomp_scenario 2 (fun _ _ => 1) (fun _ => rfl) (fun _ => rfl)).1 0 0
    (by norm_num [Dyncomp_scenario]) (by norm_num)
/-- C17. Within one sample step of `Dyncomp_process`, with `za1` the freshly
updated attack state and `holding` the flag of the step: `zr1` becomes `za1`
when `zr1 < za1`, otherwise it stays unchanged if holding and becomes
`zr1 - w_rel * zr1` if not; then `zr2` becomes `za1` when `zr2 < za1`, otherwise
it stays unchanged if holding and becomes `zr2 + w_rel * (zr1 - zr2)` if not,
with the already updated `zr1`. -/
theorem C17_release_cascade (m : Libm F) (s : Dyncomp F) (dg dr : F) (j : Nat) (st : Loop F) :
    (Dyncomp_sample m s dg dr j st).zr1 =
      (if st.zr1 < (Dyncomp_sample m s dg dr j st).za1 then (Dyncomp_sample m s dg dr j st).za1
       else if Dyncomp_holding s (Dyncomp_sample m s dg dr j st).za1 = true then st.zr1
       else st.zr1 - s.w_rel * st.zr1) ∧
    (Dyncomp_sample m s dg dr j st).zr2 =
      (if st.zr2 < (Dyncomp_sample m s dg dr j st).za1 then (Dyncomp_sample m s dg dr j st).za1
       else if Dyncomp_holding s (Dyncomp_sample m s dg dr j st).za1 = true then st.zr2
       else st.zr2 + s.w_rel * ((Dyncomp_sample m s dg dr j st).zr1 - st.zr2)) ∧
    (Dyncomp_holding s (Dyncomp_sample m s dg dr j st).za1 = true ↔
      (Dyncomp_sample m s dg dr j st).za1 < (if s.hold = true then 2 * s.p_thr else 0)) := by
  obtain ⟨e1, e2⟩ := sample_release m s dg dr j st
  have hflag : (Dyncomp_holding s (Dyncomp_sample m s dg dr j st).za1 = true ↔
      (Dyncomp_sample m s dg dr j st).za1 < (if s.hold = true then 2 * s.p_thr else 0)) := by
    simp [Dyncomp_holding]
  refine ⟨?_, ?_, hflag⟩
  · rw [e1]
    by_cases h : (Dyncomp_sample m s dg dr j st).za1 < (if s.hold = true then 2 * s.p_thr else 0)
    · rw [if_pos h, if_pos (hflag.mpr h)]
    · rw [if_neg h, if_neg (fun hc => h (hflag.mp hc))]
  · rw [e2]
    by_cases h : (Dyncomp_sample m s dg dr j st).za1 < (if s.hold = true then 2 * s.p_thr else 0)
    · rw [if_pos h, if_pos (hflag.mpr h)]
    · rw [if_neg h, if_neg (fun hc => h (hflag.mp hc))]
/-! ## The stored rms (C19) -/

/-- What `Dyncomp_process` stores as `rms` (lv2.c 340-346). -/
theorem process_rms (m : Libm F) (s : Dyncomp F) (n : Nat) (io : Nat → Nat → F) :
    (Dyncomp_process m s n io).1.rms =
      if m.isfinite (Dyncomp_at m s io n).rms = false then 0
      else if 10 < (Dyncomp_at m s io n).rms then 10
      else m.tofloat ((Dyncomp_at m s io n).rms + 1 / 1000000000000) := by
  simp only [Dyncomp_process]
  cases m.isfinite (Dyncomp_at m s io n).rms <;> cases m.isfinite (Dyncomp_at m s io n).za1 <;>
    simp <;> split_ifs <;> rfl

/-- The running rms of one sample (lv2.c 273-274). -/
theorem sample_rms (m : Libm F) (s : Dyncomp F) (dg dr : F) (j : Nat) (st : Loop F) :
    (Dyncomp_sample m s dg dr j st).rms =
      st.rms + s.w_rms * (Dyncomp_key (Dyncomp_sample m s dg dr j st).g st.io j s.n_channels *
        s.norm_input - st.rms) :=
  rfl

theorem loop_rms_nonneg (m : Libm F) (s : Dyncomp F) (dg dr : F) (st : Loop F)
    (h0 : 0 ≤ st.rms) (hw0 : 0 ≤ s.w_rms) (hw1 : s.w_rms ≤ 1) (hn : 0 ≤ s.norm_input) :
    ∀ k, 0 ≤ (Dyncomp_loop m s dg dr k st).rms := by
  intro k
  induction k with
  | zero => exact h0
  | succ k ih =>
    show 0 ≤ (Dyncomp_sample m s dg dr k (Dyncomp_loop m s dg dr k st)).rms
    rw [sample_rms]
    have hv := mul_nonneg (key_nonneg (Dyncomp_sample m s dg dr k
      (Dyncomp_loop m s dg dr k st)).g (Dyncomp_loop m s dg dr k st).io k s.n_channels) hn
    linarith [mul_nonneg hw0 hv, mul_nonneg (sub_nonneg.mpr hw1) ih]
/-- C19. After every `Dyncomp_process` call the stored `rms` is 0 when the
running rms of the block is non-finite, 10 when it exceeds 10, and otherwise
the running rms plus `1e-12`, a `double` sum that the store converts to `float`
(`fl32`, rounding to the nearest binary32 value). So the stored `rms` never
exceeds 10: a sum of at most `10 + 1e-12` rounds to at most 10. For a
non-negative `rms` before the block, `0 <= w_rms <= 1` and `norm_input >= 0`
it is never negative. -/
theorem C19_stored_rms_clamped [FloorRing F] (m : Libm F) (s : Dyncomp F) (n : Nat)
    (io : Nat → Nat → F) (htf : ∀ x, m.tofloat x = fl32 x) :
    (m.isfinite (Dyncomp_at m s io n).rms = false → (Dyncomp_process m s n io).1.rms = 0) ∧
    (m.isfinite (Dyncomp_at m s io n).rms = true → 10 < (Dyncomp_at m s io n).rms →
      (Dyncomp_process m s n io).1.rms = 10) ∧
    (m.isfinite (Dyncomp_at m s io n).rms = true → (Dyncomp_at m s io n).rms ≤ 10 →
      (Dyncomp_process m s n io).1.rms =
        fl32 ((Dyncomp_at m s io n).rms + 1 / 1000000000000)) ∧
    (Dyncomp_process m s n io).1.rms ≤ 10 ∧
    (0 ≤ s.rms → 0 ≤ s.w_rms → s.w_rms ≤ 1 → 0 ≤ s.norm_input →
      0 ≤ (Dyncomp_process m s n io).1.rms) := by
  have h := process_rms m s n io
  rw [htf] at h
  refine ⟨?_, ?_, ?_, ?_, ?_⟩
  · intro hf
    rw [h, if_pos hf]
  · intro hf hgt
    rw [h, if_neg (by rw [hf]; decide), if_pos hgt]
  · intro hf hle
    rw [h, if_neg (by rw [hf]; decide), if_neg (not_lt.mpr hle)]
  · rw [h]
    split_ifs with h1 h2
    · norm_num
    · exact le_refl 10
    · exact fl32_le_ten _ (by have := not_lt.mp h2; linarith)
  · intro h0 hw0 hw1 hn
    have hr := loop_rms_nonneg m s (Dyncomp_dg s) (Dyncomp_dr s) (Dyncomp_locals s io)
      h0 hw0 hw1 hn n
    have hr2 : 0 ≤ (Dyncomp_at m s io n).rms := hr
    rw [h]
    split_ifs
    · exact le_refl 0
    · norm_num
    · exact fl32_nonneg _ (by linarith)

/-- C19 witness: the scenario engine (`rms = 0`, `w_rms = 5/48000`), two
samples of value 1, with the store conversion `fl32`. -/
theorem C19_stored_rms_clamped_witness :
    (∀ x, (Libm.mk Real.log Real.exp (fun x => (10 : ℝ) ^ x) (Real.logb 10) (fun _ => true)
      fl32).tofloat x = fl32 x) ∧
    (0 : ℝ) ≤ (Dyncomp_scenario : Dyncomp ℝ).rms ∧
    (0 : ℝ) ≤ (Dyncomp_scenario : Dyncomp ℝ).w_rms ∧
    (Dyncomp_scenario : Dyncomp ℝ).w_rms ≤ 1 ∧
    (0 : ℝ) ≤ (Dyncomp_scenario : Dyncomp ℝ).norm_input ∧
    (Dyncomp_process
      (Libm.mk Real.log Real.exp (fun x => (10 : ℝ) ^ x) (Real.logb 10) (fun _ => true) fl32)
      (Dyncomp_scenario : Dyncomp ℝ) 2 (fun _ _ => 1)).1.rms ≤ 10 ∧
    0 ≤ (Dyncomp_process
      (Libm.mk Real.log Real.exp (fun x => (10 : ℝ) ^ x) (Real.logb 10) (fun _ => true) fl32)
      (Dyncomp_scenario : Dyncomp ℝ) 2 (fun _ _ => 1)).1.rms :=
  ⟨fun _ => rfl, by norm_num [Dyncomp_scenario], by norm_num [Dyncomp_scenario],
   by norm_num [Dyncomp_scenario], by norm_num [Dyncomp_scenario],
   (C19_stored_rms_clamped
      (Libm.mk Real.log Real.exp (fun x => (10 : ℝ) ^ x) (Real.logb 10) (fun _ => true) fl32)
      (Dyncomp_scenario : Dyncomp ℝ) 2 (fun _ _ => 1) (fun _ => rfl)).2.2.2.1,
   (C19_stored_rms_clamped
      (Libm.mk Real.log Real.exp (fun x => (10 : ℝ) ^ x) (Real.logb 10) (fun _ => true) fl32)
      (Dyncomp_scenario : Dyncomp ℝ) 2 (fun _ _ => 1) (fun _ => rfl)).2.2.2.2
      (by norm_num [Dyncomp_scenario]) (by norm_num [Dyncomp_scenario])
      (by norm_num [Dyncomp_scenario]) (by norm_num [Dyncomp_scenario])⟩

/-- With the smoothed gain at its target the gain of every sample is the
target, and the running rms after the first sample is one low-pass step. -/
theorem at_gain_settled (m : Libm F) (s : Dyncomp F) (io : Nat → Nat → F)
    (h : s.igain = s.p_ign) :
    (∀ k, (Dyncomp_at m s io k).g = s.p_ign) ∧
    (Dyncomp_at m s io 0).rms = s.rms ∧
    (Dyncomp_at m s io 1).rms =
      s.rms + s.w_rms * (Dyncomp_key s.p_ign io 0 s.n_channels * s.norm_input - s.rms) := by
  have hsnap : |s.p_ign - s.igain| < 2748779 / 274877906944 := by
    rw [h, sub_self, abs_zero]; norm_num
  have hg : ∀ k, (Dyncomp_at m s io k).g = s.p_ign := by
    intro k
    have h0 := (loop_const m s (Dyncomp_dg s) (Dyncomp_dr s) (Dyncomp_locals s io) k).1
      ((dg_dr_zero s).1.mpr (Or.inl hsnap))
    have h1 : (Dyncomp_locals s io).g = s.p_ign := by
      simp only [Dyncomp_locals]
      rw [if_pos (Or.inl hsnap)]
    rw [← h1]
    exact h0
  refine ⟨hg, rfl, ?_⟩
  have h1 := hg 1
  show (Dyncomp_sample m s _ _ 0 (Dyncomp_locals s io)).rms = _
  rw [sample_rms]
  have h2 : (Dyncomp_sample m s (Dyncomp_dg s) (Dyncomp_dr s) 0 (Dyncomp_locals s io)).g =
      s.p_ign := h1
  rw [h2]
  rfl

/-! ## Construction (C20) -/

/-- C20 (as amended). `instantiate` fails (returns `NULL`) exactly when the
descriptor URI is neither the mono nor the stereo plugin. For these two it
produces an engine for every sample rate, also for `sample_rate <= 0`, which is
not checked: the engine is `Dyncomp_init` of the zero-filled memory at that
rate, with 1 or 2 channels, never 0. -/
theorem C20_instantiate_total [FloorRing F] (uri : String) (rate : F) :
    (instantiate uri rate = none ↔
      (uri ≠ DARC_URI ++ "mono" ∧ uri ≠ DARC_URI ++ "stereo")) ∧
    (∀ d, instantiate uri rate = some d →
      (d.dyncomp.n_channels = 1 ∨ d.dyncomp.n_channels = 2) ∧
      d.dyncomp = Dyncomp_init Dyncomp_calloc rate d.dyncomp.n_channels ∧
      d.dyncomp.sample_rate = rate) := by
  constructor
  · simp only [instantiate]
    split_ifs with h1 h2
    · simp [h1]
    · simp [h2]
    · simp [h1, h2]
  · intro d hd
    simp only [instantiate] at hd
    split_ifs at hd with h1 h2
    · simp only [Option.some.injEq] at hd
      subst hd
      simp only [init_fields]
      exact ⟨Or.inl trivial, trivial, trivial⟩
    · simp only [Option.some.injEq] at hd
      subst hd
      simp only [init_fields]
      exact ⟨Or.inr trivial, trivial, trivial⟩

/-- C20 witness: the mono plugin at 48 kHz is instantiated, with one channel. -/
theorem C20_instantiate_total_witness :
    instantiate (DARC_URI ++ "mono") (48000 : ℚ) ≠ none ∧
    ∀ d, instantiate (DARC_URI ++ "mono") (48000 : ℚ) = some d →
      d.dyncomp.sample_rate = 48000 :=
  ⟨fun h => ((C20_instantiate_total (DARC_URI ++ "mono") (48000 : ℚ)).1.mp h).1 rfl,
   fun d hd => ((C20_instantiate_total (DARC_URI ++ "mono") (48000 : ℚ)).2 d hd).2.2⟩

/-- C20 counterexample: the mono plugin instantiated at the sample rate 0 and
the stereo plugin at the sample rate -1 are engines, not failures; and
`Dyncomp_init` itself (it returns nothing) yields a record for every sample
rate and channel count, 0 included. -/
theorem C20_engine_at_invalid_rate :
    instantiate (DARC_URI ++ "mono") (0 : ℚ) ≠ none ∧
    instantiate (DARC_URI ++ "stereo") (-1 : ℚ) ≠ none ∧
    (Dyncomp_init (Dyncomp_calloc : Dyncomp ℚ) 0 0).n_channels = 0 ∧
    (Dyncomp_init (Dyncomp_calloc : Dyncomp ℚ) 0 0).sample_rate = 0 := by
  refine ⟨?_, ?_, ?_, ?_⟩
  · rw [instantiate, if_pos rfl]
    exact Option.some_ne_none _
  · rw [instantiate, if_neg (by decide), if_pos rfl]
    exact Option.some_ne_none _
  · rw [init_fields]
  · rw [init_fields]
/-! ## Non-finite samples (C18) -/

theorem Fl.of_eq (x : F) (h : |x| < 2 ^ 128 - 2 ^ 103) : Fl.of x = Fl.fin x :=
  if_pos h

theorem Fl.of_zero : Fl.of (0 : F) = Fl.fin 0 :=
  Fl.of_eq 0 (by rw [abs_zero]; norm_num)

theorem Fl.isfinite_of (x : F) (h : Fl.isfinite (Fl.of x) = true) :
    Fl.of x = Fl.fin x ∧ |x| < 2 ^ 128 - 2 ^ 103 := by
  by_cases hx : |x| < 2 ^ 128 - 2 ^ 103
  · exact ⟨Fl.of_eq x hx, hx⟩
  · unfold Fl.of at h
    rw [if_neg hx] at h
    split_ifs at h <;> simp [Fl.isfinite] at h

theorem Fl.fin_add_fin (a b : F) : (Fl.fin a + Fl.fin b : Fl F) = Fl.of (a + b) := rfl

theorem Fl.fin_mul_fin (a b : F) : (Fl.fin a * Fl.fin b : Fl F) = Fl.of (a * b) := rfl

theorem Fl.fin_sub_fin (a b : F) : (Fl.fin a - Fl.fin b : Fl F) = Fl.of (a - b) := by
  show Fl.of (a + -b) = Fl.of (a - b)
  rw [sub_eq_add_neg]

theorem Fl.neg_fin (a : F) : (-Fl.fin a : Fl F) = Fl.fin (-a) := rfl

theorem Fl.fin_lt_fin (a b : F) : (Fl.fin a < Fl.fin b) ↔ a < b := by
  show Fl.lt (Fl.fin a) (Fl.fin b) = true ↔ a < b
  simp [Fl.lt]

/-- A finite sum has finite operands and stays below the overflow bound. -/
theorem Fl.isfinite_add (a b : Fl F) (h : Fl.isfinite (a + b) = true) :
    Fl.isfinite a = true ∧ Fl.isfinite b = true ∧
      ∃ c, a + b = Fl.fin c ∧ |c| < 2 ^ 128 - 2 ^ 103 := by
  cases a <;> cases b <;> first
    | exact ⟨rfl, rfl, _, Fl.isfinite_of _ h⟩
    | exact absurd h (by simp [HAdd.hAdd, Add.add, Fl.add, Fl.isfinite])

/-- The detector part of one sample over `Fl` (lv2.c 276-293). -/
theorem sample_fl_detector (m : Libm (Fl F)) (s : Dyncomp (Fl F)) (dg dr : Fl F) (j : Nat)
    (st : Loop (Fl F)) :
    (∃ x, (Dyncomp_sample_fl m s dg dr j st).za1 = st.za1 + x) ∧
    (Dyncomp_sample_fl m s dg dr j st).zr1 =
      (if st.zr1 < (Dyncomp_sample_fl m s dg dr j st).za1
        then (Dyncomp_sample_fl m s dg dr j st).za1
       else if (!Dyncomp_holding_fl s (Dyncomp_sample_fl m s dg dr j st).za1) = true
        then st.zr1 - s.w_rel * st.zr1
       else st.zr1) ∧
    (Dyncomp_sample_fl m s dg dr j st).zr2 =
      (if st.zr2 < (Dyncomp_sample_fl m s dg dr j st).za1
        then (Dyncomp_sample_fl m s dg dr j st).za1
       else if (!Dyncomp_holding_fl s (Dyncomp_sample_fl m s dg dr j st).za1) = true
        then st.zr2 + s.w_rel * ((Dyncomp_sample_fl m s dg dr j st).zr1 - st.zr2)
       else st.zr2) :=
  ⟨⟨_, rfl⟩, rfl, rfl⟩

/-- While `za1` is finite after a sample, it was finite before it, and release
states that are finite and not negative stay so, for `0 <= w_rel <= 1`: the
release steps then move `zr1` towards 0 and `zr2` towards `zr1`, and cannot
overflow. -/
theorem sample_fl_finite (m : Libm (Fl F)) (s : Dyncomp (Fl F)) (dg dr : Fl F) (j : Nat)
    (st : Loop (Fl F)) (hw : ∃ w, s.w_rel = Fl.fin w ∧ 0 ≤ w ∧ w ≤ 1)
    (h : Fl.isfinite st.za1 = true → Fl.nonneg_float st.zr1 ∧ Fl.nonneg_float st.zr2)
    (hz : Fl.isfinite (Dyncomp_sample_fl m s dg dr j st).za1 = true) :
    Fl.nonneg_float (Dyncomp_sample_fl m s dg dr j st).zr1 ∧
    Fl.nonneg_float (Dyncomp_sample_fl m s dg dr j st).zr2 := by
  obtain ⟨⟨x, hx⟩, e1, e2⟩ := sample_fl_detector m s dg dr j st
  obtain ⟨w, hw, hw0, hw1⟩ := hw
  have hz2 := hz
  rw [hx] at hz2
  obtain ⟨hza, _, c, hc, hcb⟩ := Fl.isfinite_add _ _ hz2
  obtain ⟨⟨a, ha, ha0, ha1⟩, ⟨b, hb, hb0, hb1⟩⟩ := h hza
  have hS : (Dyncomp_sample_fl m s dg dr j st).za1 = Fl.fin c := by rw [hx]; exact hc
  have hcT : c < 2 ^ 128 - 2 ^ 103 := lt_of_le_of_lt (le_abs_self c) hcb
  generalize Dyncomp_sample_fl m s dg dr j st = S at e1 e2 hS
  rw [hS, ha, hw] at e1
  have hzr1 : ∃ a2, S.zr1 = Fl.fin a2 ∧ 0 ≤ a2 ∧ a2 < 2 ^ 128 - 2 ^ 103 := by
    rw [e1]
    by_cases h1 : a < c
    · rw [if_pos ((Fl.fin_lt_fin a c).mpr h1)]
      exact ⟨c, rfl, by linarith, hcT⟩
    · rw [if_neg (fun hh => h1 ((Fl.fin_lt_fin a c).mp hh))]
      have hwa0 : 0 ≤ w * a := mul_nonneg hw0 ha0
      have hwa1 : w * a ≤ a := by
        have := mul_le_mul_of_nonneg_right hw1 ha0
        linarith
      split_ifs
      · rw [Fl.fin_mul_fin, Fl.of_eq _ (by rw [abs_of_nonneg hwa0]; linarith), Fl.fin_sub_fin,
          Fl.of_eq _ (by rw [abs_of_nonneg (by linarith)]; linarith)]
        exact ⟨a - w * a, rfl, by linarith, by linarith⟩
      · exact ⟨a, rfl, ha0, ha1⟩
  obtain ⟨a2, ha2, ha20, ha21⟩ := hzr1
  refine ⟨⟨a2, ha2, ha20, ha21⟩, ?_⟩
  rw [hS, hb, hw, ha2] at e2
  rw [e2]
  by_cases h1 : b < c
  · rw [if_pos ((Fl.fin_lt_fin b c).mpr h1)]
    exact ⟨c, rfl, by linarith, hcT⟩
  · rw [if_neg (fun hh => h1 ((Fl.fin_lt_fin b c).mp hh))]
    split_ifs
    · have hd : |a2 - b| < 2 ^ 128 - 2 ^ 103 := by
        rw [abs_lt]; constructor <;> linarith
      have hwd : |w * (a2 - b)| ≤ |a2 - b| := by
        rw [abs_mul, abs_of_nonneg hw0]
        have := mul_le_mul_of_nonneg_right hw1 (abs_nonneg (a2 - b))
        linarith
      have hmix1 : 0 ≤ b + w * (a2 - b) := by
        have : b + w * (a2 - b) = (1 - w) * b + w * a2 := by ring
        rw [this]
        exact add_nonneg (mul_nonneg (by linarith) hb0) (mul_nonneg hw0 ha20)
      have hmix2 : b + w * (a2 - b) < 2 ^ 128 - 2 ^ 103 := by
        have e : b + w * (a2 - b) = (1 - w) * b + w * a2 := by ring
        rcases le_total a2 b with hab | hab
        · have := mul_nonpos_of_nonneg_of_nonpos hw0 (sub_nonpos.mpr hab)
          linarith
        · have := mul_le_mul_of_nonneg_right hw1 (sub_nonneg.mpr hab)
          linarith
      rw [Fl.fin_sub_fin, Fl.of_eq _ hd, Fl.fin_mul_fin,
        Fl.of_eq _ (lt_of_le_of_lt hwd hd), Fl.fin_add_fin,
        Fl.of_eq _ (by rw [abs_of_nonneg hmix1]; exact hmix2)]
      exact ⟨b + w * (a2 - b), rfl, hmix1, hmix2⟩
    · exact ⟨b, rfl, hb0, hb1⟩

theorem loop_fl_finite (m : Libm (Fl F)) (s : Dyncomp (Fl F)) (dg dr : Fl F)
    (st : Loop (Fl F)) (hw : ∃ w, s.w_rel = Fl.fin w ∧ 0 ≤ w ∧ w ≤ 1)
    (h : Fl.isfinite st.za1 = true → Fl.nonneg_float st.zr1 ∧ Fl.nonneg_float st.zr2) :
    ∀ k, Fl.isfinite (Dyncomp_loop_fl m s dg dr k st).za1 = true →
      Fl.nonneg_float (Dyncomp_loop_fl m s dg dr k st).zr1 ∧
      Fl.nonneg_float (Dyncomp_loop_fl m s dg dr k st).zr2 := by
  intro k
  induction k with
  | zero => exact h
  | succ k ih => exact sample_fl_finite m s dg dr k _ hw ih

/-- What `Dyncomp_process_fl` stores when `za1` ends the block finite
(lv2.c 331-337). -/
theorem process_fl_finite (m : Libm (Fl F)) (s : Dyncomp (Fl F)) (n : Nat)
    (io : Nat → Nat → Fl F) (h : Fl.isfinite (Dyncomp_at_fl m s io n).za1 = true) :
    (Dyncomp_process_fl m s n io).1.za1 = (Dyncomp_at_fl m s io n).za1 ∧
    (Dyncomp_process_fl m s n io).1.zr1 = (Dyncomp_at_fl m s io n).zr1 ∧
    (Dyncomp_process_fl m s n io).1.zr2 = (Dyncomp_at_fl m s io n).zr2 ∧
    (Dyncomp_process_fl m s n io).1.gmax = (Dyncomp_at_fl m s io n).gmax ∧
    (Dyncomp_process_fl m s n io).1.gmin = (Dyncomp_at_fl m s io n).gmin := by
  simp only [Dyncomp_process_fl, h, Bool.not_true, Bool.false_eq_true, if_false]
  refine ⟨?_, ?_, ?_, ?_, ?_⟩ <;> split_ifs <;> rfl

/-- C18 (as amended). With samples and states taken in `Fl` (finite values,
infinities and NaN, sums and products overflowing to an infinity), for every
block, also one with NaN or infinite samples: when `za1` ends the block
non-finite, `Dyncomp_process` stores `za1 = zr1 = zr2 = 0` and sets the
new-window flag, `gmin` and `gmax` keeping their previous values; when `za1`
ends the block finite, it is stored with the `zr1` and `zr2` of the last
sample, and these are finite as well, given a release coefficient
`0 <= w_rel <= 1` and finite, non-negative `zr1` and `zr2` before the block.
Under these conditions the stored `za1`, `zr1` and `zr2` are finite in both
cases, and `zr1`, `zr2` are again not negative. -/
theorem C18_stored_states_finite (m : Libm (Fl F)) (s : Dyncomp (Fl F)) (n : Nat)
    (io : Nat → Nat → Fl F) :
    (Fl.isfinite (Dyncomp_at_fl m s io n).za1 = false →
      (Dyncomp_process_fl m s n io).1.za1 = Fl.fin 0 ∧
      (Dyncomp_process_fl m s n io).1.zr1 = Fl.fin 0 ∧
      (Dyncomp_process_fl m s n io).1.zr2 = Fl.fin 0 ∧
      (Dyncomp_process_fl m s n io).1.newg = true ∧
      (Dyncomp_process_fl m s n io).1.gmin = s.gmin ∧
      (Dyncomp_process_fl m s n io).1.gmax = s.gmax) ∧
    (Fl.isfinite (Dyncomp_at_fl m s io n).za1 = true →
      (Dyncomp_process_fl m s n io).1.za1 = (Dyncomp_at_fl m s io n).za1 ∧
      (Dyncomp_process_fl m s n io).1.zr1 = (Dyncomp_at_fl m s io n).zr1 ∧
      (Dyncomp_process_fl m s n io).1.zr2 = (Dyncomp_at_fl m s io n).zr2) ∧
    ((∃ w, s.w_rel = Fl.fin w ∧ 0 ≤ w ∧ w ≤ 1) → Fl.nonneg_float s.zr1 →
      Fl.nonneg_float s.zr2 →
      Fl.isfinite (Dyncomp_process_fl m s n io).1.za1 = true ∧
      Fl.isfinite (Dyncomp_process_fl m s n io).1.zr1 = true ∧
      Fl.isfinite (Dyncomp_process_fl m s n io).1.zr2 = true ∧
      Fl.nonneg_float (Dyncomp_process_fl m s n io).1.zr1 ∧
      Fl.nonneg_float (Dyncomp_process_fl m s n io).1.zr2) := by
  have hnon : Fl.isfinite (Dyncomp_at_fl m s io n).za1 = false →
      (Dyncomp_process_fl m s n io).1.za1 = Fl.fin 0 ∧
      (Dyncomp_process_fl m s n io).1.zr1 = Fl.fin 0 ∧
      (Dyncomp_process_fl m s n io).1.zr2 = Fl.fin 0 ∧
      (Dyncomp_process_fl m s n io).1.newg = true ∧
      (Dyncomp_process_fl m s n io).1.gmin = s.gmin ∧
      (Dyncomp_process_fl m s n io).1.gmax = s.gmax := by
    intro h
    simp only [Dyncomp_process_fl, h, Bool.not_false, if_true]
    refine ⟨?_, ?_, ?_, ?_, ?_, ?_⟩ <;> split_ifs <;> rfl
  have hfin : Fl.isfinite (Dyncomp_at_fl m s io n).za1 = true →
      (Dyncomp_process_fl m s n io).1.za1 = (Dyncomp_at_fl m s io n).za1 ∧
      (Dyncomp_process_fl m s n io).1.zr1 = (Dyncomp_at_fl m s io n).zr1 ∧
      (Dyncomp_process_fl m s n io).1.zr2 = (Dyncomp_at_fl m s io n).zr2 := by
    intro h
    obtain ⟨a, b, c, _, _⟩ := process_fl_finite m s n io h
    exact ⟨a, b, c⟩
  refine ⟨hnon, hfin, ?_⟩
  intro hw h1 h2
  have h0 : Fl.nonneg_float (Fl.fin (0 : F)) := ⟨0, rfl, le_refl 0, by norm_num⟩
  have hfinite : ∀ x : Fl F, Fl.nonneg_float x → Fl.isfinite x = true := by
    rintro x ⟨a, rfl, _, _⟩
    rfl
  cases hc : Fl.isfinite (Dyncomp_at_fl m s io n).za1 with
  | false =>
    obtain ⟨a, b, c, _⟩ := hnon hc
    rw [a, b, c]
    exact ⟨rfl, rfl, rfl, h0, h0⟩
  | true =>
    obtain ⟨a, b, c⟩ := hfin hc
    rw [a, b, c]
    have := loop_fl_finite m s (Dyncomp_dg_fl s) (Dyncomp_dr_fl s) (Dyncomp_locals_fl s io) hw
      (fun _ => ⟨h1, h2⟩) n hc
    exact ⟨hc, hfinite _ this.1, hfinite _ this.2, this.1, this.2⟩

theorem Fl.fin_sub_pinf (a : F) : (Fl.fin a - Fl.pinf : Fl F) = Fl.ninf := rfl

theorem Fl.fin_add_ninf (a : F) : (Fl.fin a + Fl.ninf : Fl F) = Fl.ninf := rfl

theorem Fl.ninf_sub_fin (a : F) : (Fl.ninf - Fl.fin a : Fl F) = Fl.ninf := rfl

theorem Fl.fin_mul_pinf (a : F) :
    (Fl.fin a * Fl.pinf : Fl F) = if 0 < a then Fl.pinf else if a < 0 then Fl.ninf else Fl.nan :=
  rfl

theorem Fl.fin_mul_ninf (a : F) :
    (Fl.fin a * Fl.ninf : Fl F) = if 0 < a then Fl.ninf else if a < 0 then Fl.pinf else Fl.nan :=
  rfl

/-- A NaN sample makes the key power, and with it `za1`, NaN. -/
theorem sample_fl_nan (m : Libm (Fl F)) (s : Dyncomp (Fl F)) (dg dr : Fl F) (j : Nat)
    (st : Loop (Fl F)) (hc : s.n_channels = 1) (hx : st.io 0 j = Fl.nan) :
    (Dyncomp_sample_fl m s dg dr j st).za1 = Fl.nan := by
  have hmul : ∀ a : Fl F, a * Fl.nan = Fl.nan := by
    intro a; cases a <;> rfl
  have hmul2 : ∀ a : Fl F, Fl.nan * a = Fl.nan := by
    intro a; cases a <;> rfl
  have hadd : ∀ a : Fl F, a + Fl.nan = Fl.nan := by
    intro a; cases a <;> rfl
  have hadd2 : ∀ a : Fl F, Fl.nan + a = Fl.nan := by
    intro a; cases a <;> rfl
  have hsub : ∀ a : Fl F, Fl.nan - a = Fl.nan := by
    intro a; cases a <;> rfl
  simp only [Dyncomp_sample_fl, hc, Dyncomp_key_fl, hx, hmul, hmul2, hadd, hadd2, hsub]

/-- Once `za1` is not finite it stays so for the rest of the block. -/
theorem loop_fl_absorb (m : Libm (Fl F)) (s : Dyncomp (Fl F)) (dg dr : Fl F)
    (st : Loop (Fl F)) (k : Nat)
    (h : Fl.isfinite (Dyncomp_loop_fl m s dg dr k st).za1 = false) :
    ∀ d, Fl.isfinite (Dyncomp_loop_fl m s dg dr (k + d) st).za1 = false := by
  intro d
  induction d with
  | zero => exact h
  | succ d ih =>
    obtain ⟨⟨x, hx⟩, _, _⟩ :=
      sample_fl_detector m s dg dr (k + d) (Dyncomp_loop_fl m s dg dr (k + d) st)
    have e : Dyncomp_loop_fl m s dg dr (k + (d + 1)) st =
        Dyncomp_sample_fl m s dg dr (k + d) (Dyncomp_loop_fl m s dg dr (k + d) st) := rfl
    rw [e, hx]
    cases hc : Fl.isfinite ((Dyncomp_loop_fl m s dg dr (k + d) st).za1 + x) with
    | false => rfl
    | true =>
      have := (Fl.isfinite_add _ _ hc).1
      rw [ih] at this
      exact absurd this (by decide)

/-- The mono engine right after `Dyncomp_init` at 48 kHz, as a record over
`Fl`: the release coefficient is `3.5 / (48000 * 0.03)` and the detector states
are 0. -/
theorem init_fl_fields :
    (Dyncomp_fl (Dyncomp_init (Dyncomp_calloc : Dyncomp ℝ) 48000 1)).w_rel =
      Fl.fin (7 / 2 / (48000 * (3 / 100))) ∧
    (Dyncomp_fl (Dyncomp_init (Dyncomp_calloc : Dyncomp ℝ) 48000 1)).zr1 = Fl.fin 0 ∧
    (Dyncomp_fl (Dyncomp_init (Dyncomp_calloc : Dyncomp ℝ) 48000 1)).zr2 = Fl.fin 0 ∧
    (Dyncomp_fl (Dyncomp_init (Dyncomp_calloc : Dyncomp ℝ) 48000 1)).n_channels = 1 := by
  simp only [Dyncomp_fl, init_fields]
  exact ⟨trivial, trivial, trivial, trivial⟩

/-- C18 witness: the engine right after `Dyncomp_init` (48 kHz, mono,
`w_rel = 7/2880`, detector states 0), a block of two samples of which the first
is NaN: `za1` ends the block non-finite, and the stored detector is reset to 0
with the new-window flag set. -/
theorem C18_stored_states_finite_witness :
    (∃ w, (Dyncomp_fl (Dyncomp_init (Dyncomp_calloc : Dyncomp ℝ) 48000 1)).w_rel = Fl.fin w ∧
      0 ≤ w ∧ w ≤ 1) ∧
    Fl.nonneg_float (Dyncomp_fl (Dyncomp_init (Dyncomp_calloc : Dyncomp ℝ) 48000 1)).zr1 ∧
    Fl.nonneg_float (Dyncomp_fl (Dyncomp_init (Dyncomp_calloc : Dyncomp ℝ) 48000 1)).zr2 ∧
    Fl.isfinite (Dyncomp_at_fl
      (Libm_fl (Libm.mk Real.log Real.exp (fun x => (10 : ℝ) ^ x) (Real.logb 10)
        (fun _ => true) fl32))
      (Dyncomp_fl (Dyncomp_init Dyncomp_calloc 48000 1))
      (fun _ j => if j = 0 then Fl.nan else Fl.fin 1) 2).za1 = false ∧
    (Dyncomp_process_fl
      (Libm_fl (Libm.mk Real.log Real.exp (fun x => (10 : ℝ) ^ x) (Real.logb 10)
        (fun _ => true) fl32))
      (Dyncomp_fl (Dyncomp_init Dyncomp_calloc 48000 1)) 2
      (fun _ j => if j = 0 then Fl.nan else Fl.fin 1)).1.za1 = Fl.fin 0 ∧
    (Dyncomp_process_fl
      (Libm_fl (Libm.mk Real.log Real.exp (fun x => (10 : ℝ) ^ x) (Real.logb 10)
        (fun _ => true) fl32))
      (Dyncomp_fl (Dyncomp_init Dyncomp_calloc 48000 1)) 2
      (fun _ j => if j = 0 then Fl.nan else Fl.fin 1)).1.newg = true ∧
    Fl.isfinite (Dyncomp_process_fl
      (Libm_fl (Libm.mk Real.log Real.exp (fun x => (10 : ℝ) ^ x) (Real.logb 10)
        (fun _ => true) fl32))
      (Dyncomp_fl (Dyncomp_init Dyncomp_calloc 48000 1)) 2
      (fun _ j => if j = 0 then Fl.nan else Fl.fin 1)).1.zr2 = true := by
  obtain ⟨f1, f2, f3, f4⟩ := init_fl_fields
  have hw : ∃ w, (Dyncomp_fl (Dyncomp_init (Dyncomp_calloc : Dyncomp ℝ) 48000 1)).w_rel =
      Fl.fin w ∧ 0 ≤ w ∧ w ≤ 1 := ⟨_, f1, by norm_num, by norm_num⟩
  have hz1 : Fl.nonneg_float
      (Dyncomp_fl (Dyncomp_init (Dyncomp_calloc : Dyncomp ℝ) 48000 1)).zr1 :=
    ⟨0, f2, le_refl 0, by norm_num⟩
  have hz2 : Fl.nonneg_float
      (Dyncomp_fl (Dyncomp_init (Dyncomp_calloc : Dyncomp ℝ) 48000 1)).zr2 :=
    ⟨0, f3, le_refl 0, by norm_num⟩
  have h1 : Fl.isfinite (Dyncomp_at_fl
      (Libm_fl (Libm.mk Real.log Real.exp (fun x => (10 : ℝ) ^ x) (Real.logb 10)
        (fun _ => true) fl32))
      (Dyncomp_fl (Dyncomp_init Dyncomp_calloc 48000 1))
      (fun _ j => if j = 0 then Fl.nan else Fl.fin 1) 2).za1 = false := by
    have h0 : Fl.isfinite (Dyncomp_loop_fl
        (Libm_fl (Libm.mk Real.log Real.exp (fun x => (10 : ℝ) ^ x) (Real.logb 10)
          (fun _ => true) fl32))
        (Dyncomp_fl (Dyncomp_init Dyncomp_calloc 48000 1))
        (Dyncomp_dg_fl (Dyncomp_fl (Dyncomp_init Dyncomp_calloc 48000 1)))
        (Dyncomp_dr_fl (Dyncomp_fl (Dyncomp_init Dyncomp_calloc 48000 1))) 1
        (Dyncomp_locals_fl (Dyncomp_fl (Dyncomp_init Dyncomp_calloc 48000 1))
          (fun _ j => if j = 0 then Fl.nan else Fl.fin 1))).za1 = false := by
      show Fl.isfinite (Dyncomp_sample_fl _ _ _ _ 0 _).za1 = false
      rw [sample_fl_nan _ _ _ _ _ _ f4 rfl]
      rfl
    exact loop_fl_absorb _ _ _ _ _ 1 h0 1
  have h := C18_stored_states_finite
    (Libm_fl (Libm.mk Real.log Real.exp (fun x => (10 : ℝ) ^ x) (Real.logb 10)
      (fun _ => true) fl32))
    (Dyncomp_fl (Dyncomp_init Dyncomp_calloc 48000 1)) 2
    (fun _ j => if j = 0 then Fl.nan else Fl.fin 1)
  exact ⟨hw, hz1, hz2, h1, (h.1 h1).1, (h.1 h1).2.2.2.1, (h.2.2 hw hz1 hz2).2.2.1⟩

/-- The mono engine at 1024 Hz with the attack time `1/2048` s (`w_att = 1`) and
the release time `7/4096` s (`w_rel = 2`). -/
theorem overflow_engine :
    Dyncomp_run
      (Libm.mk Real.log Real.exp (fun x => (10 : ℝ) ^ x) (Real.logb 10) (fun _ => true) fl32)
      Dyncomp_calloc 1024 1 [Op.set_attack (1 / 2048), Op.set_release (7 / 4096)] =
      { sample_rate := 1024, n_channels := 1, norm_input := 1,
        ratio := 0, p_rat := 0, hold := false, igain := 1, p_ign := 1, l_ign := 0,
        p_thr := 1 / 20, l_thr := -10, w_att := 1, w_rel := 2,
        t_att := 1 / 2048, t_rel := 7 / 4096, za1 := 0, zr1 := 0, zr2 := 0,
        newg := true, gmax := 0, gmin := 0, rms := 0,
        w_rms := 5 / 1024, w_lpf := 160 / 1024 } := by
  simp only [Dyncomp_run, List.foldl_cons, List.foldl_nil, Dyncomp_call, init_fields,
    Dyncomp_set_attack, Dyncomp_set_release]
  norm_num

/-- C18 counterexample: the mono engine at 1024 Hz after `Dyncomp_init`, with
the attack time set to `1/2048` s (`w_att = 1`) and the release time to
`7/4096` s (`w_rel = 2`), and a block of the two finite samples `1.5 * 2^63`
and 0. The first sample drives `za1 = zr1 = zr2` to `0.05 + 9 * 2^124` (finite,
`1.9e38`); at the second `za1` falls back to `0.05`, and the release step
`zr1 - w_rel * zr1` overflows in the product: `zr1` and then `zr2` become
`-inf`. `za1` ends the block finite, so nothing is reset, and the stored `zr1`
and `zr2` are `-inf`. -/
theorem C18_release_overflow :
    Fl.isfinite (Dyncomp_at_fl
      (Libm_fl (Libm.mk Real.log Real.exp (fun x => (10 : ℝ) ^ x) (Real.logb 10)
        (fun _ => true) fl32))
      (Dyncomp_fl (Dyncomp_run
        (Libm.mk Real.log Real.exp (fun x => (10 : ℝ) ^ x) (Real.logb 10) (fun _ => true) fl32)
        Dyncomp_calloc 1024 1 [Op.set_attack (1 / 2048), Op.set_release (7 / 4096)]))
      (fun _ j => if j = 0 then Fl.fin 13835058055282163712 else Fl.fin 0) 2).za1 = true ∧
    (Dyncomp_at_fl
      (Libm_fl (Libm.mk Real.log Real.exp (fun x => (10 : ℝ) ^ x) (Real.logb 10)
        (fun _ => true) fl32))
      (Dyncomp_fl (Dyncomp_run
        (Libm.mk Real.log Real.exp (fun x => (10 : ℝ) ^ x) (Real.logb 10) (fun _ => true) fl32)
        Dyncomp_calloc 1024 1 [Op.set_attack (1 / 2048), Op.set_release (7 / 4096)]))
      (fun _ j => if j = 0 then Fl.fin 13835058055282163712 else Fl.fin 0) 1).zr1 =
      Fl.fin (1 / 20 + 9 * 2 ^ 124) ∧
    (Dyncomp_process_fl
      (Libm_fl (Libm.mk Real.log Real.exp (fun x => (10 : ℝ) ^ x) (Real.logb 10)
        (fun _ => true) fl32))
      (Dyncomp_fl (Dyncomp_run
        (Libm.mk Real.log Real.exp (fun x => (10 : ℝ) ^ x) (Real.logb 10) (fun _ => true) fl32)
        Dyncomp_calloc 1024 1 [Op.set_attack (1 / 2048), Op.set_release (7 / 4096)]))
      2 (fun _ j => if j = 0 then Fl.fin 13835058055282163712 else Fl.fin 0)).1.za1 =
      Fl.fin (1 / 20) ∧
    (Dyncomp_process_fl
      (Libm_fl (Libm.mk Real.log Real.exp (fun x => (10 : ℝ) ^ x) (Real.logb 10)
        (fun _ => true) fl32))
      (Dyncomp_fl (Dyncomp_run
        (Libm.mk Real.log Real.exp (fun x => (10 : ℝ) ^ x) (Real.logb 10) (fun _ => true) fl32)
        Dyncomp_calloc 1024 1 [Op.set_attack (1 / 2048), Op.set_release (7 / 4096)]))
      2 (fun _ j => if j = 0 then Fl.fin 13835058055282163712 else Fl.fin 0)).1.zr1 =
      Fl.ninf ∧
    (Dyncomp_process_fl
      (Libm_fl (Libm.mk Real.log Real.exp (fun x => (10 : ℝ) ^ x) (Real.logb 10)
        (fun _ => true) fl32))
      (Dyncomp_fl (Dyncomp_run
        (Libm.mk Real.log Real.exp (fun x => (10 : ℝ) ^ x) (Real.logb 10) (fun _ => true) fl32)
        Dyncomp_calloc 1024 1 [Op.set_attack (1 / 2048), Op.set_release (7 / 4096)]))
      2 (fun _ j => if j = 0 then Fl.fin 13835058055282163712 else Fl.fin 0)).1.zr2 =
      Fl.ninf := by
  rw [overflow_engine]
  have hza : (Dyncomp_at_fl
      (Libm_fl (Libm.mk Real.log Real.exp (fun x => (10 : ℝ) ^ x) (Real.logb 10)
        (fun _ => true) fl32))
      (Dyncomp_fl
        { sample_rate := 1024, n_channels := 1, norm_input := 1,
          ratio := 0, p_rat := 0, hold := false, igain := 1, p_ign := 1, l_ign := 0,
          p_thr := 1 / 20, l_thr := -10, w_att := 1, w_rel := 2,
          t_att := 1 / 2048, t_rel := 7 / 4096, za1 := 0, zr1 := 0, zr2 := 0,
          newg := true, gmax := 0, gmin := 0, rms := 0,
          w_rms := 5 / 1024, w_lpf := 160 / 1024 })
      (fun _ j => if j = 0 then Fl.fin 13835058055282163712 else Fl.fin 0) 2).za1 =
      Fl.fin (1 / 20) := by
    simp only [Dyncomp_at_fl, Dyncomp_loop_fl, Dyncomp_sample_fl, Dyncomp_locals_fl,
      Dyncomp_dg_fl, Dyncomp_dr_fl, Dyncomp_key_fl, Dyncomp_fl, Fl.fin_sub_fin, Fl.fin_add_fin,
      Fl.fin_mul_fin]
    norm_num [Fl.of, Fl.fabsf, Fl.fin_lt_fin, Fl.fin_add_fin, Fl.fin_mul_fin, Fl.fin_sub_fin,
      abs_of_nonneg]
  have hz0 : (Dyncomp_at_fl
      (Libm_fl (Libm.mk Real.log Real.exp (fun x => (10 : ℝ) ^ x) (Real.logb 10)
        (fun _ => true) fl32))
      (Dyncomp_fl
        { sample_rate := 1024, n_channels := 1, norm_input := 1,
          ratio := 0, p_rat := 0, hold := false, igain := 1, p_ign := 1, l_ign := 0,
          p_thr := 1 / 20, l_thr := -10, w_att := 1, w_rel := 2,
          t_att := 1 / 2048, t_rel := 7 / 4096, za1 := 0, zr1 := 0, zr2 := 0,
          newg := true, gmax := 0, gmin := 0, rms := 0,
          w_rms := 5 / 1024, w_lpf := 160 / 1024 })
      (fun _ j => if j = 0 then Fl.fin 13835058055282163712 else Fl.fin 0) 1).zr1 =
      Fl.fin (1 / 20 + 9 * 2 ^ 124) := by
    simp only [Dyncomp_at_fl, Dyncomp_loop_fl, Dyncomp_sample_fl, Dyncomp_locals_fl,
      Dyncomp_dg_fl, Dyncomp_dr_fl, Dyncomp_key_fl, Dyncomp_fl, Dyncomp_holding_fl,
      Fl.fin_sub_fin, Fl.fin_add_fin, Fl.fin_mul_fin]
    norm_num [Fl.of, Fl.fabsf, Fl.fin_lt_fin, Fl.fin_add_fin, Fl.fin_mul_fin, Fl.fin_sub_fin,
      Fl.fin_sub_pinf, Fl.fin_add_ninf, Fl.ninf_sub_fin, Fl.fin_mul_pinf, Fl.fin_mul_ninf,
      abs_of_nonneg]
  have hz1 : (Dyncomp_at_fl
      (Libm_fl (Libm.mk Real.log Real.exp (fun x => (10 : ℝ) ^ x) (Real.logb 10)
        (fun _ => true) fl32))
      (Dyncomp_fl
        { sample_rate := 1024, n_channels := 1, norm_input := 1,
          ratio := 0, p_rat := 0, hold := false, igain := 1, p_ign := 1, l_ign := 0,
          p_thr := 1 / 20, l_thr := -10, w_att := 1, w_rel := 2,
          t_att := 1 / 2048, t_rel := 7 / 4096, za1 := 0, zr1 := 0, zr2 := 0,
          newg := true, gmax := 0, gmin := 0, rms := 0,
          w_rms := 5 / 1024, w_lpf := 160 / 1024 })
      (fun _ j => if j = 0 then Fl.fin 13835058055282163712 else Fl.fin 0) 2).zr1 =
      Fl.ninf := by
    simp only [Dyncomp_at_fl, Dyncomp_loop_fl, Dyncomp_sample_fl, Dyncomp_locals_fl,
      Dyncomp_dg_fl, Dyncomp_dr_fl, Dyncomp_key_fl, Dyncomp_fl, Dyncomp_holding_fl,
      Fl.fin_sub_fin, Fl.fin_add_fin, Fl.fin_mul_fin]
    norm_num [Fl.of, Fl.fabsf, Fl.fin_lt_fin, Fl.fin_add_fin, Fl.fin_mul_fin, Fl.fin_sub_fin,
      Fl.fin_sub_pinf, Fl.fin_add_ninf, Fl.ninf_sub_fin, Fl.fin_mul_pinf, Fl.fin_mul_ninf,
      abs_of_nonneg]
  have hz2 : (Dyncomp_at_fl
      (Libm_fl (Libm.mk Real.log Real.exp (fun x => (10 : ℝ) ^ x) (Real.logb 10)
        (fun _ => true) fl32))
      (Dyncomp_fl
        { sample_rate := 1024, n_channels := 1, norm_input := 1,
          ratio := 0, p_rat := 0, hold := false, igain := 1, p_ign := 1, l_ign := 0,
          p_thr := 1 / 20, l_thr := -10, w_att := 1, w_rel := 2,
          t_att := 1 / 2048, t_rel := 7 / 4096, za1 := 0, zr1 := 0, zr2 := 0,
          newg := true, gmax := 0, gmin := 0, rms := 0,
          w_rms := 5 / 1024, w_lpf := 160 / 1024 })
      (fun _ j => if j = 0 then Fl.fin 13835058055282163712 else Fl.fin 0) 2).zr2 =
      Fl.ninf := by
    simp only [Dyncomp_at_fl, Dyncomp_loop_fl, Dyncomp_sample_fl, Dyncomp_locals_fl,
      Dyncomp_dg_fl, Dyncomp_dr_fl, Dyncomp_key_fl, Dyncomp_fl, Dyncomp_holding_fl,
      Fl.fin_sub_fin, Fl.fin_add_fin, Fl.fin_mul_fin]
    norm_num [Fl.of, Fl.fabsf, Fl.fin_lt_fin, Fl.fin_add_fin, Fl.fin_mul_fin, Fl.fin_sub_fin,
      Fl.fin_sub_pinf, Fl.fin_add_ninf, Fl.ninf_sub_fin, Fl.fin_mul_pinf, Fl.fin_mul_ninf,
      abs_of_nonneg]
  have hfin : Fl.isfinite (Dyncomp_at_fl
      (Libm_fl (Libm.mk Real.log Real.exp (fun x => (10 : ℝ) ^ x) (Real.logb 10)
        (fun _ => true) fl32))
      (Dyncomp_fl
        { sample_rate := 1024, n_channels := 1, norm_input := 1,
          ratio := 0, p_rat := 0, hold := false, igain := 1, p_ign := 1, l_ign := 0,
          p_thr := 1 / 20, l_thr := -10, w_att := 1, w_rel := 2,
          t_att := 1 / 2048, t_rel := 7 / 4096, za1 := 0, zr1 := 0, zr2 := 0,
          newg := true, gmax := 0, gmin := 0, rms := 0,
          w_rms := 5 / 1024, w_lpf := 160 / 1024 })
      (fun _ j => if j = 0 then Fl.fin 13835058055282163712 else Fl.fin 0) 2).za1 = true := by
    rw [hza]; rfl
  obtain ⟨p1, p2, p3, _, _⟩ := process_fl_finite _ _ 2 _ hfin
  exact ⟨hfin, hz0, by rw [p1, hza], by rw [p2, hz1], by rw [p3, hz2]⟩

/-! ## The extrema over `Fl` (C14) -/

theorem Fl.le_refl (a : Fl F) (h : a ≠ Fl.nan) : Fl.le a a := by
  refine ⟨h, h, ?_⟩
  cases a <;> simp [LT.lt, Fl.lt]

theorem Fl.le_trans (a b c : Fl F) (h1 : Fl.le a b) (h2 : Fl.le b c) : Fl.le a c := by
  obtain ⟨ha, _, hab⟩ := h1
  obtain ⟨_, hc, hbc⟩ := h2
  refine ⟨ha, hc, ?_⟩
  cases a <;> cases b <;> cases c <;> simp_all [LT.lt, Fl.lt]
  exact hab.trans hbc

/-- `fmaxf` returns one of its operands, and is at least each operand that is
a number. -/
theorem Fl.fmaxf_spec (a b : Fl F) :
    (Fl.fmaxf a b = a ∨ Fl.fmaxf a b = b) ∧
    (a ≠ Fl.nan → Fl.le a (Fl.fmaxf a b)) ∧ (b ≠ Fl.nan → Fl.le b (Fl.fmaxf a b)) ∧
    (b = Fl.nan → Fl.fmaxf a b = a) := by
  cases a <;> cases b <;> simp [Fl.fmaxf, Fl.le, LT.lt, Fl.lt]
  rename_i x y
  by_cases h : x < y
  · simp [h, Fl.lt, le_of_lt h, not_le.mpr h]
  · simp [h, Fl.lt, not_lt.mp h]

/-- `fminf` returns one of its operands, and is at most each operand that is
a number. -/
theorem Fl.fminf_spec (a b : Fl F) :
    (Fl.fminf a b = a ∨ Fl.fminf a b = b) ∧
    (a ≠ Fl.nan → Fl.le (Fl.fminf a b) a) ∧ (b ≠ Fl.nan → Fl.le (Fl.fminf a b) b) ∧
    (b = Fl.nan → Fl.fminf a b = a) := by
  cases a <;> cases b <;> simp [Fl.fminf, Fl.le, LT.lt, Fl.lt]
  rename_i x y
  by_cases h : y < x
  · simp [h, Fl.lt, le_of_lt h, not_le.mpr h]
  · simp [h, Fl.lt, not_lt.mp h]
/-- The extrema update of one sample over `Fl` (lv2.c 309-313). -/
theorem sample_fl_extrema (m : Libm (Fl F)) (s : Dyncomp (Fl F)) (dg dr : Fl F) (j : Nat)
    (st : Loop (Fl F)) :
    (Dyncomp_sample_fl m s dg dr j st).gmax =
      Fl.fmaxf st.gmax (-(Dyncomp_sample_fl m s dg dr j st).r *
        m.logf (Fl.fin 20 * (Dyncomp_sample_fl m s dg dr j st).zr2)) ∧
    (Dyncomp_sample_fl m s dg dr j st).gmin =
      Fl.fminf st.gmin (-(Dyncomp_sample_fl m s dg dr j st).r *
        m.logf (Fl.fin 20 * (Dyncomp_sample_fl m s dg dr j st).zr2)) :=
  ⟨rfl, rfl⟩

/-- Running extrema over the first `k` samples of the loop over `Fl`: they
bracket every exponent that is a number, and relative to a start value that is
a number they only widen and are the start value or one of the exponents. -/
theorem loop_fl_extrema (m : Libm (Fl F)) (s : Dyncomp (Fl F)) (dg dr : Fl F)
    (st : Loop (Fl F)) :
    ∀ k,
      (∀ j, j < k →
        -(Dyncomp_loop_fl m s dg dr (j + 1) st).r *
            m.logf (Fl.fin 20 * (Dyncomp_loop_fl m s dg dr (j + 1) st).zr2) ≠ Fl.nan →
        Fl.le (Dyncomp_loop_fl m s dg dr k st).gmin
          (-(Dyncomp_loop_fl m s dg dr (j + 1) st).r *
            m.logf (Fl.fin 20 * (Dyncomp_loop_fl m s dg dr (j + 1) st).zr2)) ∧
        Fl.le (-(Dyncomp_loop_fl m s dg dr (j + 1) st).r *
            m.logf (Fl.fin 20 * (Dyncomp_loop_fl m s dg dr (j + 1) st).zr2))
          (Dyncomp_loop_fl m s dg dr k st).gmax) ∧
      (st.gmax ≠ Fl.nan →
        Fl.le st.gmax (Dyncomp_loop_fl m s dg dr k st).gmax ∧
        ((Dyncomp_loop_fl m s dg dr k st).gmax = st.gmax ∨
          ∃ j, j < k ∧ (Dyncomp_loop_fl m s dg dr k st).gmax =
            -(Dyncomp_loop_fl m s dg dr (j + 1) st).r *
              m.logf (Fl.fin 20 * (Dyncomp_loop_fl m s dg dr (j + 1) st).zr2))) ∧
      (st.gmin ≠ Fl.nan →
        Fl.le (Dyncomp_loop_fl m s dg dr k st).gmin st.gmin ∧
        ((Dyncomp_loop_fl m s dg dr k st).gmin = st.gmin ∨
          ∃ j, j < k ∧ (Dyncomp_loop_fl m s dg dr k st).gmin =
            -(Dyncomp_loop_fl m s dg dr (j + 1) st).r *
              m.logf (Fl.fin 20 * (Dyncomp_loop_fl m s dg dr (j + 1) st).zr2))) := by
  intro k
  induction k with
  | zero =>
    exact ⟨fun j hj => absurd hj (Nat.not_lt_zero j),
      fun h => ⟨Fl.le_refl _ h, Or.inl rfl⟩, fun h => ⟨Fl.le_refl _ h, Or.inl rfl⟩⟩
  | succ k ih =>
    obtain ⟨hb, hmax, hmin⟩ := ih
    obtain ⟨e1, e2⟩ := sample_fl_extrema m s dg dr k (Dyncomp_loop_fl m s dg dr k st)
    have e1' : (Dyncomp_loop_fl m s dg dr (k + 1) st).gmax =
        Fl.fmaxf (Dyncomp_loop_fl m s dg dr k st).gmax
          (-(Dyncomp_loop_fl m s dg dr (k + 1) st).r *
            m.logf (Fl.fin 20 * (Dyncomp_loop_fl m s dg dr (k + 1) st).zr2)) := e1
    have e2' : (Dyncomp_loop_fl m s dg dr (k + 1) st).gmin =
        Fl.fminf (Dyncomp_loop_fl m s dg dr k st).gmin
          (-(Dyncomp_loop_fl m s dg dr (k + 1) st).r *
            m.logf (Fl.fin 20 * (Dyncomp_loop_fl m s dg dr (k + 1) st).zr2)) := e2
    obtain ⟨x1, x2, x3, _⟩ := Fl.fmaxf_spec (Dyncomp_loop_fl m s dg dr k st).gmax
      (-(Dyncomp_loop_fl m s dg dr (k + 1) st).r *
        m.logf (Fl.fin 20 * (Dyncomp_loop_fl m s dg dr (k + 1) st).zr2))
    obtain ⟨n1, n2, n3, _⟩ := Fl.fminf_spec (Dyncomp_loop_fl m s dg dr k st).gmin
      (-(Dyncomp_loop_fl m s dg dr (k + 1) st).r *
        m.logf (Fl.fin 20 * (Dyncomp_loop_fl m s dg dr (k + 1) st).zr2))
    rw [← e1'] at x1 x2 x3
    rw [← e2'] at n1 n2 n3
    refine ⟨?_, ?_, ?_⟩
    · intro j hj hnan
      rcases Nat.lt_succ_iff_lt_or_eq.mp hj with h | h
      · obtain ⟨a, b⟩ := hb j h hnan
        exact ⟨Fl.le_trans _ _ _ (n2 a.1) a, Fl.le_trans _ _ _ b (x2 b.2.1)⟩
      · subst h
        exact ⟨n3 hnan, x3 hnan⟩
    · intro h0
      obtain ⟨a, b⟩ := hmax h0
      refine ⟨Fl.le_trans _ _ _ a (x2 a.2.1), ?_⟩
      rcases x1 with h | h
      · rcases b with h1 | ⟨j, hj, h1⟩
        · left; rw [h, h1]
        · right; exact ⟨j, Nat.lt_succ_of_lt hj, by rw [h, h1]⟩
      · right; exact ⟨k, Nat.lt_succ_self k, h⟩
    · intro h0
      obtain ⟨a, b⟩ := hmin h0
      refine ⟨Fl.le_trans _ _ _ (n2 a.1) a, ?_⟩
      rcases n1 with h | h
      · rcases b with h1 | ⟨j, hj, h1⟩
        · left; rw [h, h1]
        · right; exact ⟨j, Nat.lt_succ_of_lt hj, by rw [h, h1]⟩
      · right; exact ⟨k, Nat.lt_succ_self k, h⟩

/-- C14 (as amended). With samples and states taken in `Fl` (finite values,
infinities and NaN): after `Dyncomp_process` on a block that ends with a finite
`za1`, the stored extrema bracket every gain exponent
`pg_j = -r_j * logf (20 * zr2_j)` of the block that is a number,
`gmin <= pg_j <= gmax`; an exponent that is NaN is ignored by `fmaxf` and
`fminf`. Hence `gmin <= gmax` when at least one exponent of the block is a
number. When the call continues a window (`newg` clear) whose stored `gmax` is
a number, `gmax` is at least the old `gmax` and equals it or one of the
exponents, and likewise `gmin` is at most the old `gmin` and equals it or one of
the exponents: within a window `gmax` never decreases and `gmin` never
increases. -/
theorem C14_extrema_bracket (m : Libm (Fl F)) (s : Dyncomp (Fl F)) (n : Nat)
    (io : Nat → Nat → Fl F) (hfin : Fl.isfinite (Dyncomp_at_fl m s io n).za1 = true) :
    (∀ j, j < n →
      -(Dyncomp_at_fl m s io (j + 1)).r *
          m.logf (Fl.fin 20 * (Dyncomp_at_fl m s io (j + 1)).zr2) ≠ Fl.nan →
      Fl.le (Dyncomp_process_fl m s n io).1.gmin
        (-(Dyncomp_at_fl m s io (j + 1)).r *
          m.logf (Fl.fin 20 * (Dyncomp_at_fl m s io (j + 1)).zr2)) ∧
      Fl.le (-(Dyncomp_at_fl m s io (j + 1)).r *
          m.logf (Fl.fin 20 * (Dyncomp_at_fl m s io (j + 1)).zr2))
        (Dyncomp_process_fl m s n io).1.gmax) ∧
    ((∃ j, j < n ∧ -(Dyncomp_at_fl m s io (j + 1)).r *
          m.logf (Fl.fin 20 * (Dyncomp_at_fl m s io (j + 1)).zr2) ≠ Fl.nan) →
      Fl.le (Dyncomp_process_fl m s n io).1.gmin (Dyncomp_process_fl m s n io).1.gmax) ∧
    (s.newg = false →
      (s.gmax ≠ Fl.nan →
        Fl.le s.gmax (Dyncomp_process_fl m s n io).1.gmax ∧
        ((Dyncomp_process_fl m s n io).1.gmax = s.gmax ∨
          ∃ j, j < n ∧ (Dyncomp_process_fl m s n io).1.gmax =
            -(Dyncomp_at_fl m s io (j + 1)).r *
              m.logf (Fl.fin 20 * (Dyncomp_at_fl m s io (j + 1)).zr2))) ∧
      (s.gmin ≠ Fl.nan →
        Fl.le (Dyncomp_process_fl m s n io).1.gmin s.gmin ∧
        ((Dyncomp_process_fl m s n io).1.gmin = s.gmin ∨
          ∃ j, j < n ∧ (Dyncomp_process_fl m s n io).1.gmin =
            -(Dyncomp_at_fl m s io (j + 1)).r *
              m.logf (Fl.fin 20 * (Dyncomp_at_fl m s io (j + 1)).zr2)))) := by
  obtain ⟨_, _, _, p4, p5⟩ := process_fl_finite m s n io hfin
  obtain ⟨hb, hmax, hmin⟩ :=
    loop_fl_extrema m s (Dyncomp_dg_fl s) (Dyncomp_dr_fl s) (Dyncomp_locals_fl s io) n
  rw [p4, p5]
  refine ⟨hb, ?_, ?_⟩
  · rintro ⟨j, hj, hnan⟩
    obtain ⟨a, b⟩ := hb j hj hnan
    exact Fl.le_trans _ _ _ a b
  · intro hnew
    have g1 : (Dyncomp_locals_fl s io).gmax = s.gmax := by simp [Dyncomp_locals_fl, hnew]
    have g2 : (Dyncomp_locals_fl s io).gmin = s.gmin := by simp [Dyncomp_locals_fl, hnew]
    rw [g1] at hmax
    rw [g2] at hmin
    exact ⟨hmax, hmin⟩

/-- One silent sample on the scenario engine with the threshold at -10 dB
(`p_thr = 0.05`), `za1` settled at `p_thr` and the release states at 0, over
`Fl`: `za1` stays, `zr2` becomes `0.05` and the smoothed ratio is `0.5`. -/
theorem scenario_fl_step :
    (Dyncomp_at_fl
      (Libm_fl (Libm.mk Real.log Real.exp (fun x => (10 : ℝ) ^ x) (Real.logb 10)
        (fun _ => true) fl32))
      (Dyncomp_fl { (Dyncomp_scenario : Dyncomp ℝ) with
        p_thr := 1 / 20, l_thr := -10, za1 := 1 / 20, zr1 := 0, zr2 := 0 })
      (fun _ _ => Fl.fin 0) 1).za1 = Fl.fin (1 / 20) ∧
    (Dyncomp_at_fl
      (Libm_fl (Libm.mk Real.log Real.exp (fun x => (10 : ℝ) ^ x) (Real.logb 10)
        (fun _ => true) fl32))
      (Dyncomp_fl { (Dyncomp_scenario : Dyncomp ℝ) with
        p_thr := 1 / 20, l_thr := -10, za1 := 1 / 20, zr1 := 0, zr2 := 0 })
      (fun _ _ => Fl.fin 0) 1).zr2 = Fl.fin (1 / 20) ∧
    (Dyncomp_at_fl
      (Libm_fl (Libm.mk Real.log Real.exp (fun x => (10 : ℝ) ^ x) (Real.logb 10)
        (fun _ => true) fl32))
      (Dyncomp_fl { (Dyncomp_scenario : Dyncomp ℝ) with
        p_thr := 1 / 20, l_thr := -10, za1 := 1 / 20, zr1 := 0, zr2 := 0 })
      (fun _ _ => Fl.fin 0) 1).r = Fl.fin (1 / 2) := by
  refine ⟨?_, ?_, ?_⟩ <;>
  · simp only [Dyncomp_at_fl, Dyncomp_loop_fl, Dyncomp_sample_fl, Dyncomp_locals_fl,
      Dyncomp_dg_fl, Dyncomp_dr_fl, Dyncomp_key_fl, Dyncomp_fl, Dyncomp_holding_fl,
      Dyncomp_scenario, Fl.fin_sub_fin, Fl.fin_add_fin, Fl.fin_mul_fin]
    norm_num [Fl.of, Fl.fabsf, Fl.fin_lt_fin, Fl.fin_add_fin, Fl.fin_mul_fin, Fl.fin_sub_fin,
      abs_of_nonneg]

/-- C14 witness: the scenario engine with the threshold at -10 dB, `za1`
settled and the release states at 0, one sample of silence over `Fl`. The
exponent of the sample is `-0.5 * ln (20 * 0.05) = 0`, a number, and the stored
extrema of the fresh window bracket it. -/
theorem C14_extrema_bracket_witness :
    Fl.isfinite (Dyncomp_at_fl
      (Libm_fl (Libm.mk Real.log Real.exp (fun x => (10 : ℝ) ^ x) (Real.logb 10)
        (fun _ => true) fl32))
      (Dyncomp_fl { (Dyncomp_scenario : Dyncomp ℝ) with
        p_thr := 1 / 20, l_thr := -10, za1 := 1 / 20, zr1 := 0, zr2 := 0 })
      (fun _ _ => Fl.fin 0) 1).za1 = true ∧
    -(Dyncomp_at_fl
      (Libm_fl (Libm.mk Real.log Real.exp (fun x => (10 : ℝ) ^ x) (Real.logb 10)
        (fun _ => true) fl32))
      (Dyncomp_fl { (Dyncomp_scenario : Dyncomp ℝ) with
        p_thr := 1 / 20, l_thr := -10, za1 := 1 / 20, zr1 := 0, zr2 := 0 })
      (fun _ _ => Fl.fin 0) (0 + 1)).r *
      (Libm_fl (Libm.mk Real.log Real.exp (fun x => (10 : ℝ) ^ x) (Real.logb 10)
        (fun _ => true) fl32)).logf (Fl.fin 20 * (Dyncomp_at_fl
          (Libm_fl (Libm.mk Real.log Real.exp (fun x => (10 : ℝ) ^ x) (Real.logb 10)
            (fun _ => true) fl32))
          (Dyncomp_fl { (Dyncomp_scenario : Dyncomp ℝ) with
            p_thr := 1 / 20, l_thr := -10, za1 := 1 / 20, zr1 := 0, zr2 := 0 })
          (fun _ _ => Fl.fin 0) (0 + 1)).zr2) = Fl.fin 0 ∧
    Fl.le (Dyncomp_process_fl
      (Libm_fl (Libm.mk Real.log Real.exp (fun x => (10 : ℝ) ^ x) (Real.logb 10)
        (fun _ => true) fl32))
      (Dyncomp_fl { (Dyncomp_scenario : Dyncomp ℝ) with
        p_thr := 1 / 20, l_thr := -10, za1 := 1 / 20, zr1 := 0, zr2 := 0 })
      1 (fun _ _ => Fl.fin 0)).1.gmin (Fl.fin 0) ∧
    Fl.le (Fl.fin 0) (Dyncomp_process_fl
      (Libm_fl (Libm.mk Real.log Real.exp (fun x => (10 : ℝ) ^ x) (Real.logb 10)
        (fun _ => true) fl32))
      (Dyncomp_fl { (Dyncomp_scenario : Dyncomp ℝ) with
        p_thr := 1 / 20, l_thr := -10, za1 := 1 / 20, zr1 := 0, zr2 := 0 })
      1 (fun _ _ => Fl.fin 0)).1.gmax := by
  obtain ⟨hza, hzr, hr⟩ := scenario_fl_step
  have hfin : Fl.isfinite (Dyncomp_at_fl
      (Libm_fl (Libm.mk Real.log Real.exp (fun x => (10 : ℝ) ^ x) (Real.logb 10)
        (fun _ => true) fl32))
      (Dyncomp_fl { (Dyncomp_scenario : Dyncomp ℝ) with
        p_thr := 1 / 20, l_thr := -10, za1 := 1 / 20, zr1 := 0, zr2 := 0 })
      (fun _ _ => Fl.fin 0) 1).za1 = true := by
    rw [hza]; rfl
  have hpg : -(Dyncomp_at_fl
      (Libm_fl (Libm.mk Real.log Real.exp (fun x => (10 : ℝ) ^ x) (Real.logb 10)
        (fun _ => true) fl32))
      (Dyncomp_fl { (Dyncomp_scenario : Dyncomp ℝ) with
        p_thr := 1 / 20, l_thr := -10, za1 := 1 / 20, zr1 := 0, zr2 := 0 })
      (fun _ _ => Fl.fin 0) (0 + 1)).r *
      (Libm_fl (Libm.mk Real.log Real.exp (fun x => (10 : ℝ) ^ x) (Real.logb 10)
        (fun _ => true) fl32)).logf (Fl.fin 20 * (Dyncomp_at_fl
          (Libm_fl (Libm.mk Real.log Real.exp (fun x => (10 : ℝ) ^ x) (Real.logb 10)
            (fun _ => true) fl32))
          (Dyncomp_fl { (Dyncomp_scenario : Dyncomp ℝ) with
            p_thr := 1 / 20, l_thr := -10, za1 := 1 / 20, zr1 := 0, zr2 := 0 })
          (fun _ _ => Fl.fin 0) (0 + 1)).zr2) = Fl.fin 0 := by
    rw [hr, hzr]
    simp only [Libm_fl, Fl.fin_mul_fin, Fl.neg_fin]
    norm_num [Fl.of, Fl.fin_mul_fin, abs_of_nonneg]
  have h := (C14_extrema_bracket
    (Libm_fl (Libm.mk Real.log Real.exp (fun x => (10 : ℝ) ^ x) (Real.logb 10)
      (fun _ => true) fl32))
    (Dyncomp_fl { (Dyncomp_scenario : Dyncomp ℝ) with
      p_thr := 1 / 20, l_thr := -10, za1 := 1 / 20, zr1 := 0, zr2 := 0 })
    1 (fun _ _ => Fl.fin 0) hfin).1 0 (Nat.lt_succ_self 0)
    (by rw [hpg]; exact fun hc => Fl.noConfusion hc)
  rw [hpg] at h
  exact ⟨hfin, hpg, h.1, h.2⟩

/-- The mono engine at 48 kHz after `Dyncomp_init` and
`Dyncomp_set_threshold (-1000)`, with `exp10f` returning the `float` nearest to
`10^x`: the threshold power is 0. -/
theorem underflow_engine :
    Dyncomp_run
      (Libm.mk Real.log Real.exp (fun x => fl32 ((10 : ℝ) ^ x)) (Real.logb 10) (fun _ => true)
        fl32)
      Dyncomp_calloc 48000 1 [Op.set_threshold (-1000)] =
      { sample_rate := 48000, n_channels := 1, norm_input := 1,
        ratio := 0, p_rat := 0, hold := false, igain := 1, p_ign := 1, l_ign := 0,
        p_thr := 0, l_thr := -1000, w_att := 1 / 2 / (48000 * (1 / 100)),
        w_rel := 7 / 2 / (48000 * (3 / 100)),
        t_att := 1 / 100, t_rel := 3 / 100, za1 := 0, zr1 := 0, zr2 := 0,
        newg := true, gmax := 0, gmin := 0, rms := 0,
        w_rms := 5 / 48000, w_lpf := 160 / 48000 } := by
  simp only [Dyncomp_run, List.foldl_cons, List.foldl_nil, Dyncomp_call, init_fields,
    Dyncomp_set_threshold]
  rw [if_neg (by norm_num)]
  simp only [exp10f_underflow]
  norm_num

/-- C14 counterexample: the mono engine at 48 kHz after `Dyncomp_init` and
`Dyncomp_set_threshold (-1000)`, which stores `p_thr = 0` (`exp10f (-100)`
is 0 as a `float`), with the ratio 0 of `Dyncomp_init`, and a block of two
samples of silence. `za1` and `zr2` stay 0, so the exponent of both samples is
`-0 * logf (0) = -0 * -inf`, which is NaN; `fmaxf` and `fminf` ignore it and
the extrema keep the start values of the fresh window. `za1` ends the block
finite, and the stored extrema are `gmin = 100` and `gmax = -100`:
`gmin <= gmax` fails. -/
theorem C14_extrema_crossed :
    Fl.isfinite (Dyncomp_at_fl
      (Libm_fl (Libm.mk Real.log Real.exp (fun x => fl32 ((10 : ℝ) ^ x)) (Real.logb 10)
        (fun _ => true) fl32))
      (Dyncomp_fl (Dyncomp_run
        (Libm.mk Real.log Real.exp (fun x => fl32 ((10 : ℝ) ^ x)) (Real.logb 10)
          (fun _ => true) fl32)
        Dyncomp_calloc 48000 1 [Op.set_threshold (-1000)]))
      (fun _ _ => Fl.fin 0) 2).za1 = true ∧
    (Dyncomp_process_fl
      (Libm_fl (Libm.mk Real.log Real.exp (fun x => fl32 ((10 : ℝ) ^ x)) (Real.logb 10)
        (fun _ => true) fl32))
      (Dyncomp_fl (Dyncomp_run
        (Libm.mk Real.log Real.exp (fun x => fl32 ((10 : ℝ) ^ x)) (Real.logb 10)
          (fun _ => true) fl32)
        Dyncomp_calloc 48000 1 [Op.set_threshold (-1000)]))
      2 (fun _ _ => Fl.fin 0)).1.gmin = Fl.fin 100 ∧
    (Dyncomp_process_fl
      (Libm_fl (Libm.mk Real.log Real.exp (fun x => fl32 ((10 : ℝ) ^ x)) (Real.logb 10)
        (fun _ => true) fl32))
      (Dyncomp_fl (Dyncomp_run
        (Libm.mk Real.log Real.exp (fun x => fl32 ((10 : ℝ) ^ x)) (Real.logb 10)
          (fun _ => true) fl32)
        Dyncomp_calloc 48000 1 [Op.set_threshold (-1000)]))
      2 (fun _ _ => Fl.fin 0)).1.gmax = Fl.fin (-100) ∧
    (Fl.fin (-100) : Fl ℝ) < Fl.fin 100 := by
  rw [underflow_engine]
  have hza : (Dyncomp_at_fl
      (Libm_fl (Libm.mk Real.log Real.exp (fun x => fl32 ((10 : ℝ) ^ x)) (Real.logb 10)
        (fun _ => true) fl32))
      (Dyncomp_fl
        { sample_rate := 48000, n_channels := 1, norm_input := 1,
          ratio := 0, p_rat := 0, hold := false, igain := 1, p_ign := 1, l_ign := 0,
          p_thr := 0, l_thr := -1000, w_att := 1 / 2 / (48000 * (1 / 100)),
          w_rel := 7 / 2 / (48000 * (3 / 100)),
          t_att := 1 / 100, t_rel := 3 / 100, za1 := 0, zr1 := 0, zr2 := 0,
          newg := true, gmax := 0, gmin := 0, rms := 0,
          w_rms := 5 / 48000, w_lpf := 160 / 48000 })
      (fun _ _ => Fl.fin 0) 2).za1 = Fl.fin 0 := by
    simp only [Dyncomp_at_fl, Dyncomp_loop_fl, Dyncomp_sample_fl, Dyncomp_locals_fl,
      Dyncomp_dg_fl, Dyncomp_dr_fl, Dyncomp_key_fl, Dyncomp_fl, Dyncomp_holding_fl,
      Fl.fin_sub_fin, Fl.fin_add_fin, Fl.fin_mul_fin]
    norm_num [Fl.of, Fl.fabsf, Fl.fin_lt_fin, Fl.fin_add_fin, Fl.fin_mul_fin, Fl.fin_sub_fin,
      abs_of_nonneg]
  have hmin : (Dyncomp_at_fl
      (Libm_fl (Libm.mk Real.log Real.exp (fun x => fl32 ((10 : ℝ) ^ x)) (Real.logb 10)
        (fun _ => true) fl32))
      (Dyncomp_fl
        { sample_rate := 48000, n_channels := 1, norm_input := 1,
          ratio := 0, p_rat := 0, hold := false, igain := 1, p_ign := 1, l_ign := 0,
          p_thr := 0, l_thr := -1000, w_att := 1 / 2 / (48000 * (1 / 100)),
          w_rel := 7 / 2 / (48000 * (3 / 100)),
          t_att := 1 / 100, t_rel := 3 / 100, za1 := 0, zr1 := 0, zr2 := 0,
          newg := true, gmax := 0, gmin := 0, rms := 0,
          w_rms := 5 / 48000, w_lpf := 160 / 48000 })
      (fun _ _ => Fl.fin 0) 2).gmin = Fl.fin 100 := by
    simp only [Dyncomp_at_fl, Dyncomp_loop_fl, Dyncomp_sample_fl, Dyncomp_locals_fl,
      Dyncomp_dg_fl, Dyncomp_dr_fl, Dyncomp_key_fl, Dyncomp_fl, Dyncomp_holding_fl, Libm_fl,
      Fl.fin_sub_fin, Fl.fin_add_fin, Fl.fin_mul_fin]
    norm_num [Fl.of, Fl.fabsf, Fl.fin_lt_fin, Fl.fin_add_fin, Fl.fin_mul_fin, Fl.fin_sub_fin,
      Fl.fin_mul_ninf, Fl.neg_fin, Fl.fminf, abs_of_nonneg]
  have hmax : (Dyncomp_at_fl
      (Libm_fl (Libm.mk Real.log Real.exp (fun x => fl32 ((10 : ℝ) ^ x)) (Real.logb 10)
        (fun _ => true) fl32))
      (Dyncomp_fl
        { sample_rate := 48000, n_channels := 1, norm_input := 1,
          ratio := 0, p_rat := 0, hold := false, igain := 1, p_ign := 1, l_ign := 0,
          p_thr := 0, l_thr := -1000, w_att := 1 / 2 / (48000 * (1 / 100)),
          w_rel := 7 / 2 / (48000 * (3 / 100)),
          t_att := 1 / 100, t_rel := 3 / 100, za1 := 0, zr1 := 0, zr2 := 0,
          newg := true, gmax := 0, gmin := 0, rms := 0,
          w_rms := 5 / 48000, w_lpf := 160 / 48000 })
      (fun _ _ => Fl.fin 0) 2).gmax = Fl.fin (-100) := by
    simp only [Dyncomp_at_fl, Dyncomp_loop_fl, Dyncomp_sample_fl, Dyncomp_locals_fl,
      Dyncomp_dg_fl, Dyncomp_dr_fl, Dyncomp_key_fl, Dyncomp_fl, Dyncomp_holding_fl, Libm_fl,
      Fl.fin_sub_fin, Fl.fin_add_fin, Fl.fin_mul_fin]
    norm_num [Fl.of, Fl.fabsf, Fl.fin_lt_fin, Fl.fin_add_fin, Fl.fin_mul_fin, Fl.fin_sub_fin,
      Fl.fin_mul_ninf, Fl.neg_fin, Fl.fmaxf, abs_of_nonneg]
  have hfin : Fl.isfinite (Dyncomp_at_fl
      (Libm_fl (Libm.mk Real.log Real.exp (fun x => fl32 ((10 : ℝ) ^ x)) (Real.logb 10)
        (fun _ => true) fl32))
      (Dyncomp_fl
        { sample_rate := 48000, n_channels := 1, norm_input := 1,
          ratio := 0, p_rat := 0, hold := false, igain := 1, p_ign := 1, l_ign := 0,
          p_thr := 0, l_thr := -1000, w_att := 1 / 2 / (48000 * (1 / 100)),
          w_rel := 7 / 2 / (48000 * (3 / 100)),
          t_att := 1 / 100, t_rel := 3 / 100, za1 := 0, zr1 := 0, zr2 := 0,
          newg := true, gmax := 0, gmin := 0, rms := 0,
          w_rms := 5 / 48000, w_lpf := 160 / 48000 })
      (fun _ _ => Fl.fin 0) 2).za1 = true := by
    rw [hza]; rfl
  obtain ⟨_, _, _, p4, p5⟩ := process_fl_finite _ _ 2 _ hfin
  refine ⟨hfin, by rw [p5, hmin], by rw [p4, hmax], ?_⟩
  rw [Fl.fin_lt_fin]
  norm_num

/-! ## The unity point of the gain curve (C21) -/

/-- The extrema update of sample `k` of a block. -/
theorem at_succ_extrema (m : Libm F) (s : Dyncomp F) (io : Nat → Nat → F) (k : Nat) :
    (Dyncomp_at m s io (k + 1)).gmax =
      max (Dyncomp_at m s io k).gmax
        (-(Dyncomp_at m s io (k + 1)).r * m.logf (20 * (Dyncomp_at m s io (k + 1)).zr2)) ∧
    (Dyncomp_at m s io (k + 1)).gmin =
      min (Dyncomp_at m s io k).gmin
        (-(Dyncomp_at m s io (k + 1)).r * m.logf (20 * (Dyncomp_at m s io (k + 1)).zr2)) :=
  sample_extrema m s (Dyncomp_dg s) (Dyncomp_dr s) k (Dyncomp_at m s io k)

/-- C21 (as amended). The exponent `-r * logf (20 * zr2)` of a sample is 0 for
every ratio when the updated `zr2` is `0.05`, and the sample is then multiplied
by the smoothed input gain alone. When the updated `zr2` is `p_thr + 0.05` (a
steady key power of `0.05`, detector settled) the exponent is
`-r * ln (1 + 20 * p_thr)`: for `r >= 0` and `p_thr >= 0` it lies between
`-20 * r * p_thr` and 0, and it is 0 only when `r = 0` or `p_thr = 0`. `logf`
is the natural logarithm on positive numbers. -/
theorem C21_unity_point (m : Libm ℝ) (s : Dyncomp ℝ) (dg dr : ℝ) (j : Nat) (st : Loop ℝ)
    (hlog : ∀ x, 0 < x → m.logf x = Real.log x) (hexp : ∀ x, m.expf x = Real.exp x) :
    ((Dyncomp_sample m s dg dr j st).zr2 = 1 / 20 →
      -(Dyncomp_sample m s dg dr j st).r *
          m.logf (20 * (Dyncomp_sample m s dg dr j st).zr2) = 0 ∧
      (Dyncomp_sample m s dg dr j st).gmax = max st.gmax 0 ∧
      (Dyncomp_sample m s dg dr j st).gmin = min st.gmin 0 ∧
      ∀ i, i < s.n_channels →
        (Dyncomp_sample m s dg dr j st).io i j =
          st.io i j * (Dyncomp_sample m s dg dr j st).g) ∧
    ((Dyncomp_sample m s dg dr j st).zr2 = s.p_thr + 1 / 20 → 0 ≤ s.p_thr →
      0 ≤ (Dyncomp_sample m s dg dr j st).r →
      -(Dyncomp_sample m s dg dr j st).r *
          m.logf (20 * (Dyncomp_sample m s dg dr j st).zr2) =
        -(Dyncomp_sample m s dg dr j st).r * Real.log (1 + 20 * s.p_thr) ∧
      -(20 * (Dyncomp_sample m s dg dr j st).r * s.p_thr) ≤
        -(Dyncomp_sample m s dg dr j st).r *
          m.logf (20 * (Dyncomp_sample m s dg dr j st).zr2) ∧
      -(Dyncomp_sample m s dg dr j st).r *
          m.logf (20 * (Dyncomp_sample m s dg dr j st).zr2) ≤ 0 ∧
      (-(Dyncomp_sample m s dg dr j st).r *
          m.logf (20 * (Dyncomp_sample m s dg dr j st).zr2) = 0 ↔
        (Dyncomp_sample m s dg dr j st).r = 0 ∨ s.p_thr = 0)) := by
  obtain ⟨e1, e2⟩ := sample_extrema m s dg dr j st
  have e3 := fun i => sample_io m s dg dr j st i j
  generalize Dyncomp_sample m s dg dr j st = S at e1 e2 e3 ⊢
  constructor
  · intro hz
    have h0 : -S.r * m.logf (20 * S.zr2) = 0 := by
      rw [hlog _ (by rw [hz]; norm_num), hz]
      norm_num
    refine ⟨h0, ?_, ?_, ?_⟩
    · rw [e1, h0]
    · rw [e2, h0]
    · intro i hi
      rw [e3 i, if_pos ⟨rfl, hi⟩, h0, hexp, Real.exp_zero, mul_one]
  · intro hz hp hr
    have harg : 20 * S.zr2 = 1 + 20 * s.p_thr := by rw [hz]; ring
    have hL0 : 0 ≤ Real.log (1 + 20 * s.p_thr) := Real.log_nonneg (by linarith)
    have hL1 : Real.log (1 + 20 * s.p_thr) ≤ 20 * s.p_thr := by
      have := Real.log_le_sub_one_of_pos (show (0 : ℝ) < 1 + 20 * s.p_thr by linarith)
      linarith
    rw [hlog _ (by rw [harg]; linarith), harg]
    refine ⟨rfl, ?_, ?_, ?_⟩
    · nlinarith [mul_le_mul_of_nonneg_left hL1 hr]
    · nlinarith [mul_nonneg hr hL0]
    · rw [mul_eq_zero, neg_eq_zero]
      constructor
      · rintro (h | h)
        · exact Or.inl h
        · right
          rcases Real.log_eq_zero.mp h with h1 | h1 | h1 <;> linarith
      · rintro (h | h)
        · exact Or.inl h
        · right
          rw [h]
          norm_num

/-- The stereo engine at 48 kHz after `Dyncomp_init` (threshold -10 dB,
`p_thr = 0.05`) with the user ratio set to 1 and the attack time to `1/96000` s
(`w_att = 1`), on the sample `(0.3, 0.1)` of key power
`(0.09 + 0.01) / 2 = 0.05`: after the sample `za1 = zr2 = 0.1`, the smoothed
gain is 1 and the smoothed ratio is `1/600`; the extrema window starts at
`gmax = -100`. -/
theorem unity_scenario :
    (Dyncomp_run
      (Libm.mk Real.log Real.exp (fun x => (10 : ℝ) ^ x) (Real.logb 10) (fun _ => true) fl32)
      Dyncomp_calloc 48000 2 [Op.set_ratio 1, Op.set_attack (1 / 96000)]).p_thr = 1 / 20 ∧
    (Dyncomp_run
      (Libm.mk Real.log Real.exp (fun x => (10 : ℝ) ^ x) (Real.logb 10) (fun _ => true) fl32)
      Dyncomp_calloc 48000 2 [Op.set_ratio 1, Op.set_attack (1 / 96000)]).norm_input = 1 / 2 ∧
    (Dyncomp_at
      (Libm.mk Real.log Real.exp (fun x => (10 : ℝ) ^ x) (Real.logb 10) (fun _ => true) fl32)
      (Dyncomp_run
        (Libm.mk Real.log Real.exp (fun x => (10 : ℝ) ^ x) (Real.logb 10) (fun _ => true) fl32)
        Dyncomp_calloc 48000 2 [Op.set_ratio 1, Op.set_attack (1 / 96000)])
      (fun i _ => if i = 0 then 3 / 10 else 1 / 10) 1).g = 1 ∧
    (Dyncomp_at
      (Libm.mk Real.log Real.exp (fun x => (10 : ℝ) ^ x) (Real.logb 10) (fun _ => true) fl32)
      (Dyncomp_run
        (Libm.mk Real.log Real.exp (fun x => (10 : ℝ) ^ x) (Real.logb 10) (fun _ => true) fl32)
        Dyncomp_calloc 48000 2 [Op.set_ratio 1, Op.set_attack (1 / 96000)])
      (fun i _ => if i = 0 then 3 / 10 else 1 / 10) 1).za1 = 1 / 10 ∧
    (Dyncomp_at
      (Libm.mk Real.log Real.exp (fun x => (10 : ℝ) ^ x) (Real.logb 10) (fun _ => true) fl32)
      (Dyncomp_run
        (Libm.mk Real.log Real.exp (fun x => (10 : ℝ) ^ x) (Real.logb 10) (fun _ => true) fl32)
        Dyncomp_calloc 48000 2 [Op.set_ratio 1, Op.set_attack (1 / 96000)])
      (fun i _ => if i = 0 then 3 / 10 else 1 / 10) 1).zr2 = 1 / 10 ∧
    (Dyncomp_at
      (Libm.mk Real.log Real.exp (fun x => (10 : ℝ) ^ x) (Real.logb 10) (fun _ => true) fl32)
      (Dyncomp_run
        (Libm.mk Real.log Real.exp (fun x => (10 : ℝ) ^ x) (Real.logb 10) (fun _ => true) fl32)
        Dyncomp_calloc 48000 2 [Op.set_ratio 1, Op.set_attack (1 / 96000)])
      (fun i _ => if i = 0 then 3 / 10 else 1 / 10) 1).r = 1 / 600 ∧
    (Dyncomp_at
      (Libm.mk Real.log Real.exp (fun x => (10 : ℝ) ^ x) (Real.logb 10) (fun _ => true) fl32)
      (Dyncomp_run
        (Libm.mk Real.log Real.exp (fun x => (10 : ℝ) ^ x) (Real.logb 10) (fun _ => true) fl32)
        Dyncomp_calloc 48000 2 [Op.set_ratio 1, Op.set_attack (1 / 96000)])
      (fun i _ => if i = 0 then 3 / 10 else 1 / 10) 0).gmax = -100 := by
  have he : Dyncomp_run
      (Libm.mk Real.log Real.exp (fun x => (10 : ℝ) ^ x) (Real.logb 10) (fun _ => true) fl32)
      Dyncomp_calloc 48000 2 [Op.set_ratio 1, Op.set_attack (1 / 96000)] =
      { sample_rate := 48000, n_channels := 2, norm_input := 1 / 2,
        ratio := 0, p_rat := 1 / 2, hold := false, igain := 1, p_ign := 1, l_ign := 0,
        p_thr := 1 / 20, l_thr := -10,
        w_att := 1, w_rel := 7 / 2 / (48000 * (3 / 100)),
        t_att := 1 / 96000, t_rel := 3 / 100, za1 := 0, zr1 := 0, zr2 := 0,
        newg := true, gmax := 0, gmin := 0, rms := 0,
        w_rms := 5 / 48000, w_lpf := 160 / 48000 } := by
    simp only [Dyncomp_run, List.foldl_cons, List.foldl_nil, Dyncomp_call, init_fields,
      Dyncomp_set_ratio, Dyncomp_set_attack]
    norm_num
  rw [he]
  have hg : (Dyncomp_at
      (Libm.mk Real.log Real.exp (fun x => (10 : ℝ) ^ x) (Real.logb 10) (fun _ => true) fl32)
      { sample_rate := 48000, n_channels := 2, norm_input := 1 / 2,
        ratio := 0, p_rat := 1 / 2, hold := false, igain := 1, p_ign := 1, l_ign := 0,
        p_thr := 1 / 20, l_thr := -10,
        w_att := 1, w_rel := 7 / 2 / (48000 * (3 / 100)),
        t_att := 1 / 96000, t_rel := 3 / 100, za1 := 0, zr1 := 0, zr2 := 0,
        newg := true, gmax := 0, gmin := 0, rms := 0,
        w_rms := 5 / 48000, w_lpf := 160 / 48000 }
      (fun i _ => if i = 0 then 3 / 10 else 1 / 10) 1).g = 1 := by
    simp only [Dyncomp_at, Dyncomp_loop, sample_g, Dyncomp_dg, Dyncomp_locals]
    norm_num
  have hza : (Dyncomp_at
      (Libm.mk Real.log Real.exp (fun x => (10 : ℝ) ^ x) (Real.logb 10) (fun _ => true) fl32)
      { sample_rate := 48000, n_channels := 2, norm_input := 1 / 2,
        ratio := 0, p_rat := 1 / 2, hold := false, igain := 1, p_ign := 1, l_ign := 0,
        p_thr := 1 / 20, l_thr := -10,
        w_att := 1, w_rel := 7 / 2 / (48000 * (3 / 100)),
        t_att := 1 / 96000, t_rel := 3 / 100, za1 := 0, zr1 := 0, zr2 := 0,
        newg := true, gmax := 0, gmin := 0, rms := 0,
        w_rms := 5 / 48000, w_lpf := 160 / 48000 }
      (fun i _ => if i = 0 then 3 / 10 else 1 / 10) 1).za1 = 1 / 10 := by
    simp only [Dyncomp_at, Dyncomp_loop, Dyncomp_sample, Dyncomp_dg, Dyncomp_locals, Dyncomp_key]
    norm_num [Dyncomp_key]
  have hzr : (Dyncomp_at
      (Libm.mk Real.log Real.exp (fun x => (10 : ℝ) ^ x) (Real.logb 10) (fun _ => true) fl32)
      { sample_rate := 48000, n_channels := 2, norm_input := 1 / 2,
        ratio := 0, p_rat := 1 / 2, hold := false, igain := 1, p_ign := 1, l_ign := 0,
        p_thr := 1 / 20, l_thr := -10,
        w_att := 1, w_rel := 7 / 2 / (48000 * (3 / 100)),
        t_att := 1 / 96000, t_rel := 3 / 100, za1 := 0, zr1 := 0, zr2 := 0,
        newg := true, gmax := 0, gmin := 0, rms := 0,
        w_rms := 5 / 48000, w_lpf := 160 / 48000 }
      (fun i _ => if i = 0 then 3 / 10 else 1 / 10) 1).zr2 = 1 / 10 := by
    simp only [Dyncomp_at, Dyncomp_loop, Dyncomp_sample, Dyncomp_dg, Dyncomp_locals, Dyncomp_key,
      Dyncomp_holding]
    norm_num [Dyncomp_key]
  have hr : (Dyncomp_at
      (Libm.mk Real.log Real.exp (fun x => (10 : ℝ) ^ x) (Real.logb 10) (fun _ => true) fl32)
      { sample_rate := 48000, n_channels := 2, norm_input := 1 / 2,
        ratio := 0, p_rat := 1 / 2, hold := false, igain := 1, p_ign := 1, l_ign := 0,
        p_thr := 1 / 20, l_thr := -10,
        w_att := 1, w_rel := 7 / 2 / (48000 * (3 / 100)),
        t_att := 1 / 96000, t_rel := 3 / 100, za1 := 0, zr1 := 0, zr2 := 0,
        newg := true, gmax := 0, gmin := 0, rms := 0,
        w_rms := 5 / 48000, w_lpf := 160 / 48000 }
      (fun i _ => if i = 0 then 3 / 10 else 1 / 10) 1).r = 1 / 600 := by
    simp only [Dyncomp_at, Dyncomp_loop, sample_g, Dyncomp_dr, Dyncomp_locals]
    have habs : |(1 / 2 : ℝ)| = 1 / 2 := abs_of_pos (by norm_num)
    norm_num [habs]
  have hm : (Dyncomp_at
      (Libm.mk Real.log Real.exp (fun x => (10 : ℝ) ^ x) (Real.logb 10) (fun _ => true) fl32)
      { sample_rate := 48000, n_channels := 2, norm_input := 1 / 2,
        ratio := 0, p_rat := 1 / 2, hold := false, igain := 1, p_ign := 1, l_ign := 0,
        p_thr := 1 / 20, l_thr := -10,
        w_att := 1, w_rel := 7 / 2 / (48000 * (3 / 100)),
        t_att := 1 / 96000, t_rel := 3 / 100, za1 := 0, zr1 := 0, zr2 := 0,
        newg := true, gmax := 0, gmin := 0, rms := 0,
        w_rms := 5 / 48000, w_lpf := 160 / 48000 }
      (fun i _ => if i = 0 then 3 / 10 else 1 / 10) 0).gmax = -100 := by
    simp only [Dyncomp_at, Dyncomp_loop, Dyncomp_locals]
    norm_num
  exact ⟨rfl, rfl, hg, hza, hzr, hr, hm⟩

/-- C21 witness: the stereo engine at 48 kHz after `Dyncomp_init` (`p_thr = 0.05`)
with the user ratio 1 and `w_att = 1`, on the sample `(0.3, 0.1)` of key power
`0.05`. The updated `zr2` is `p_thr + 0.05 = 0.1` and the smoothed ratio is
`1/600`, not 0; the exponent is `-r * ln (1 + 20 * p_thr)` and lies between
`-20 * r * p_thr` and 0. -/
theorem C21_unity_point_witness :
    (Dyncomp_at
      (Libm.mk Real.log Real.exp (fun x => (10 : ℝ) ^ x) (Real.logb 10) (fun _ => true) fl32)
      (Dyncomp_run
        (Libm.mk Real.log Real.exp (fun x => (10 : ℝ) ^ x) (Real.logb 10) (fun _ => true) fl32)
        Dyncomp_calloc 48000 2 [Op.set_ratio 1, Op.set_attack (1 / 96000)])
      (fun i _ => if i = 0 then 3 / 10 else 1 / 10) 1).zr2 =
      (Dyncomp_run
        (Libm.mk Real.log Real.exp (fun x => (10 : ℝ) ^ x) (Real.logb 10) (fun _ => true) fl32)
        Dyncomp_calloc 48000 2 [Op.set_ratio 1, Op.set_attack (1 / 96000)]).p_thr + 1 / 20 ∧
    (0 : ℝ) ≤ (Dyncomp_run
        (Libm.mk Real.log Real.exp (fun x => (10 : ℝ) ^ x) (Real.logb 10) (fun _ => true) fl32)
        Dyncomp_calloc 48000 2 [Op.set_ratio 1, Op.set_attack (1 / 96000)]).p_thr ∧
    (0 : ℝ) < (Dyncomp_at
      (Libm.mk Real.log Real.exp (fun x => (10 : ℝ) ^ x) (Real.logb 10) (fun _ => true) fl32)
      (Dyncomp_run
        (Libm.mk Real.log Real.exp (fun x => (10 : ℝ) ^ x) (Real.logb 10) (fun _ => true) fl32)
        Dyncomp_calloc 48000 2 [Op.set_ratio 1, Op.set_attack (1 / 96000)])
      (fun i _ => if i = 0 then 3 / 10 else 1 / 10) 1).r ∧
    -(Dyncomp_at
      (Libm.mk Real.log Real.exp (fun x => (10 : ℝ) ^ x) (Real.logb 10) (fun _ => true) fl32)
      (Dyncomp_run
        (Libm.mk Real.log Real.exp (fun x => (10 : ℝ) ^ x) (Real.logb 10) (fun _ => true) fl32)
        Dyncomp_calloc 48000 2 [Op.set_ratio 1, Op.set_attack (1 / 96000)])
      (fun i _ => if i = 0 then 3 / 10 else 1 / 10) 1).r *
        Real.log (20 * (Dyncomp_at
        (Libm.mk Real.log Real.exp (fun x => (10 : ℝ) ^ x) (Real.logb 10) (fun _ => true) fl32)
        (Dyncomp_run
          (Libm.mk Real.log Real.exp (fun x => (10 : ℝ) ^ x) (Real.logb 10) (fun _ => true) fl32)
          Dyncomp_calloc 48000 2 [Op.set_ratio 1, Op.set_attack (1 / 96000)])
        (fun i _ => if i = 0 then 3 / 10 else 1 / 10) 1).zr2) =
      -(Dyncomp_at
        (Libm.mk Real.log Real.exp (fun x => (10 : ℝ) ^ x) (Real.logb 10) (fun _ => true) fl32)
        (Dyncomp_run
          (Libm.mk Real.log Real.exp (fun x => (10 : ℝ) ^ x) (Real.logb 10) (fun _ => true) fl32)
          Dyncomp_calloc 48000 2 [Op.set_ratio 1, Op.set_attack (1 / 96000)])
        (fun i _ => if i = 0 then 3 / 10 else 1 / 10) 1).r *
        Real.log (1 + 20 * (Dyncomp_run
          (Libm.mk Real.log Real.exp (fun x => (10 : ℝ) ^ x) (Real.logb 10) (fun _ => true) fl32)
          Dyncomp_calloc 48000 2 [Op.set_ratio 1, Op.set_attack (1 / 96000)]).p_thr) ∧
    -(20 * (Dyncomp_at
      (Libm.mk Real.log Real.exp (fun x => (10 : ℝ) ^ x) (Real.logb 10) (fun _ => true) fl32)
      (Dyncomp_run
        (Libm.mk Real.log Real.exp (fun x => (10 : ℝ) ^ x) (Real.logb 10) (fun _ => true) fl32)
        Dyncomp_calloc 48000 2 [Op.set_ratio 1, Op.set_attack (1 / 96000)])
      (fun i _ => if i = 0 then 3 / 10 else 1 / 10) 1).r *
        (Dyncomp_run
        (Libm.mk Real.log Real.exp (fun x => (10 : ℝ) ^ x) (Real.logb 10) (fun _ => true) fl32)
        Dyncomp_calloc 48000 2 [Op.set_ratio 1, Op.set_attack (1 / 96000)]).p_thr) ≤
      -(Dyncomp_at
        (Libm.mk Real.log Real.exp (fun x => (10 : ℝ) ^ x) (Real.logb 10) (fun _ => true) fl32)
        (Dyncomp_run
          (Libm.mk Real.log Real.exp (fun x => (10 : ℝ) ^ x) (Real.logb 10) (fun _ => true) fl32)
          Dyncomp_calloc 48000 2 [Op.set_ratio 1, Op.set_attack (1 / 96000)])
        (fun i _ => if i = 0 then 3 / 10 else 1 / 10) 1).r *
        Real.log (20 * (Dyncomp_at
          (Libm.mk Real.log Real.exp (fun x => (10 : ℝ) ^ x) (Real.logb 10) (fun _ => true) fl32)
          (Dyncomp_run
            (Libm.mk Real.log Real.exp (fun x => (10 : ℝ) ^ x) (Real.logb 10) (fun _ => true) fl32)
            Dyncomp_calloc 48000 2 [Op.set_ratio 1, Op.set_attack (1 / 96000)])
          (fun i _ => if i = 0 then 3 / 10 else 1 / 10) 1).zr2) := by
  obtain ⟨h1, _, _, _, h5, h6, _⟩ := unity_scenario
  have hz : (Dyncomp_at
      (Libm.mk Real.log Real.exp (fun x => (10 : ℝ) ^ x) (Real.logb 10) (fun _ => true) fl32)
      (Dyncomp_run
        (Libm.mk Real.log Real.exp (fun x => (10 : ℝ) ^ x) (Real.logb 10) (fun _ => true) fl32)
        Dyncomp_calloc 48000 2 [Op.set_ratio 1, Op.set_attack (1 / 96000)])
      (fun i _ => if i = 0 then 3 / 10 else 1 / 10) 1).zr2 =
      (Dyncomp_run
        (Libm.mk Real.log Real.exp (fun x => (10 : ℝ) ^ x) (Real.logb 10) (fun _ => true) fl32)
        Dyncomp_calloc 48000 2 [Op.set_ratio 1, Op.set_attack (1 / 96000)]).p_thr + 1 / 20 := by
    rw [h5, h1]; norm_num
  have hp : (0 : ℝ) ≤ (Dyncomp_run
        (Libm.mk Real.log Real.exp (fun x => (10 : ℝ) ^ x) (Real.logb 10) (fun _ => true) fl32)
        Dyncomp_calloc 48000 2 [Op.set_ratio 1, Op.set_attack (1 / 96000)]).p_thr := by
    rw [h1]; norm_num
  have hr : (0 : ℝ) < (Dyncomp_at
      (Libm.mk Real.log Real.exp (fun x => (10 : ℝ) ^ x) (Real.logb 10) (fun _ => true) fl32)
      (Dyncomp_run
        (Libm.mk Real.log Real.exp (fun x => (10 : ℝ) ^ x) (Real.logb 10) (fun _ => true) fl32)
        Dyncomp_calloc 48000 2 [Op.set_ratio 1, Op.set_attack (1 / 96000)])
      (fun i _ => if i = 0 then 3 / 10 else 1 / 10) 1).r := by
    rw [h6]; norm_num
  have h := (C21_unity_point
    (Libm.mk Real.log Real.exp (fun x => (10 : ℝ) ^ x) (Real.logb 10) (fun _ => true) fl32)
    (Dyncomp_run
      (Libm.mk Real.log Real.exp (fun x => (10 : ℝ) ^ x) (Real.logb 10) (fun _ => true) fl32)
      Dyncomp_calloc 48000 2 [Op.set_ratio 1, Op.set_attack (1 / 96000)])
    (Dyncomp_dg (Dyncomp_run
        (Libm.mk Real.log Real.exp (fun x => (10 : ℝ) ^ x) (Real.logb 10) (fun _ => true) fl32)
        Dyncomp_calloc 48000 2 [Op.set_ratio 1, Op.set_attack (1 / 96000)]))
    (Dyncomp_dr (Dyncomp_run
        (Libm.mk Real.log Real.exp (fun x => (10 : ℝ) ^ x) (Real.logb 10) (fun _ => true) fl32)
        Dyncomp_calloc 48000 2 [Op.set_ratio 1, Op.set_attack (1 / 96000)]))
    0
    (Dyncomp_locals (Dyncomp_run
        (Libm.mk Real.log Real.exp (fun x => (10 : ℝ) ^ x) (Real.logb 10) (fun _ => true) fl32)
        Dyncomp_calloc 48000 2 [Op.set_ratio 1, Op.set_attack (1 / 96000)])
      (fun i _ => if i = 0 then 3 / 10 else 1 / 10))
    (fun _ _ => rfl) (fun _ => rfl)).2 hz hp (le_of_lt hr)
  exact ⟨hz, hp, hr, h.1, h.2.1⟩

/-- C21 counterexample: 48 kHz stereo from `Dyncomp_init` (threshold -10 dB,
`p_thr = 0.05`), user ratio set to 1, attack time set to `1/96000` s
(`w_att = 1`), then one sample `(0.3, 0.1)`, whose key power is
`(0.09 + 0.01) / 2 = 0.05`. After the sample `za1 = zr2 = p_thr + 0.05`, the
smoothed ratio is `1/600`, and the exponent `-r * ln (20 * zr2) = -ln 2 / 600`
is negative; the stored `gmax` is that exponent. -/
theorem C21_gain_below_unity :
    Dyncomp_key
        (Dyncomp_at
          (Libm.mk Real.log Real.exp (fun x => (10 : ℝ) ^ x) (Real.logb 10) (fun _ => true) fl32)
          (Dyncomp_run
            (Libm.mk Real.log Real.exp (fun x => (10 : ℝ) ^ x) (Real.logb 10) (fun _ => true) fl32)
            Dyncomp_calloc 48000 2 [Op.set_ratio 1, Op.set_attack (1 / 96000)])
          (fun i _ => if i = 0 then 3 / 10 else 1 / 10) 1).g
        (fun i _ => if i = 0 then 3 / 10 else 1 / 10) 0 2 *
      (Dyncomp_run
        (Libm.mk Real.log Real.exp (fun x => (10 : ℝ) ^ x) (Real.logb 10) (fun _ => true) fl32)
        Dyncomp_calloc 48000 2 [Op.set_ratio 1, Op.set_attack (1 / 96000)]).norm_input =
      1 / 20 ∧
    (Dyncomp_at
      (Libm.mk Real.log Real.exp (fun x => (10 : ℝ) ^ x) (Real.logb 10) (fun _ => true) fl32)
      (Dyncomp_run
        (Libm.mk Real.log Real.exp (fun x => (10 : ℝ) ^ x) (Real.logb 10) (fun _ => true) fl32)
        Dyncomp_calloc 48000 2 [Op.set_ratio 1, Op.set_attack (1 / 96000)])
      (fun i _ => if i = 0 then 3 / 10 else 1 / 10) 1).za1 =
      (Dyncomp_run
        (Libm.mk Real.log Real.exp (fun x => (10 : ℝ) ^ x) (Real.logb 10) (fun _ => true) fl32)
        Dyncomp_calloc 48000 2 [Op.set_ratio 1, Op.set_attack (1 / 96000)]).p_thr + 1 / 20 ∧
    (Dyncomp_at
      (Libm.mk Real.log Real.exp (fun x => (10 : ℝ) ^ x) (Real.logb 10) (fun _ => true) fl32)
      (Dyncomp_run
        (Libm.mk Real.log Real.exp (fun x => (10 : ℝ) ^ x) (Real.logb 10) (fun _ => true) fl32)
        Dyncomp_calloc 48000 2 [Op.set_ratio 1, Op.set_attack (1 / 96000)])
      (fun i _ => if i = 0 then 3 / 10 else 1 / 10) 1).zr2 =
      (Dyncomp_run
        (Libm.mk Real.log Real.exp (fun x => (10 : ℝ) ^ x) (Real.logb 10) (fun _ => true) fl32)
        Dyncomp_calloc 48000 2 [Op.set_ratio 1, Op.set_attack (1 / 96000)]).p_thr + 1 / 20 ∧
    -(Dyncomp_at
      (Libm.mk Real.log Real.exp (fun x => (10 : ℝ) ^ x) (Real.logb 10) (fun _ => true) fl32)
      (Dyncomp_run
        (Libm.mk Real.log Real.exp (fun x => (10 : ℝ) ^ x) (Real.logb 10) (fun _ => true) fl32)
        Dyncomp_calloc 48000 2 [Op.set_ratio 1, Op.set_attack (1 / 96000)])
      (fun i _ => if i = 0 then 3 / 10 else 1 / 10) 1).r *
      Real.log (20 * (Dyncomp_at
        (Libm.mk Real.log Real.exp (fun x => (10 : ℝ) ^ x) (Real.logb 10) (fun _ => true) fl32)
        (Dyncomp_run
          (Libm.mk Real.log Real.exp (fun x => (10 : ℝ) ^ x) (Real.logb 10) (fun _ => true) fl32)
          Dyncomp_calloc 48000 2 [Op.set_ratio 1, Op.set_attack (1 / 96000)])
        (fun i _ => if i = 0 then 3 / 10 else 1 / 10) 1).zr2) < 0 ∧
    (Dyncomp_process
      (Libm.mk Real.log Real.exp (fun x => (10 : ℝ) ^ x) (Real.logb 10) (fun _ => true) fl32)
      (Dyncomp_run
        (Libm.mk Real.log Real.exp (fun x => (10 : ℝ) ^ x) (Real.logb 10) (fun _ => true) fl32)
        Dyncomp_calloc 48000 2 [Op.set_ratio 1, Op.set_attack (1 / 96000)])
      1 (fun i _ => if i = 0 then 3 / 10 else 1 / 10)).1.gmax < 0 := by
  obtain ⟨h1, h2, h3, h4, h5, h6, h7⟩ := unity_scenario
  have hneg : -(1 / 600 : ℝ) * Real.log (20 * (1 / 10)) < 0 := by
    have : (0 : ℝ) < Real.log (20 * (1 / 10)) := Real.log_pos (by norm_num)
    linarith
  refine ⟨?_, ?_, ?_, ?_, ?_⟩
  · rw [h3, h2]
    norm_num [Dyncomp_key]
  · rw [h4, h1]; norm_num
  · rw [h5, h1]; norm_num
  · rw [h6, h5]; exact hneg
  · rw [(process_finite _ _ 1 _ rfl).2.2.2.1, (at_succ_extrema _ _ _ 0).1, h6, h5, h7]
    exact max_lt (by norm_num) hneg

/-! ## Bounded detector states (C22) -/

/-- The key sum reads the buffers only at the sample index `j`. -/
theorem key_congr (g : F) (io io' : Nat → Nat → F) (j : Nat) (h : ∀ i, io i j = io' i j) :
    ∀ n, Dyncomp_key g io j n = Dyncomp_key g io' j n := by
  intro n
  induction n with
  | zero => rfl
  | succ n ih => simp only [Dyncomp_key, ih, h]

/-- When sample `k` of a block is processed the buffers still hold the input at
index `k`: the key power of the sample is that of the input. -/
theorem at_key (m : Libm F) (s : Dyncomp F) (io : Nat → Nat → F) (k : Nat) (g : F) :
    Dyncomp_key g (Dyncomp_at m s io k).io k s.n_channels = Dyncomp_key g io k s.n_channels := by
  apply key_congr
  intro i
  have h := loop_io m s (Dyncomp_dg s) (Dyncomp_dr s) (Dyncomp_locals s io) k i k
  rw [if_neg (fun hc => lt_irrefl k hc.1)] at h
  exact h

/-- One sample keeps the detector in `[0, p_thr + V]` when its key power is in
`[0, V]`. -/
theorem sample_range (m : Libm F) (s : Dyncomp F) (dg dr : F) (j : Nat) (st : Loop F) (V : F)
    (hp : 0 ≤ s.p_thr) (ha0 : 0 ≤ s.w_att) (ha1 : s.w_att ≤ 1)
    (hr0 : 0 ≤ s.w_rel) (hr1 : s.w_rel ≤ 1)
    (hv0 : 0 ≤ Dyncomp_key (Dyncomp_sample m s dg dr j st).g st.io j s.n_channels * s.norm_input)
    (hv1 : Dyncomp_key (Dyncomp_sample m s dg dr j st).g st.io j s.n_channels * s.norm_input ≤ V)
    (h1 : 0 ≤ st.za1 ∧ st.za1 ≤ s.p_thr + V) (h2 : 0 ≤ st.zr1 ∧ st.zr1 ≤ s.p_thr + V)
    (h3 : 0 ≤ st.zr2 ∧ st.zr2 ≤ s.p_thr + V) :
    (0 ≤ (Dyncomp_sample m s dg dr j st).za1 ∧
      (Dyncomp_sample m s dg dr j st).za1 ≤ s.p_thr + V) ∧
    (0 ≤ (Dyncomp_sample m s dg dr j st).zr1 ∧
      (Dyncomp_sample m s dg dr j st).zr1 ≤ s.p_thr + V) ∧
    (0 ≤ (Dyncomp_sample m s dg dr j st).zr2 ∧
      (Dyncomp_sample m s dg dr j st).zr2 ≤ s.p_thr + V) := by
  have e0 := sample_za1 m s dg dr j st
  obtain ⟨e1, e2⟩ := sample_release m s dg dr j st
  generalize Dyncomp_sample m s dg dr j st = S at e0 e1 e2 hv0 hv1 ⊢
  generalize Dyncomp_key S.g st.io j s.n_channels * s.norm_input = v at e0 hv0 hv1
  generalize (if s.hold = true then 2 * s.p_thr else 0) = ph at e1 e2
  obtain ⟨a1, b1⟩ := h1
  obtain ⟨a2, b2⟩ := h2
  obtain ⟨a3, b3⟩ := h3
  have hza : 0 ≤ S.za1 ∧ S.za1 ≤ s.p_thr + V := by
    rw [e0]
    constructor
    · linarith [mul_nonneg ha0 (add_nonneg hp hv0), mul_nonneg (sub_nonneg.mpr ha1) a1]
    · linarith [mul_nonneg ha0 (sub_nonneg.mpr hv1), mul_nonneg (sub_nonneg.mpr ha1)
        (sub_nonneg.mpr b1)]
  have hzr1 : 0 ≤ S.zr1 ∧ S.zr1 ≤ s.p_thr + V := by
    rw [e1]
    split_ifs
    · exact hza
    · exact ⟨a2, b2⟩
    · constructor
      · linarith [mul_nonneg (sub_nonneg.mpr hr1) a2]
      · linarith [mul_nonneg hr0 a2]
  have hmix : ∀ z1 : F, 0 ≤ z1 → z1 ≤ s.p_thr + V →
      0 ≤ st.zr2 + s.w_rel * (z1 - st.zr2) ∧
        st.zr2 + s.w_rel * (z1 - st.zr2) ≤ s.p_thr + V := by
    intro z1 c1 c2
    constructor
    · linarith [mul_nonneg hr0 c1, mul_nonneg (sub_nonneg.mpr hr1) a3]
    · linarith [mul_nonneg hr0 (sub_nonneg.mpr c2), mul_nonneg (sub_nonneg.mpr hr1)
        (sub_nonneg.mpr b3)]
  refine ⟨hza, hzr1, ?_⟩
  rw [e2]
  split_ifs
  · exact hza
  · exact ⟨a3, b3⟩
  · exact hmix _ hzr1.1 hzr1.2

/-- The detector after `k` samples of a block whose key powers are in `[0, V]`. -/
theorem at_range (m : Libm F) (s : Dyncomp F) (n : Nat) (io : Nat → Nat → F) (V : F)
    (hp : 0 ≤ s.p_thr) (ha0 : 0 ≤ s.w_att) (ha1 : s.w_att ≤ 1)
    (hr0 : 0 ≤ s.w_rel) (hr1 : s.w_rel ≤ 1)
    (hv : ∀ j, j < n →
      0 ≤ Dyncomp_key (Dyncomp_at m s io (j + 1)).g io j s.n_channels * s.norm_input ∧
      Dyncomp_key (Dyncomp_at m s io (j + 1)).g io j s.n_channels * s.norm_input ≤ V)
    (h1 : 0 ≤ s.za1 ∧ s.za1 ≤ s.p_thr + V) (h2 : 0 ≤ s.zr1 ∧ s.zr1 ≤ s.p_thr + V)
    (h3 : 0 ≤ s.zr2 ∧ s.zr2 ≤ s.p_thr + V) :
    ∀ k, k ≤ n →
      (0 ≤ (Dyncomp_at m s io k).za1 ∧ (Dyncomp_at m s io k).za1 ≤ s.p_thr + V) ∧
      (0 ≤ (Dyncomp_at m s io k).zr1 ∧ (Dyncomp_at m s io k).zr1 ≤ s.p_thr + V) ∧
      (0 ≤ (Dyncomp_at m s io k).zr2 ∧ (Dyncomp_at m s io k).zr2 ≤ s.p_thr + V) := by
  intro k
  induction k with
  | zero => exact fun _ => ⟨h1, h2, h3⟩
  | succ k ih =>
    intro hk
    obtain ⟨i1, i2, i3⟩ := ih (Nat.le_of_succ_le hk)
    obtain ⟨v0, v1⟩ := hv k hk
    rw [← at_key m s io k] at v0 v1
    exact sample_range m s (Dyncomp_dg s) (Dyncomp_dr s) k (Dyncomp_at m s io k) V hp ha0 ha1
      hr0 hr1 v0 v1 i1 i2 i3

/-- C22. The detector is stable for bounded input. With `p_thr >= 0` (it is a
power, `0.05` or `0.5 * 10^(t/10)`), `0 < w_att <= 1`, `0 <= w_rel <= 1`, the key
power `v_j` of every sample of the block in `[0, V]` and `za1`, `zr1`, `zr2` in
`[0, p_thr + V]` before the block, the three states are in `[0, p_thr + V]` after
every sample, for a block of any length; so for a smoothed ratio `r >= 0` and
`zr2 > 0` the gain exponent `-r * ln (20 * zr2)` of a sample is at least
`-r * ln (20 * (p_thr + V))`. -/
theorem C22_detector_bounded (m : Libm ℝ) (s : Dyncomp ℝ) (n : Nat) (io : Nat → Nat → ℝ)
    (V : ℝ) (hlog : ∀ x, m.logf x = Real.log x)
    (hp : 0 ≤ s.p_thr) (ha0 : 0 < s.w_att) (ha1 : s.w_att ≤ 1)
    (hr0 : 0 ≤ s.w_rel) (hr1 : s.w_rel ≤ 1)
    (hv : ∀ j, j < n →
      0 ≤ Dyncomp_key (Dyncomp_at m s io (j + 1)).g io j s.n_channels * s.norm_input ∧
      Dyncomp_key (Dyncomp_at m s io (j + 1)).g io j s.n_channels * s.norm_input ≤ V)
    (h1 : 0 ≤ s.za1 ∧ s.za1 ≤ s.p_thr + V) (h2 : 0 ≤ s.zr1 ∧ s.zr1 ≤ s.p_thr + V)
    (h3 : 0 ≤ s.zr2 ∧ s.zr2 ≤ s.p_thr + V) :
    ∀ k, k ≤ n →
      (0 ≤ (Dyncomp_at m s io k).za1 ∧ (Dyncomp_at m s io k).za1 ≤ s.p_thr + V) ∧
      (0 ≤ (Dyncomp_at m s io k).zr1 ∧ (Dyncomp_at m s io k).zr1 ≤ s.p_thr + V) ∧
      (0 ≤ (Dyncomp_at m s io k).zr2 ∧ (Dyncomp_at m s io k).zr2 ≤ s.p_thr + V) ∧
      (0 ≤ (Dyncomp_at m s io k).r → 0 < (Dyncomp_at m s io k).zr2 →
        -(Dyncomp_at m s io k).r * Real.log (20 * (s.p_thr + V)) ≤
          -(Dyncomp_at m s io k).r * m.logf (20 * (Dyncomp_at m s io k).zr2)) := by
  intro k hk
  obtain ⟨i1, i2, i3⟩ := at_range m s n io V hp (le_of_lt ha0) ha1 hr0 hr1 hv h1 h2 h3 k hk
  refine ⟨i1, i2, i3, ?_⟩
  intro hr hz
  rw [hlog]
  have hl : Real.log (20 * (Dyncomp_at m s io k).zr2) ≤ Real.log (20 * (s.p_thr + V)) :=
    Real.log_le_log (by linarith) (by linarith [i3.2])
  linarith [mul_le_mul_of_nonneg_left hl hr]
/-- C22 witness: the scenario engine fed three samples of value 1 (key power 1,
`V = 1`): after the block `zr2` is at most `p_thr + 1`. -/
theorem C22_detector_bounded_witness :
    (Dyncomp_at
      (Libm.mk Real.log Real.exp (fun x => (10 : ℝ) ^ x) (Real.logb 10) (fun _ => true) fl32)
      Dyncomp_scenario (fun _ _ => 1) 3).zr2 ≤ 1 / 2000 + 1 :=
  ((C22_detector_bounded
    (Libm.mk Real.log Real.exp (fun x => (10 : ℝ) ^ x) (Real.logb 10) (fun _ => true) fl32)
    Dyncomp_scenario 3 (fun _ _ => 1) 1 (fun _ => rfl)
    (by norm_num [Dyncomp_scenario]) (by norm_num [Dyncomp_scenario])
    (by norm_num [Dyncomp_scenario]) (by norm_num [Dyncomp_scenario])
    (by norm_num [Dyncomp_scenario])
    (by
      intro j _
      rw [(at_gain_settled _ Dyncomp_scenario _ rfl).1]
      norm_num [Dyncomp_scenario, Dyncomp_key])
    (by norm_num [Dyncomp_scenario]) (by norm_num [Dyncomp_scenario])
    (by norm_num [Dyncomp_scenario])) 3 (le_refl 3)).2.2.1.2

/-! ## Bypass (C23) -/

/-- With the smoothed ratio at its target the ratio of every sample is the
target. -/
theorem at_ratio_settled (m : Libm F) (s : Dyncomp F) (io : Nat → Nat → F)
    (h : s.ratio = s.p_rat) : ∀ k, (Dyncomp_at m s io k).r = s.p_rat := by
  have hsnap : |s.p_rat - s.ratio| < 2748779 / 274877906944 := by
    rw [h, sub_self, abs_zero]; norm_num
  intro k
  have h0 := (loop_const m s (Dyncomp_dg s) (Dyncomp_dr s) (Dyncomp_locals s io) k).2
    ((dg_dr_zero s).2.mpr hsnap)
  have h1 : (Dyncomp_locals s io).r = s.p_rat := by
    simp only [Dyncomp_locals]
    rw [if_pos hsnap]
  rw [← h1]
  exact h0

/-- With the smoothed gain and the smoothed ratio at the targets 1 and 0, the
steps `dg` and `dr` over `Fl` are 0 and the loop starts from the targets. -/
theorem locals_fl_settled (s : Dyncomp (Fl F)) (io : Nat → Nat → Fl F)
    (hg : s.igain = Fl.fin 1) (hg1 : s.p_ign = Fl.fin 1)
    (hr : s.ratio = Fl.fin 0) (hr1 : s.p_rat = Fl.fin 0) :
    Dyncomp_dg_fl s = Fl.fin 0 ∧ Dyncomp_dr_fl s = Fl.fin 0 ∧
    (Dyncomp_locals_fl s io).g = Fl.fin 1 ∧ (Dyncomp_locals_fl s io).r = Fl.fin 0 ∧
    (Dyncomp_locals_fl s io).io = io := by
  have h1 : Fl.fabsf (Fl.fin (1 : F) - Fl.fin 1) < Fl.fin (2748779 / 274877906944) := by
    rw [Fl.fin_sub_fin, sub_self, Fl.of_zero]
    show Fl.fin |(0 : F)| < _
    rw [abs_zero, Fl.fin_lt_fin]
    norm_num
  have h2 : Fl.fabsf (Fl.fin (0 : F) - Fl.fin 0) < Fl.fin (2748779 / 274877906944) := by
    rw [Fl.fin_sub_fin, sub_self, Fl.of_zero]
    show Fl.fin |(0 : F)| < _
    rw [abs_zero, Fl.fin_lt_fin]
    norm_num
  refine ⟨?_, ?_, ?_, ?_, rfl⟩
  · simp only [Dyncomp_dg_fl, hg, hg1]
    rw [if_pos (Or.inl h1)]
  · simp only [Dyncomp_dr_fl, hr, hr1]
    rw [if_pos h2]
  · simp only [Dyncomp_locals_fl, hg, hg1]
    rw [if_pos (Or.inl h1)]
  · simp only [Dyncomp_locals_fl, hr, hr1]
    rw [if_pos h2]

/-- With `dg = 0` and `dr = 0` the loop over `Fl` keeps the smoothed gain and
the smoothed ratio. -/
theorem loop_fl_const (m : Libm (Fl F)) (s : Dyncomp (Fl F)) (st : Loop (Fl F)) :
    ∀ k, (Dyncomp_loop_fl m s (Fl.fin 0) (Fl.fin 0) k st).g = st.g ∧
      (Dyncomp_loop_fl m s (Fl.fin 0) (Fl.fin 0) k st).r = st.r := by
  intro k
  induction k with
  | zero => exact ⟨rfl, rfl⟩
  | succ k ih =>
    have e1 : (Dyncomp_loop_fl m s (Fl.fin 0) (Fl.fin 0) (k + 1) st).g =
        (Dyncomp_loop_fl m s (Fl.fin 0) (Fl.fin 0) k st).g := by
      show (if (Fl.fin (0 : F)) ≠ Fl.fin 0 then _ else _) = _
      rw [if_neg (fun h => h rfl)]
    have e2 : (Dyncomp_loop_fl m s (Fl.fin 0) (Fl.fin 0) (k + 1) st).r =
        (Dyncomp_loop_fl m s (Fl.fin 0) (Fl.fin 0) k st).r := by
      show (if (Fl.fin (0 : F)) ≠ Fl.fin 0 then _ else _) = _
      rw [if_neg (fun h => h rfl)]
    exact ⟨e1.trans ih.1, e2.trans ih.2⟩

/-- The buffers after `k` samples over `Fl`: sample `l < k` of every channel
has been multiplied by the factor of sample `l`, everything else is
untouched. -/
theorem loop_fl_io (m : Libm (Fl F)) (s : Dyncomp (Fl F)) (dg dr : Fl F) (st : Loop (Fl F)) :
    ∀ k i l, (Dyncomp_loop_fl m s dg dr k st).io i l =
      if l < k ∧ i < s.n_channels then
        st.io i l * ((Dyncomp_loop_fl m s dg dr (l + 1) st).g *
          m.expf (-(Dyncomp_loop_fl m s dg dr (l + 1) st).r *
            m.logf (Fl.fin 20 * (Dyncomp_loop_fl m s dg dr (l + 1) st).zr2)))
      else st.io i l := by
  intro k
  induction k with
  | zero =>
    intro i l
    simp [Dyncomp_loop_fl]
  | succ k ih =>
    intro i l
    have e : (Dyncomp_loop_fl m s dg dr (k + 1) st).io i l =
        if l = k ∧ i < s.n_channels then
          (Dyncomp_loop_fl m s dg dr k st).io i l *
            ((Dyncomp_loop_fl m s dg dr (k + 1) st).g *
              m.expf (-(Dyncomp_loop_fl m s dg dr (k + 1) st).r *
                m.logf (Fl.fin 20 * (Dyncomp_loop_fl m s dg dr (k + 1) st).zr2)))
        else (Dyncomp_loop_fl m s dg dr k st).io i l := rfl
    rw [e, ih i l]
    by_cases hl : l = k
    · subst hl
      by_cases hi : i < s.n_channels
      · simp only [hi, and_true, lt_irrefl, false_and, if_false, if_true, Nat.lt_succ_self]
      · simp [hi]
    · by_cases hlk : l < k
      · have : l < k + 1 := Nat.lt_succ_of_lt hlk
        simp [hl, hlk, this]
      · have : ¬ l < k + 1 := fun h => by omega
        simp [hl, hlk, this]

/-- C23 (as amended). Bypass is transparent once settled, as long as the
logarithm stays finite. With samples and states taken in `Fl`: when the
smoothed input gain and its target are 1 and the smoothed ratio and its target
are 0, `Dyncomp_process` returns the buffers unchanged and stores the gain 1
and the ratio 0 again, whatever the threshold, the attack and release
coefficients and the hold setting are, for every block in which the updated
`zr2` of every sample is positive, in the range of the normal `float` values
(at least `2^-126`), and `20 * zr2` is below the overflow bound
`2^128 - 2^103` of a `float`, so that `logf (20 * zr2)` is finite and
`-0 * logf (20 * zr2)` is 0. The finite input samples are `float` values
(below the overflow bound), and `logf` is finite on positive finite numbers.
These targets are the ones the disabled branch of `run` asks for:
`Dyncomp_set_ratio` with 0 gives `p_rat = 0`, and `Dyncomp_set_inputgain` with
0 dB gives `p_ign = exp10f 0 = 1` unless 0 dB is the cached value. -/
theorem C23_bypass_transparent (m : Libm (Fl F)) (s : Dyncomp (Fl F)) (n : Nat)
    (io : Nat → Nat → Fl F)
    (he : m.expf (Fl.fin 0) = Fl.fin 1)
    (hlog : ∀ a : F, 0 < a → Fl.isfinite (m.logf (Fl.fin a)) = true)
    (hg : s.igain = Fl.fin 1) (hg1 : s.p_ign = Fl.fin 1)
    (hr : s.ratio = Fl.fin 0) (hr1 : s.p_rat = Fl.fin 0)
    (hio : ∀ i j x, io i j = Fl.fin x → |x| < 2 ^ 128 - 2 ^ 103)
    (hz : ∀ j, j < n → ∃ z, (Dyncomp_at_fl m s io (j + 1)).zr2 = Fl.fin z ∧
      1 / 2 ^ 126 ≤ z ∧ 20 * z < 2 ^ 128 - 2 ^ 103) :
    (Dyncomp_process_fl m s n io).2 = io ∧
    (Dyncomp_process_fl m s n io).1.igain = Fl.fin 1 ∧
    (Dyncomp_process_fl m s n io).1.ratio = Fl.fin 0 ∧
    (∀ t : Dyncomp F, (Dyncomp_set_ratio t 0).p_rat = 0) ∧
    (∀ (m0 : Libm F) (t : Dyncomp F), t.l_ign ≠ 0 → m0.exp10f 0 = 1 →
      (Dyncomp_set_inputgain m0 t 0).p_ign = 1) := by
  obtain ⟨d1, d2, l1, l2, l3⟩ := locals_fl_settled s io hg hg1 hr hr1
  have hat : ∀ k, Dyncomp_at_fl m s io k =
      Dyncomp_loop_fl m s (Fl.fin 0) (Fl.fin 0) k (Dyncomp_locals_fl s io) := by
    intro k
    show Dyncomp_loop_fl m s (Dyncomp_dg_fl s) (Dyncomp_dr_fl s) k _ = _
    rw [d1, d2]
  have hgk : ∀ k, (Dyncomp_at_fl m s io k).g = Fl.fin 1 := by
    intro k
    rw [hat, (loop_fl_const m s _ k).1, l1]
  have hrk : ∀ k, (Dyncomp_at_fl m s io k).r = Fl.fin 0 := by
    intro k
    rw [hat, (loop_fl_const m s _ k).2, l2]
  have hone : ∀ x : Fl F, (∀ a, x = Fl.fin a → |a| < 2 ^ 128 - 2 ^ 103) →
      x * Fl.fin 1 = x := by
    intro x hx
    cases x with
    | fin a => rw [Fl.fin_mul_fin, mul_one, Fl.of_eq _ (hx a rfl)]
    | pinf => show (if (0 : F) < 1 then Fl.pinf else _) = _; rw [if_pos one_pos]
    | ninf => show (if (0 : F) < 1 then Fl.ninf else _) = _; rw [if_pos one_pos]
    | nan => rfl
  have hfac : ∀ j, j < n →
      (Dyncomp_at_fl m s io (j + 1)).g *
        m.expf (-(Dyncomp_at_fl m s io (j + 1)).r *
          m.logf (Fl.fin 20 * (Dyncomp_at_fl m s io (j + 1)).zr2)) = Fl.fin 1 := by
    intro j hj
    obtain ⟨z, hz1, hz2, hz3⟩ := hz j hj
    have h20 : (0 : F) < 20 * z := by
      have : (0 : F) < 1 / 2 ^ 126 := by positivity
      linarith
    rw [hgk, hrk, hz1, Fl.fin_mul_fin, Fl.of_eq _ (by rw [abs_of_pos h20]; exact hz3)]
    have hl := hlog (20 * z) h20
    cases hc : m.logf (Fl.fin (20 * z)) with
    | fin a =>
      rw [Fl.neg_fin, Fl.fin_mul_fin, neg_zero, zero_mul, Fl.of_zero, he, Fl.fin_mul_fin,
        mul_one, Fl.of_eq _ (by rw [abs_one]; norm_num)]
    | pinf => rw [hc] at hl; exact Bool.noConfusion hl
    | ninf => rw [hc] at hl; exact Bool.noConfusion hl
    | nan => rw [hc] at hl; exact Bool.noConfusion hl
  refine ⟨?_, ?_, ?_, ?_, ?_⟩
  · funext i l
    have h := loop_fl_io m s (Dyncomp_dg_fl s) (Dyncomp_dr_fl s) (Dyncomp_locals_fl s io) n i l
    have h2 : (Dyncomp_process_fl m s n io).2 i l =
        if l < n ∧ i < s.n_channels then
          io i l * ((Dyncomp_at_fl m s io (l + 1)).g *
            m.expf (-(Dyncomp_at_fl m s io (l + 1)).r *
              m.logf (Fl.fin 20 * (Dyncomp_at_fl m s io (l + 1)).zr2)))
        else io i l := h
    rw [h2]
    split_ifs with hc
    · rw [hfac l hc.1, hone _ (fun a ha => hio i l a ha)]
    · rfl
  · have : (Dyncomp_process_fl m s n io).1.igain = (Dyncomp_at_fl m s io n).g := by
      simp only [Dyncomp_process_fl]
      split_ifs <;> rfl
    rw [this, hgk]
  · have : (Dyncomp_process_fl m s n io).1.ratio = (Dyncomp_at_fl m s io n).r := by
      simp only [Dyncomp_process_fl]
      split_ifs <;> rfl
    rw [this, hrk]
  · intro t
    simp [Dyncomp_set_ratio]
  · intro m0 t ht h10
    simp only [Dyncomp_set_inputgain]
    rw [if_neg (fun h => ht h.symm)]
    simp only [mul_zero]
    exact h10
theorem Fl.mul_nan (a : Fl F) : a * Fl.nan = Fl.nan := by
  cases a <;> rfl

/-- C23 witness: the mono engine right after `Dyncomp_init` at 48 kHz (gain 1,
ratio 0) over `Fl`, one sample of value 1: the updated `zr2` is
`(0.05 + 1) / 960`, a normal `float` far below the overflow bound, and the
output sample is the input sample. -/
theorem C23_bypass_transparent_witness :
    (Dyncomp_at_fl
      (Libm_fl (Libm.mk Real.log Real.exp (fun x => (10 : ℝ) ^ x) (Real.logb 10)
        (fun _ => true) fl32))
      (Dyncomp_fl (Dyncomp_init Dyncomp_calloc 48000 1)) (fun _ _ => Fl.fin 1) 1).zr2 =
      Fl.fin (7 / 6400) ∧
    (Dyncomp_process_fl
      (Libm_fl (Libm.mk Real.log Real.exp (fun x => (10 : ℝ) ^ x) (Real.logb 10)
        (fun _ => true) fl32))
      (Dyncomp_fl (Dyncomp_init Dyncomp_calloc 48000 1)) 1 (fun _ _ => Fl.fin 1)).2 0 0 =
      Fl.fin 1 := by
  have hzr : (Dyncomp_at_fl
      (Libm_fl (Libm.mk Real.log Real.exp (fun x => (10 : ℝ) ^ x) (Real.logb 10)
        (fun _ => true) fl32))
      (Dyncomp_fl (Dyncomp_init Dyncomp_calloc 48000 1)) (fun _ _ => Fl.fin 1) 1).zr2 =
      Fl.fin (7 / 6400) := by
    simp only [Dyncomp_at_fl, Dyncomp_loop_fl, Dyncomp_sample_fl, Dyncomp_locals_fl,
      Dyncomp_dg_fl, Dyncomp_dr_fl, Dyncomp_key_fl, Dyncomp_fl, Dyncomp_holding_fl, init_fields,
      Fl.fin_sub_fin, Fl.fin_add_fin, Fl.fin_mul_fin]
    norm_num [Fl.of, Fl.fabsf, Fl.fin_lt_fin, Fl.fin_add_fin, Fl.fin_mul_fin, Fl.fin_sub_fin,
      abs_of_nonneg]
  refine ⟨hzr, ?_⟩
  exact congrFun (congrFun (C23_bypass_transparent
    (Libm_fl (Libm.mk Real.log Real.exp (fun x => (10 : ℝ) ^ x) (Real.logb 10)
      (fun _ => true) fl32))
    (Dyncomp_fl (Dyncomp_init Dyncomp_calloc 48000 1)) 1 (fun _ _ => Fl.fin 1)
    (by simp only [Libm_fl, Real.exp_zero]; exact Fl.of_eq 1 (by rw [abs_one]; norm_num))
    (by intro a ha; simp only [Libm_fl, if_pos ha]; rfl)
    (by simp only [Dyncomp_fl, init_fields])
    (by simp only [Dyncomp_fl, init_fields])
    (by simp only [Dyncomp_fl, init_fields])
    (by simp only [Dyncomp_fl, init_fields])
    (by intro i j x hx
        have : x = 1 := (Fl.fin.inj hx).symm
        rw [this, abs_one]; norm_num)
    (by intro j hj
        have hj0 : j = 0 := by omega
        subst hj0
        exact ⟨7 / 6400, hzr, by norm_num, by norm_num⟩)).1 0) 0

/-- The mono engine at 8 kHz after `Dyncomp_init` with the attack time set to
1 ms (`w_att = 1/16`). -/
theorem bypass_engine :
    Dyncomp_run
      (Libm.mk Real.log Real.exp (fun x => (10 : ℝ) ^ x) (Real.logb 10) (fun _ => true) fl32)
      Dyncomp_calloc 8000 1 [Op.set_attack (1 / 1000)] =
      { sample_rate := 8000, n_channels := 1, norm_input := 1,
        ratio := 0, p_rat := 0, hold := false, igain := 1, p_ign := 1, l_ign := 0,
        p_thr := 1 / 20, l_thr := -10, w_att := 1 / 16, w_rel := 7 / 2 / (8000 * (3 / 100)),
        t_att := 1 / 1000, t_rel := 3 / 100, za1 := 0, zr1 := 0, zr2 := 0,
        newg := true, gmax := 0, gmin := 0, rms := 0,
        w_rms := 5 / 8000, w_lpf := 160 / 8000 } := by
  simp only [Dyncomp_run, List.foldl_cons, List.foldl_nil, Dyncomp_call, init_fields,
    Dyncomp_set_attack]
  norm_num

/-- C23 counterexample: the mono engine at 8 kHz after `Dyncomp_init` (gain 1,
ratio 0, both at their targets) with the attack time 1 ms, and a one-sample
block of the finite value `1.8e19`. The updated `zr2` is
`(0.05 + 3.24e38) / 16`, positive and finite, but `20 * zr2` is above the
largest `float`: the product is `+inf`, its logarithm `+inf`, the exponent
`-0 * inf` NaN, and the sample is multiplied by `1 * expf (NaN)`: the output
sample is NaN, not the input sample. -/
theorem C23_bypass_nan :
    (∃ z : ℝ, 0 < z ∧ (Dyncomp_at_fl
      (Libm_fl (Libm.mk Real.log Real.exp (fun x => (10 : ℝ) ^ x) (Real.logb 10)
        (fun _ => true) fl32))
      (Dyncomp_fl (Dyncomp_run
        (Libm.mk Real.log Real.exp (fun x => (10 : ℝ) ^ x) (Real.logb 10) (fun _ => true) fl32)
        Dyncomp_calloc 8000 1 [Op.set_attack (1 / 1000)]))
      (fun _ _ => Fl.fin 18000000000000000000) 1).zr2 = Fl.fin z) ∧
    (Dyncomp_process_fl
      (Libm_fl (Libm.mk Real.log Real.exp (fun x => (10 : ℝ) ^ x) (Real.logb 10)
        (fun _ => true) fl32))
      (Dyncomp_fl (Dyncomp_run
        (Libm.mk Real.log Real.exp (fun x => (10 : ℝ) ^ x) (Real.logb 10) (fun _ => true) fl32)
        Dyncomp_calloc 8000 1 [Op.set_attack (1 / 1000)]))
      1 (fun _ _ => Fl.fin 18000000000000000000)).2 0 0 = Fl.nan := by
  rw [bypass_engine]
  constructor
  · refine ⟨(1 / 20 + 18000000000000000000 * 18000000000000000000) / 16, by norm_num, ?_⟩
    simp only [Dyncomp_at_fl, Dyncomp_loop_fl, Dyncomp_sample_fl, Dyncomp_locals_fl,
      Dyncomp_dg_fl, Dyncomp_dr_fl, Dyncomp_key_fl, Dyncomp_fl, Dyncomp_holding_fl,
      Fl.fin_sub_fin, Fl.fin_add_fin, Fl.fin_mul_fin]
    norm_num [Fl.of, Fl.fabsf, Fl.fin_lt_fin, Fl.fin_add_fin, Fl.fin_mul_fin, Fl.fin_sub_fin,
      abs_of_nonneg]
  · simp only [Dyncomp_process_fl, Dyncomp_at_fl, Dyncomp_loop_fl, Dyncomp_sample_fl,
      Dyncomp_locals_fl, Dyncomp_dg_fl, Dyncomp_dr_fl, Dyncomp_key_fl, Dyncomp_fl,
      Dyncomp_holding_fl, Libm_fl, Fl.fin_sub_fin, Fl.fin_add_fin, Fl.fin_mul_fin]
    norm_num [Fl.of, Fl.fabsf, Fl.fin_lt_fin, Fl.fin_add_fin, Fl.fin_mul_fin, Fl.fin_sub_fin,
      Fl.fin_mul_pinf, Fl.neg_fin, Fl.mul_nan, abs_of_nonneg]

/-! ## Positivity of the argument of the logarithm (C24) -/

/-- The key sum at index `n + j` is the key sum at index `j` of the buffers
advanced by `n`. -/
theorem key_shift (g : F) (io : Nat → Nat → F) (n j : Nat) :
    ∀ c, Dyncomp_key g (fun i l => io i (n + l)) j c = Dyncomp_key g io (n + j) c := by
  intro c
  induction c with
  | zero => rfl
  | succ c ih => simp only [Dyncomp_key, ih]

/-- Sample `n + j` of a block is sample `j` of the block advanced by `n`. -/
theorem sample_shift (m : Libm F) (s : Dyncomp F) (dg dr : F) (n j : Nat) (st : Loop F) :
    Loop_shift n (Dyncomp_sample m s dg dr (n + j) st) =
      Dyncomp_sample m s dg dr j (Loop_shift n st) := by
  simp only [Loop_shift, Dyncomp_sample, key_shift, Loop.mk.injEq, true_and]
  funext i l
  simp only [Nat.add_left_cancel_iff]

/-- The last `k` samples of a block of `n + k` samples are a block of `k`
samples started from the locals after the first `n`. -/
theorem loop_shift (m : Libm F) (s : Dyncomp F) (dg dr : F) (n : Nat) (st : Loop F) :
    ∀ k, Loop_shift n (Dyncomp_loop m s dg dr (n + k) st) =
      Dyncomp_loop m s dg dr k (Loop_shift n (Dyncomp_loop m s dg dr n st)) := by
  intro k
  induction k with
  | zero => rfl
  | succ k ih =>
    show Loop_shift n (Dyncomp_sample m s dg dr (n + k) (Dyncomp_loop m s dg dr (n + k) st)) =
      Dyncomp_sample m s dg dr k (Dyncomp_loop m s dg dr k _)
    rw [sample_shift, ih]

/-- The sample loop reads the record only through its parameters. -/
theorem loop_congr (m : Libm F) (s t : Dyncomp F) (dg dr : F) (st : Loop F)
    (h1 : t.p_ign = s.p_ign) (h2 : t.p_rat = s.p_rat) (h3 : t.w_rms = s.w_rms)
    (h4 : t.w_lpf = s.w_lpf) (h5 : t.w_att = s.w_att) (h6 : t.w_rel = s.w_rel)
    (h7 : t.p_thr = s.p_thr) (h8 : t.n_channels = s.n_channels)
    (h9 : t.norm_input = s.norm_input) (h10 : t.hold = s.hold) :
    ∀ k, Dyncomp_loop m t dg dr k st = Dyncomp_loop m s dg dr k st := by
  intro k
  induction k with
  | zero => rfl
  | succ k ih =>
    show Dyncomp_sample m t dg dr k (Dyncomp_loop m t dg dr k st) =
      Dyncomp_sample m s dg dr k (Dyncomp_loop m s dg dr k st)
    rw [ih]
    simp only [Dyncomp_sample, Dyncomp_holding, h1, h2, h3, h4, h5, h6, h7, h8, h9, h10]

/-- The running rms is read by nothing but its own update: in one sample an
offset `d` of it is multiplied by `1 - w_rms`, every other local is as before. -/
theorem sample_rms_offset (m : Libm F) (s : Dyncomp F) (dg dr : F) (j : Nat) (st : Loop F)
    (d : F) :
    Dyncomp_sample m s dg dr j { st with rms := st.rms + d } =
      { Dyncomp_sample m s dg dr j st with
        rms := (Dyncomp_sample m s dg dr j st).rms + (1 - s.w_rms) * d } := by
  simp only [Dyncomp_sample, Loop.mk.injEq, true_and, and_true]
  ring

/-- After `k` samples an offset `d` of the running rms has decayed to
`(1 - w_rms)^k * d`. -/
theorem loop_rms_offset (m : Libm F) (s : Dyncomp F) (dg dr : F) (st : Loop F) (d : F) :
    ∀ k, Dyncomp_loop m s dg dr k { st with rms := st.rms + d } =
      { Dyncomp_loop m s dg dr k st with
        rms := (Dyncomp_loop m s dg dr k st).rms + (1 - s.w_rms) ^ k * d } := by
  intro k
  induction k with
  | zero => simp [Dyncomp_loop]
  | succ k ih =>
    have e : ∀ x : Loop F, Dyncomp_loop m s dg dr (k + 1) x =
        Dyncomp_sample m s dg dr k (Dyncomp_loop m s dg dr k x) := fun _ => rfl
    have hd : (1 - s.w_rms) * ((1 - s.w_rms) ^ k * d) = (1 - s.w_rms) ^ (k + 1) * d := by ring
    rw [e, e, ih, sample_rms_offset, hd]
/-- A block that ends with a finite `za1` leaves the new-window flag clear. -/
theorem process_newg (m : Libm F) (s : Dyncomp F) (n : Nat) (io : Nat → Nat → F)
    (h : m.isfinite (Dyncomp_at m s io n).za1 = true) :
    (Dyncomp_process m s n io).1.newg = false := by
  simp only [Dyncomp_process, h, Bool.not_true, Bool.false_eq_true, if_false]
  split_ifs <;> simp_all

/-- The locals of a second call on the rest of a block, with settled
parameters: those of the single call, the buffers advanced by `n`, and the
running rms off by what the first call added when it stored it. -/
theorem at_split (m : Libm F) (s : Dyncomp F) (n k : Nat) (io : Nat → Nat → F)
    (hg : s.igain = s.p_ign) (hr : s.ratio = s.p_rat)
    (hf : m.isfinite (Dyncomp_at m s io n).za1 = true) :
    Dyncomp_at m (Dyncomp_process m s n io).1
        (fun i l => (Dyncomp_process m s n io).2 i (n + l)) k =
      { Loop_shift n (Dyncomp_at m s io (n + k)) with
        rms := (Dyncomp_at m s io (n + k)).rms +
          (1 - s.w_rms) ^ k * ((Dyncomp_process m s n io).1.rms - (Dyncomp_at m s io n).rms) } := by
  obtain ⟨_, f2, f3, f4, f5, f6, _, f8, _, f10, f11, _, _, f14, f15⟩ := process_frame m s n io
  obtain ⟨p1, p2, p3, p4, p5⟩ := process_finite m s n io hf
  obtain ⟨q1, q2⟩ := process_smoothed m s n io
  have pn := process_newg m s n io hf
  have hgn := (at_gain_settled m s io hg).1 n
  have hrn := at_ratio_settled m s io hr n
  have hio : (Dyncomp_process m s n io).2 = (Dyncomp_at m s io n).io := rfl
  rw [hgn] at q1
  rw [hrn] at q2
  rw [hio]
  generalize (Dyncomp_process m s n io).1 = t at *
  have z : |(0 : F)| < 2748779 / 274877906944 := by rw [abs_zero]; norm_num
  have dgs : Dyncomp_dg s = 0 := (dg_dr_zero s).1.mpr (Or.inl (by rw [hg, sub_self]; exact z))
  have drs : Dyncomp_dr s = 0 := (dg_dr_zero s).2.mpr (by rw [hr, sub_self]; exact z)
  have dgt : Dyncomp_dg t = 0 :=
    (dg_dr_zero t).1.mpr (Or.inl (by rw [q1, f6, sub_self]; exact z))
  have drt : Dyncomp_dr t = 0 := (dg_dr_zero t).2.mpr (by rw [q2, f4, sub_self]; exact z)
  have hloc : Dyncomp_locals t (fun i l => (Dyncomp_at m s io n).io i (n + l)) =
      { Loop_shift n (Dyncomp_at m s io n) with
        rms := (Loop_shift n (Dyncomp_at m s io n)).rms + (t.rms - (Dyncomp_at m s io n).rms) } := by
    simp only [Dyncomp_locals, Loop_shift, Loop.mk.injEq, pn, q1, q2, f4, f6, p1, p2, p3, p4, p5,
      sub_self, z, hgn, hrn, Bool.false_eq_true, if_false, if_true, true_or, true_and, and_true]
    ring
  have hs : Dyncomp_loop m s 0 0 k (Loop_shift n (Dyncomp_at m s io n)) =
      Loop_shift n (Dyncomp_at m s io (n + k)) := by
    have h : Dyncomp_loop m s (Dyncomp_dg s) (Dyncomp_dr s) k
        (Loop_shift n (Dyncomp_at m s io n)) = Loop_shift n (Dyncomp_at m s io (n + k)) :=
      (loop_shift m s (Dyncomp_dg s) (Dyncomp_dr s) n (Dyncomp_locals s io) k).symm
    rw [dgs, drs] at h
    exact h
  show Dyncomp_loop m t (Dyncomp_dg t) (Dyncomp_dr t) k (Dyncomp_locals t _) = _
  rw [hloc, dgt, drt, loop_congr m s t 0 0 _ f6 f4 f14 f15 f10 f11 f8 f2 f3 f5 k,
    loop_rms_offset, hs]
  rfl
/-- C25. Block boundaries do not affect the audio when the parameters are
settled. With the smoothed gain and the smoothed ratio at their targets and a
finite `za1` at the end of the first `n` and of all `n + k` samples, processing
`n + k` samples in one `Dyncomp_process` call gives the same output samples and
the same stored `za1`, `zr1`, `zr2`, `gmin`, `gmax` (also gain, ratio and
new-window flag) as processing the first `n` samples and then, on the buffers
advanced by `n`, the last `k` samples. Only the running rms differs: by
`(1 - w_rms)^k` times what the first call added when storing it, which is the
`1e-12` of lv2.c 346, as the store to the `float` field keeps it (`m.tofloat`
of the sum, minus the running rms; `1e-12` itself when the store is exact),
when the running rms after `n` samples is finite and at most 10. -/
theorem C25_block_split (m : Libm F) (s : Dyncomp F) (n k : Nat) (io : Nat → Nat → F)
    (hg : s.igain = s.p_ign) (hr : s.ratio = s.p_rat)
    (hf1 : m.isfinite (Dyncomp_at m s io n).za1 = true)
    (hf2 : m.isfinite (Dyncomp_at m s io (n + k)).za1 = true) :
    (∀ i l, l < n → (Dyncomp_process m s (n + k) io).2 i l = (Dyncomp_process m s n io).2 i l) ∧
    (∀ i l, (Dyncomp_process m s (n + k) io).2 i (n + l) =
      (Dyncomp_process m (Dyncomp_process m s n io).1 k
        (fun i l => (Dyncomp_process m s n io).2 i (n + l))).2 i l) ∧
    (Dyncomp_process m (Dyncomp_process m s n io).1 k
        (fun i l => (Dyncomp_process m s n io).2 i (n + l))).1.za1 =
      (Dyncomp_process m s (n + k) io).1.za1 ∧
    (Dyncomp_process m (Dyncomp_process m s n io).1 k
        (fun i l => (Dyncomp_process m s n io).2 i (n + l))).1.zr1 =
      (Dyncomp_process m s (n + k) io).1.zr1 ∧
    (Dyncomp_process m (Dyncomp_process m s n io).1 k
        (fun i l => (Dyncomp_process m s n io).2 i (n + l))).1.zr2 =
      (Dyncomp_process m s (n + k) io).1.zr2 ∧
    (Dyncomp_process m (Dyncomp_process m s n io).1 k
        (fun i l => (Dyncomp_process m s n io).2 i (n + l))).1.gmin =
      (Dyncomp_process m s (n + k) io).1.gmin ∧
    (Dyncomp_process m (Dyncomp_process m s n io).1 k
        (fun i l => (Dyncomp_process m s n io).2 i (n + l))).1.gmax =
      (Dyncomp_process m s (n + k) io).1.gmax ∧
    (Dyncomp_process m (Dyncomp_process m s n io).1 k
        (fun i l => (Dyncomp_process m s n io).2 i (n + l))).1.igain =
      (Dyncomp_process m s (n + k) io).1.igain ∧
    (Dyncomp_process m (Dyncomp_process m s n io).1 k
        (fun i l => (Dyncomp_process m s n io).2 i (n + l))).1.ratio =
      (Dyncomp_process m s (n + k) io).1.ratio ∧
    (Dyncomp_process m (Dyncomp_process m s n io).1 k
        (fun i l => (Dyncomp_process m s n io).2 i (n + l))).1.newg =
      (Dyncomp_process m s (n + k) io).1.newg ∧
    (Dyncomp_at m (Dyncomp_process m s n io).1
        (fun i l => (Dyncomp_process m s n io).2 i (n + l)) k).rms =
      (Dyncomp_at m s io (n + k)).rms +
        (1 - s.w_rms) ^ k * ((Dyncomp_process m s n io).1.rms - (Dyncomp_at m s io n).rms) ∧
    (m.isfinite (Dyncomp_at m s io n).rms = true → (Dyncomp_at m s io n).rms ≤ 10 →
      (Dyncomp_process m s n io).1.rms - (Dyncomp_at m s io n).rms =
        m.tofloat ((Dyncomp_at m s io n).rms + 1 / 1000000000000) -
          (Dyncomp_at m s io n).rms ∧
      (m.tofloat ((Dyncomp_at m s io n).rms + 1 / 1000000000000) =
          (Dyncomp_at m s io n).rms + 1 / 1000000000000 →
        (Dyncomp_process m s n io).1.rms - (Dyncomp_at m s io n).rms =
          1 / 1000000000000)) := by
  have hat := at_split m s n k io hg hr hf1
  have hza : (Dyncomp_at m (Dyncomp_process m s n io).1
      (fun i l => (Dyncomp_process m s n io).2 i (n + l)) k).za1 =
      (Dyncomp_at m s io (n + k)).za1 := by rw [hat]; rfl
  have hf3 : m.isfinite (Dyncomp_at m (Dyncomp_process m s n io).1
      (fun i l => (Dyncomp_process m s n io).2 i (n + l)) k).za1 = true := by
    rw [hza]; exact hf2
  obtain ⟨a1, a2, a3, a4, a5⟩ := process_finite m s (n + k) io hf2
  obtain ⟨b1, b2, b3, b4, b5⟩ := process_finite m (Dyncomp_process m s n io).1 k
    (fun i l => (Dyncomp_process m s n io).2 i (n + l)) hf3
  obtain ⟨c1, c2⟩ := process_smoothed m s (n + k) io
  obtain ⟨d1, d2⟩ := process_smoothed m (Dyncomp_process m s n io).1 k
    (fun i l => (Dyncomp_process m s n io).2 i (n + l))
  refine ⟨?_, ?_, ?_, ?_, ?_, ?_, ?_, ?_, ?_, ?_, ?_, ?_⟩
  · intro i l hl
    have h1 := loop_io m s (Dyncomp_dg s) (Dyncomp_dr s) (Dyncomp_locals s io) (n + k) i l
    have h2 := loop_io m s (Dyncomp_dg s) (Dyncomp_dr s) (Dyncomp_locals s io) n i l
    have h1' : (Dyncomp_process m s (n + k) io).2 i l = _ := h1
    have h2' : (Dyncomp_process m s n io).2 i l = _ := h2
    rw [h1', h2']
    have hl' : l < n + k := Nat.lt_of_lt_of_le hl (Nat.le_add_right n k)
    simp only [hl, hl', true_and]
  · intro i l
    have h : (Dyncomp_process m (Dyncomp_process m s n io).1 k
        (fun i l => (Dyncomp_process m s n io).2 i (n + l))).2 =
        (Dyncomp_at m (Dyncomp_process m s n io).1
          (fun i l => (Dyncomp_process m s n io).2 i (n + l)) k).io := rfl
    rw [h, hat]
    rfl
  · rw [b1, a1, hza]
  · rw [b2, a2, hat]; rfl
  · rw [b3, a3, hat]; rfl
  · rw [b5, a5, hat]; rfl
  · rw [b4, a4, hat]; rfl
  · rw [d1, c1, hat]; rfl
  · rw [d2, c2, hat]; rfl
  · rw [process_newg _ _ _ _ hf3, process_newg _ _ _ _ hf2]
  · rw [hat]
  · intro hfin hle
    rw [process_rms, hfin, if_neg (by decide), if_neg (not_lt.mpr hle)]
    refine ⟨rfl, fun hx => ?_⟩
    rw [hx]
    ring

/-- C25 witness: the scenario engine, two samples of value 1 processed as
`1 + 1` and as one block of 2: the stored `za1` is the same. -/
theorem C25_block_split_witness :
    (Dyncomp_process
      (Libm.mk Real.log Real.exp (fun x => (10 : ℝ) ^ x) (Real.logb 10) (fun _ => true) fl32)
      (Dyncomp_process
        (Libm.mk Real.log Real.exp (fun x => (10 : ℝ) ^ x) (Real.logb 10) (fun _ => true) fl32)
        Dyncomp_scenario 1 (fun _ _ => 1)).1 1
      (fun i l => (Dyncomp_process
        (Libm.mk Real.log Real.exp (fun x => (10 : ℝ) ^ x) (Real.logb 10) (fun _ => true) fl32)
        Dyncomp_scenario 1 (fun _ _ => 1)).2 i (1 + l))).1.za1 =
    (Dyncomp_process
      (Libm.mk Real.log Real.exp (fun x => (10 : ℝ) ^ x) (Real.logb 10) (fun _ => true) fl32)
      Dyncomp_scenario (1 + 1) (fun _ _ => 1)).1.za1 :=
  (C25_block_split
    (Libm.mk Real.log Real.exp (fun x => (10 : ℝ) ^ x) (Real.logb 10) (fun _ => true) fl32)
    Dyncomp_scenario 1 1 (fun _ _ => 1) rfl rfl rfl rfl).2.2.1

/-! ## The transfer curve of the GUI (C26) -/

/-- The table read at the three logarithmic rows and the two linear ones. -/
theorem ctrl_range_rows :
    (ctrl_range 0 : CtrlRange F).log = false ∧ (ctrl_range 0 : CtrlRange F).min = -10 ∧
      (ctrl_range 0 : CtrlRange F).max = 30 ∧
    (ctrl_range 1 : CtrlRange F).log = false ∧ (ctrl_range 1 : CtrlRange F).min = -50 ∧
      (ctrl_range 1 : CtrlRange F).max = -10 ∧
    (ctrl_range 2 : CtrlRange F).log = true ∧ (ctrl_range 2 : CtrlRange F).min = 0 ∧
      (ctrl_range 2 : CtrlRange F).max = 1 ∧ (ctrl_range 2 : CtrlRange F).step = 72 ∧
    (ctrl_range 3 : CtrlRange F).log = true ∧ (ctrl_range 3 : CtrlRange F).min = 1 / 1000 ∧
      (ctrl_range 3 : CtrlRange F).max = 1 / 10 ∧ (ctrl_range 3 : CtrlRange F).step = 100 ∧
    (ctrl_range 4 : CtrlRange F).log = true ∧ (ctrl_range 4 : CtrlRange F).min = 3 / 100 ∧
      (ctrl_range 4 : CtrlRange F).max = 3 ∧ (ctrl_range 4 : CtrlRange F).step = 100 :=
  ⟨rfl, rfl, rfl, rfl, rfl, rfl, rfl, rfl, rfl, rfl, rfl, rfl, rfl, rfl, rfl, rfl, rfl, rfl⟩

/-- The logarithmic knob law `exp (ln mn + k * ln (mx / mn) / st)` is inverted
by `st / ln (mx / mn) * ln (v / mn)`, and maps `[0, st]` into `[mn, mx]`. -/
theorem log_row_roundtrip (mn mx st : ℝ) (hmn : 0 < mn) (hlt : mn < mx) (hst : 0 < st)
    (k : ℝ) :
    st / Real.log (mx / mn) *
        Real.log (Real.exp (Real.log mn + k * Real.log (mx / mn) / st) / mn) = k ∧
    (0 ≤ k → k ≤ st →
      mn ≤ Real.exp (Real.log mn + k * Real.log (mx / mn) / st) ∧
      Real.exp (Real.log mn + k * Real.log (mx / mn) / st) ≤ mx) := by
  have hr : 0 < Real.log (mx / mn) := Real.log_pos ((one_lt_div hmn).mpr hlt)
  have hmx : 0 < mx := lt_trans hmn hlt
  constructor
  · rw [Real.log_div (Real.exp_ne_zero _) (ne_of_gt hmn), Real.log_exp]
    field_simp
    ring
  · intro h0 h1
    constructor
    · calc mn = Real.exp (Real.log mn) := (Real.exp_log hmn).symm
        _ ≤ _ := Real.exp_le_exp.mpr (by
            have : 0 ≤ k * Real.log (mx / mn) / st :=
              div_nonneg (mul_nonneg h0 (le_of_lt hr)) (le_of_lt hst)
            linarith)
    · calc Real.exp (Real.log mn + k * Real.log (mx / mn) / st)
          ≤ Real.exp (Real.log mn + Real.log (mx / mn)) := Real.exp_le_exp.mpr (by
            have : k * Real.log (mx / mn) / st ≤ Real.log (mx / mn) := by
              rw [div_le_iff₀ hst]
              nlinarith
            linarith)
        _ = mx := by
            rw [Real.log_div (ne_of_gt hmx) (ne_of_gt hmn), add_sub_cancel, Real.exp_log hmx]

/-- The round trip of a linear control. -/
theorem knob_linear (m : Libm ℝ) (sqrt : ℝ → ℝ) (c : Fin 5) (k : ℝ)
    (hrow : (ctrl_range c : CtrlRange ℝ).log = false)
    (hmin : k_min c ≤ k) (hmax : k ≤ k_max c) :
    ctrl_to_gui m c (gui_to_ctrl m sqrt c k) = k ∧
    (ctrl_range c : CtrlRange ℝ).min ≤ gui_to_ctrl m sqrt c k ∧
    gui_to_ctrl m sqrt c k ≤ (ctrl_range c : CtrlRange ℝ).max := by
  simp only [ctrl_to_gui, gui_to_ctrl, k_min, k_max, hrow, Bool.not_false, if_true]
    at hmin hmax ⊢
  exact ⟨trivial, hmin, hmax⟩

/-- The round trip of the control with the square-root law (`min = 0`), in
exact arithmetic. -/
theorem knob_sqrt (m : Libm ℝ) (sqrt : ℝ → ℝ) (c : Fin 5) (k : ℝ)
    (hsqrt : ∀ x, sqrt x = Real.sqrt x) (hex : ∀ x, m.tofloat x = x)
    (hrow : (ctrl_range c : CtrlRange ℝ).log = true)
    (h0 : (ctrl_range c : CtrlRange ℝ).min = 0) (h1 : (ctrl_range c : CtrlRange ℝ).max = 1)
    (hst : 0 < (ctrl_range c : CtrlRange ℝ).step)
    (hmin : k_min c ≤ k) (hmax : k ≤ k_max c) :
    ctrl_to_gui m c (gui_to_ctrl m sqrt c k) = k ∧
    (ctrl_range c : CtrlRange ℝ).min ≤ gui_to_ctrl m sqrt c k ∧
    gui_to_ctrl m sqrt c k ≤ (ctrl_range c : CtrlRange ℝ).max := by
  simp only [ctrl_to_gui, gui_to_ctrl, k_min, k_max, hrow, Bool.not_true, Bool.false_eq_true,
    if_false, h0, if_true, h1, hsqrt, hex] at hmin hmax ⊢
  have hk : 0 ≤ k / (ctrl_range c : CtrlRange ℝ).step := div_nonneg hmin (le_of_lt hst)
  refine ⟨?_, Real.sqrt_nonneg _, ?_⟩
  · rw [Real.mul_self_sqrt hk]
    field_simp
  · rw [Real.sqrt_le_one]
    exact (div_le_one hst).mpr hmax

/-- The round trip of a control with the logarithmic law, at an integer knob
position, in exact arithmetic. -/
theorem knob_log (m : Libm ℝ) (sqrt : ℝ → ℝ) (c : Fin 5) (k : ℝ)
    (hlog : ∀ x, m.logf x = Real.log x) (hexp : ∀ x, m.expf x = Real.exp x)
    (hex : ∀ x, m.tofloat x = x)
    (hrow : (ctrl_range c : CtrlRange ℝ).log = true)
    (h0 : 0 < (ctrl_range c : CtrlRange ℝ).min)
    (h1 : (ctrl_range c : CtrlRange ℝ).min < (ctrl_range c : CtrlRange ℝ).max)
    (hst : 0 < (ctrl_range c : CtrlRange ℝ).step)
    (hmin : k_min c ≤ k) (hmax : k ≤ k_max c) (hgrid : ∃ z : Int, k = (z : ℝ)) :
    ctrl_to_gui m c (gui_to_ctrl m sqrt c k) = k ∧
    (ctrl_range c : CtrlRange ℝ).min ≤ gui_to_ctrl m sqrt c k ∧
    gui_to_ctrl m sqrt c k ≤ (ctrl_range c : CtrlRange ℝ).max := by
  simp only [ctrl_to_gui, gui_to_ctrl, k_min, k_max, hrow, Bool.not_true, Bool.false_eq_true,
    if_false, if_neg (ne_of_gt h0), hlog, hexp, hex] at hmin hmax ⊢
  obtain ⟨e, hr⟩ := log_row_roundtrip _ _ _ h0 h1 hst k
  obtain ⟨z, hz⟩ := hgrid
  refine ⟨?_, hr hmin hmax⟩
  rw [e, hz, rintf_intCast]

/-- `ctrl_to_gui` of a control with the logarithmic law returns the integer
`z` whenever the value it passes to `rintf` is within `1/2` of `z`, whatever
the rounding `m.tofloat` of the operations is. -/
theorem knob_log_rint (m : Libm ℝ) (c : Fin 5) (v : ℝ) (z : Int)
    (hrow : (ctrl_range c : CtrlRange ℝ).log = true)
    (h0 : 0 < (ctrl_range c : CtrlRange ℝ).min)
    (h : |m.tofloat (m.tofloat ((ctrl_range c : CtrlRange ℝ).step /
          m.tofloat (m.logf (m.tofloat
            ((ctrl_range c : CtrlRange ℝ).max / (ctrl_range c : CtrlRange ℝ).min)))) *
        m.tofloat (m.logf (m.tofloat (v / (ctrl_range c : CtrlRange ℝ).min)))) - (z : ℝ)| <
      1 / 2) :
    ctrl_to_gui m c v = (z : ℝ) := by
  simp only [ctrl_to_gui, hrow, Bool.not_true, Bool.false_eq_true, if_false,
    if_neg (ne_of_gt h0)]
  exact rintf_near _ z h

/-- Two positive numbers within the relative distance `c <= 1/2` have
logarithms within `2 * c`. -/
theorem log_near (a b c : ℝ) (hb : 0 < b) (hc0 : 0 ≤ c) (hc1 : c ≤ 1 / 2)
    (h : |a - b| ≤ c * b) : |Real.log a - Real.log b| ≤ 2 * c := by
  obtain ⟨h1, h2⟩ := abs_le.mp h
  have ha : 0 < a := by nlinarith
  have hx : 0 < a / b := div_pos ha hb
  have e : Real.log a - Real.log b = Real.log (a / b) := by
    rw [Real.log_div (ne_of_gt ha) (ne_of_gt hb)]
  rw [e, abs_le]
  constructor
  · have l1 := Real.one_sub_inv_le_log_of_pos hx
    have e2 : 1 - (a / b)⁻¹ = (a - b) / a := by
      field_simp
    rw [e2] at l1
    have l2 : -(2 * c) ≤ (a - b) / a := by
      rw [le_div_iff₀ ha]
      nlinarith
    linarith
  · have l1 := Real.log_le_sub_one_of_pos hx
    have e2 : a / b - 1 = (a - b) / b := by
      field_simp
    rw [e2] at l1
    have l2 : (a - b) / b ≤ c := by
      rw [div_le_iff₀ hb]
      linarith
    linarith

/-- Two numbers within the distance `e <= 1` have exponentials within the
relative distance `2 * e`. -/
theorem exp_near (s t e : ℝ) (he : e ≤ 1) (h : |s - t| ≤ e) :
    |Real.exp s - Real.exp t| ≤ 2 * e * Real.exp t := by
  have hpos := Real.exp_pos t
  have e1 : Real.exp s - Real.exp t = Real.exp t * (Real.exp (s - t) - 1) := by
    rw [mul_sub, mul_one, ← Real.exp_add]
    congr 2
    ring
  have h2 := Real.abs_exp_sub_one_le (le_trans h he)
  rw [e1, abs_mul, abs_of_pos hpos]
  have : |Real.exp (s - t) - 1| ≤ 2 * e := by linarith
  nlinarith

/-- The ratio `max / min` of the attack and of the release control is 100, and
`ln 100` lies between 4 and 5. -/
theorem log_hundred : 4 < Real.log 100 ∧ Real.log 100 < 5 := by
  have h1 := Real.exp_one_lt_d9
  have h2 := Real.exp_one_gt_d9
  have e0 : (0 : ℝ) < Real.exp 1 := Real.exp_pos 1
  constructor
  · rw [Real.lt_log_iff_exp_lt (by norm_num)]
    have : Real.exp 4 = Real.exp 1 ^ 4 := by
      rw [← Real.exp_nat_mul]; norm_num
    rw [this]
    have h3 : Real.exp 1 ^ 4 < 3 ^ 4 := pow_lt_pow_left₀ (by linarith) (le_of_lt e0) (by norm_num)
    linarith
  · rw [Real.log_lt_iff_lt_exp (by norm_num)]
    have : Real.exp 5 = Real.exp 1 ^ 5 := by
      rw [← Real.exp_nat_mul]; norm_num
    rw [this]
    have h3 : (2.7 : ℝ) ^ 5 < Real.exp 1 ^ 5 :=
      pow_lt_pow_left₀ (by linarith) (by norm_num) (by norm_num)
    have h4 : (100 : ℝ) < 2.7 ^ 5 := by norm_num
    linarith

/-- The logarithm of a control minimum between `2^-10` and 1 lies in
`[-7, 0]`. -/
theorem log_knob_min (mn : ℝ) (h1 : 1 / 1024 ≤ mn) (h2 : mn ≤ 1) :
    -7 ≤ Real.log mn ∧ Real.log mn ≤ 0 := by
  have hpos : 0 < mn := lt_of_lt_of_le (by norm_num) h1
  constructor
  · have h3 : Real.log (1 / 1024) ≤ Real.log mn := Real.log_le_log (by norm_num) h1
    have h4 : Real.log (1 / 1024 : ℝ) = -(10 * Real.log 2) := by
      rw [one_div, Real.log_inv]
      have : (1024 : ℝ) = 2 ^ 10 := by norm_num
      rw [this, Real.log_pow]
      norm_num
    have h5 := Real.log_two_lt_d9
    linarith
  · exact Real.log_nonpos (le_of_lt hpos) h2

/-- The triangle inequality for two error bounds. -/
theorem abs_tri (x y z e1 e2 : ℝ) (h1 : |x - y| ≤ e1) (h2 : |y - z| ≤ e2) :
    |x - z| ≤ e1 + e2 := by
  have := abs_sub_le x y z
  linarith

/-- The error of a product of two approximated factors. -/
theorem mul_err (g w G W eg ew Bg BW : ℝ) (hg : |g - G| ≤ eg) (hw : |w - W| ≤ ew)
    (hgB : |g| ≤ Bg) (hWB : |W| ≤ BW) : |g * w - G * W| ≤ Bg * ew + BW * eg := by
  have e : g * w - G * W = g * (w - W) + W * (g - G) := by ring
  rw [e]
  have h1 : |g * (w - W)| ≤ Bg * ew := by
    rw [abs_mul]
    exact mul_le_mul hgB hw (abs_nonneg _) (le_trans (abs_nonneg _) hgB)
  have h2 : |W * (g - G)| ≤ BW * eg := by
    rw [abs_mul]
    exact mul_le_mul hWB hg (abs_nonneg _) (le_trans (abs_nonneg _) hWB)
  have := abs_add (g * (w - W)) (W * (g - G))
  linarith

/-- The divisor `r = logf (max / min)` of the logarithmic knobs, computed with
operations of relative error `d`, is within `19 * d` of `ln 100`. -/
theorem knob_float_divisor (T lg : ℝ → ℝ) (d : ℝ) (hd0 : 0 < d) (hd1 : d ≤ 1 / 1000000)
    (HT : ∀ x B : ℝ, |x| ≤ B → |T x - x| ≤ (B + 1) * d)
    (HL : ∀ x B : ℝ, 0 < x → |Real.log x| ≤ B → |lg x - Real.log x| ≤ (B + 1) * d) :
    |T (lg (T 100)) - Real.log 100| ≤ 19 * d := by
  obtain ⟨hL1, hL2⟩ := log_hundred
  have q1 : |T 100 - 100| ≤ 101 * d := by
    have := HT 100 100 (by norm_num [abs_of_pos])
    linarith
  generalize T 100 = q at q1 ⊢
  obtain ⟨q1a, q1b⟩ := abs_le.mp q1
  have q0 : 0 < q := by linarith
  have lq : |Real.log q - Real.log 100| ≤ 4 * d := by
    have := log_near q 100 (2 * d) (by norm_num) (by linarith) (by linarith) (by linarith)
    linarith
  obtain ⟨lq1, lq2⟩ := abs_le.mp lq
  have lgq : |lg q - Real.log q| ≤ 7 * d := by
    have := HL q 6 q0 (abs_le.mpr ⟨by linarith, by linarith⟩)
    linarith
  obtain ⟨lgq1, lgq2⟩ := abs_le.mp lgq
  have r1 : |T (lg q) - lg q| ≤ 8 * d := by
    have := HT (lg q) 7 (abs_le.mpr ⟨by linarith, by linarith⟩)
    linarith
  obtain ⟨r1a, r1b⟩ := abs_le.mp r1
  exact abs_le.mpr ⟨by linarith, by linarith⟩

/-- The factor `step / r` of `ctrl_to_gui`, computed with operations of
relative error `d`. -/
theorem knob_float_factor (T : ℝ → ℝ) (d r L : ℝ) (hd0 : 0 < d) (hd1 : d ≤ 1 / 1000000)
    (HT : ∀ x B : ℝ, |x| ≤ B → |T x - x| ≤ (B + 1) * d)
    (hL1 : 4 < L) (rL : |r - L| ≤ 19 * d) :
    |T (100 / r) - 100 / L| ≤ 157 * d ∧ |T (100 / r)| ≤ 27 := by
  obtain ⟨rL1, rL2⟩ := abs_le.mp rL
  have r39 : 39 / 10 < r := by linarith
  have r0 : 0 < r := by linarith
  have hL0 : 0 < L := by linarith
  have hG : |100 / r - 100 / L| ≤ 130 * d := by
    have e : 100 / r - 100 / L = 100 * (L - r) / (r * L) := by
      field_simp
      ring
    have hrl : 0 < r * L := mul_pos r0 hL0
    have hrl2 : 15 ≤ r * L := by nlinarith
    have hrl3 : d * 15 ≤ d * (r * L) := mul_le_mul_of_nonneg_left hrl2 (le_of_lt hd0)
    rw [e, abs_le]
    constructor
    · rw [le_div_iff₀ hrl]
      linarith
    · rw [div_le_iff₀ hrl]
      linarith
  have hGB : |100 / r| ≤ 26 := by
    rw [abs_of_pos (div_pos (by norm_num) r0), div_le_iff₀ r0]
    linarith
  have g1 : |T (100 / r) - 100 / r| ≤ 27 * d := by
    have := HT (100 / r) 26 hGB
    linarith
  constructor
  · have := abs_tri _ _ _ _ _ g1 hG
    linarith
  · have h1 := abs_le.mp g1
    have h2 := abs_le.mp hGB
    exact abs_le.mpr ⟨by linarith, by linarith⟩

/-- The exponent `logf (min) + k * r / step` of `gui_to_ctrl`, computed with
operations of relative error `d`. -/
theorem knob_float_exponent (T lg : ℝ → ℝ) (d mn k r L : ℝ) (hd0 : 0 < d)
    (hd1 : d ≤ 1 / 1000000)
    (HT : ∀ x B : ℝ, |x| ≤ B → |T x - x| ≤ (B + 1) * d)
    (HL : ∀ x B : ℝ, 0 < x → |Real.log x| ≤ B → |lg x - Real.log x| ≤ (B + 1) * d)
    (hmn1 : 1 / 1024 ≤ mn) (hmn2 : mn ≤ 1) (hk0 : 0 ≤ k) (hk1 : k ≤ 100)
    (hL1 : 4 < L) (hL2 : L < 5) (rL : |r - L| ≤ 19 * d) :
    |T (T (lg mn) + T (T (k * r) / 100)) - (Real.log mn + k * L / 100)| ≤ 63 * d := by
  obtain ⟨hm1, hm2⟩ := log_knob_min mn hmn1 hmn2
  have hmn0 : 0 < mn := lt_of_lt_of_le (by norm_num) hmn1
  have hL0 : 0 < L := by linarith
  have a1 : |lg mn - Real.log mn| ≤ 8 * d := by
    have := HL mn 7 hmn0 (abs_le.mpr ⟨by linarith, by linarith⟩)
    linarith
  have a2 : |T (lg mn) - lg mn| ≤ 9 * d := by
    have h := abs_le.mp a1
    have := HT (lg mn) 8 (abs_le.mpr ⟨by linarith, by linarith⟩)
    linarith
  have a3 : |T (lg mn) - Real.log mn| ≤ 17 * d := by
    have := abs_tri _ _ _ _ _ a2 a1
    linarith
  generalize T (lg mn) = a at a3 ⊢
  clear a1 a2
  have t0 : |k * r - k * L| ≤ 1900 * d := by
    have e : k * r - k * L = k * (r - L) := by ring
    rw [e, abs_mul, abs_of_nonneg hk0]
    calc k * |r - L| ≤ 100 * (19 * d) :=
          mul_le_mul hk1 rL (abs_nonneg _) (by norm_num)
      _ = 1900 * d := by ring
  have kL0 : 0 ≤ k * L := mul_nonneg hk0 (le_of_lt hL0)
  have kL1 : k * L ≤ 500 := by nlinarith
  have t1 : |T (k * r) - k * r| ≤ 502 * d := by
    have h := abs_le.mp t0
    have := HT (k * r) 501 (abs_le.mpr ⟨by linarith, by linarith⟩)
    linarith
  have t2 : |T (k * r) - k * L| ≤ 2402 * d := by
    have := abs_tri _ _ _ _ _ t1 t0
    linarith
  generalize T (k * r) = t at t2 ⊢
  clear t0 t1
  have b0 : |t / 100 - k * L / 100| ≤ 25 * d := by
    have e : t / 100 - k * L / 100 = (t - k * L) / 100 := by ring
    rw [e, abs_div, abs_of_pos (by norm_num : (0 : ℝ) < 100), div_le_iff₀ (by norm_num)]
    linarith
  have b1 : |T (t / 100) - t / 100| ≤ 7 * d := by
    have h := abs_le.mp b0
    have := HT (t / 100) 6 (abs_le.mpr ⟨by linarith, by linarith⟩)
    linarith
  have b2 : |T (t / 100) - k * L / 100| ≤ 32 * d := by
    have := abs_tri _ _ _ _ _ b1 b0
    linarith
  generalize T (t / 100) = b at b2 ⊢
  clear b0 b1 t2
  have s0 : |a + b - (Real.log mn + k * L / 100)| ≤ 49 * d := by
    have e : a + b - (Real.log mn + k * L / 100) = (a - Real.log mn) + (b - k * L / 100) := by
      ring
    rw [e]
    have := abs_add (a - Real.log mn) (b - k * L / 100)
    linarith
  have s1 : |T (a + b) - (a + b)| ≤ 14 * d := by
    have h := abs_le.mp s0
    have := HT (a + b) 13 (abs_le.mpr ⟨by linarith, by linarith⟩)
    linarith
  have := abs_tri _ _ _ _ _ s1 s0
  linarith

/-- A value computed with relative error `c * d` from `E >= 2^-40`, rounded
with relative error `d`, is within `(c + 3) * d * E` of `E`. -/
theorem knob_float_round (T : ℝ → ℝ) (d x E c : ℝ) (hd0 : 0 < d) (hd1 : d ≤ 1 / 1000000)
    (HTR : ∀ x : ℝ, 1 / 2 ^ 80 ≤ x → |T x - x| ≤ 2 * d * x)
    (hE : 1 / 2 ^ 40 ≤ E) (hc0 : 0 ≤ c) (hc : c ≤ 1000) (h : |x - E| ≤ c * d * E) :
    |T x - E| ≤ (c + 3) * d * E := by
  have hE0 : 0 < E := lt_of_lt_of_le (by norm_num) hE
  have hdE1 : d * E ≤ 1 / 1000000 * E := mul_le_mul_of_nonneg_right hd1 (le_of_lt hE0)
  have hdE0 : 0 < d * E := mul_pos hd0 hE0
  have hcd : c * (d * E) ≤ 1000 * (d * E) := mul_le_mul_of_nonneg_right hc (le_of_lt hdE0)
  have hcd0 : 0 ≤ c * (d * E) := mul_nonneg hc0 (le_of_lt hdE0)
  have h' : |x - E| ≤ c * (d * E) := by rw [← mul_assoc]; exact h
  obtain ⟨ha, hb⟩ := abs_le.mp h'
  have hx : 1 / 2 ^ 80 ≤ x := by
    have : (1 : ℝ) / 2 ^ 80 ≤ 1 / 2 * (1 / 2 ^ 40) := by norm_num
    linarith
  have h1 := HTR x hx
  have h2 : x ≤ 3 / 2 * E := by linarith
  have h3 : d * x ≤ d * (3 / 2 * E) := mul_le_mul_of_nonneg_left h2 (le_of_lt hd0)
  have h4 : |T x - x| ≤ 3 * (d * E) := by linarith
  have := abs_tri _ _ _ _ _ h4 h'
  calc |T x - E| ≤ 3 * (d * E) + c * (d * E) := this
    _ = (c + 3) * d * E := by ring

/-- The logarithm `logf (v / min)` of `ctrl_to_gui` at the control value
`v = expf (s)` of `gui_to_ctrl`, computed with operations of relative error
`d`, for an exponent `s` within `63 * d` of `ln (min) + w`. -/
theorem knob_float_log (T lg ex : ℝ → ℝ) (d mn s w : ℝ) (hd0 : 0 < d) (hd1 : d ≤ 1 / 1000000)
    (HT : ∀ x B : ℝ, |x| ≤ B → |T x - x| ≤ (B + 1) * d)
    (HTR : ∀ x : ℝ, 1 / 2 ^ 80 ≤ x → |T x - x| ≤ 2 * d * x)
    (HL : ∀ x B : ℝ, 0 < x → |Real.log x| ≤ B → |lg x - Real.log x| ≤ (B + 1) * d)
    (HE : ∀ x : ℝ, |ex x - Real.exp x| ≤ d * Real.exp x)
    (hmn1 : 1 / 1024 ≤ mn) (hw0 : 0 ≤ w) (hw1 : w ≤ 5)
    (hs : |s - (Real.log mn + w)| ≤ 63 * d) :
    |T (lg (T (T (ex s) / mn))) - w| ≤ 283 * d := by
  have hmn0 : 0 < mn := lt_of_lt_of_le (by norm_num) hmn1
  have hE : Real.exp (Real.log mn + w) = mn * Real.exp w := by
    rw [Real.exp_add, Real.exp_log hmn0]
  have hEk1 : 1 ≤ Real.exp w := Real.one_le_exp hw0
  have hEk0 : 0 < Real.exp w := Real.exp_pos _
  have hlogEk : Real.log (Real.exp w) = w := Real.log_exp w
  have v0 : |Real.exp s - mn * Real.exp w| ≤ 126 * d * (mn * Real.exp w) := by
    have := exp_near s (Real.log mn + w) (63 * d) (by linarith) hs
    rw [hE] at this
    linarith
  generalize Real.exp w = Ek at *
  generalize hEm : mn * Ek = Em at v0
  have hEm0 : 0 < Em := by rw [← hEm]; exact mul_pos hmn0 hEk0
  have hEm1 : 1 / 1024 ≤ Em := by
    rw [← hEm]
    calc (1 : ℝ) / 1024 = 1 / 1024 * 1 := by ring
      _ ≤ mn * Ek := mul_le_mul hmn1 hEk1 (by norm_num) (le_of_lt hmn0)
  have hdE1 : d * Em ≤ 1 / 1000000 * Em := mul_le_mul_of_nonneg_right hd1 (le_of_lt hEm0)
  have hdE0 : 0 < d * Em := mul_pos hd0 hEm0
  have v1 : |ex s - Real.exp s| ≤ 2 * d * Em := by
    obtain ⟨v0a, v0b⟩ := abs_le.mp v0
    have h := HE s
    have h2 : Real.exp s ≤ 2 * Em := by linarith
    have : d * Real.exp s ≤ d * (2 * Em) := mul_le_mul_of_nonneg_left h2 (le_of_lt hd0)
    linarith
  have v2 : |ex s - Em| ≤ 128 * d * Em := by
    have := abs_tri _ _ _ _ _ v1 v0
    linarith
  have v4 : |T (ex s) - Em| ≤ (128 + 3) * d * Em :=
    knob_float_round T d (ex s) Em 128 hd0 hd1 HTR (le_trans (by norm_num) hEm1) (by norm_num)
      (by norm_num) v2
  generalize T (ex s) = v at v4 ⊢
  clear v0 v1 v2 hs hE
  have u0 : |v / mn - Ek| ≤ 131 * d * Ek := by
    have e : v / mn - Ek = (v - Em) / mn := by
      rw [← hEm]; field_simp
    rw [e, abs_div, abs_of_pos hmn0, div_le_iff₀ hmn0]
    have : 131 * d * Ek * mn = (128 + 3) * d * Em := by rw [← hEm]; ring
    rw [this]
    exact v4
  have u2 : |T (v / mn) - Ek| ≤ (131 + 3) * d * Ek :=
    knob_float_round T d (v / mn) Ek 131 hd0 hd1 HTR (le_trans (by norm_num) hEk1)
      (by norm_num) (by norm_num) u0
  generalize T (v / mn) = u at u2 ⊢
  clear u0 v4
  have l0 : |Real.log u - Real.log Ek| ≤ 268 * d := by
    have := log_near u Ek (134 * d) hEk0 (by linarith) (by linarith) (by linarith)
    linarith
  rw [hlogEk] at l0
  obtain ⟨l0a, l0b⟩ := abs_le.mp l0
  have hu0 : 0 < u := by
    obtain ⟨a, b⟩ := abs_le.mp u2
    have hdEk1 : d * Ek ≤ 1 / 1000000 * Ek := mul_le_mul_of_nonneg_right hd1 (le_of_lt hEk0)
    linarith
  have l1 : |lg u - Real.log u| ≤ 7 * d := by
    have := HL u 6 hu0 (abs_le.mpr ⟨by linarith, by linarith⟩)
    linarith
  obtain ⟨l1a, l1b⟩ := abs_le.mp l1
  have l2 : |T (lg u) - lg u| ≤ 8 * d := by
    have := HT (lg u) 7 (abs_le.mpr ⟨by linarith, by linarith⟩)
    linarith
  obtain ⟨l2a, l2b⟩ := abs_le.mp l2
  exact abs_le.mpr ⟨by linarith, by linarith⟩

/-- The round trip of a logarithmic knob in approximate arithmetic. With the
libm functions and the rounding of each operation accurate to the relative
error `d <= 1e-6`, the number that `ctrl_to_gui` passes to `rintf` at the
control value `gui_to_ctrl (k)` is within `9000 * d` of `k`. -/
theorem knob_float_core (T lg ex : ℝ → ℝ) (d mn k : ℝ) (hd0 : 0 < d) (hd1 : d ≤ 1 / 1000000)
    (HT : ∀ x B : ℝ, |x| ≤ B → |T x - x| ≤ (B + 1) * d)
    (HTR : ∀ x : ℝ, 1 / 2 ^ 80 ≤ x → |T x - x| ≤ 2 * d * x)
    (HL : ∀ x B : ℝ, 0 < x → |Real.log x| ≤ B → |lg x - Real.log x| ≤ (B + 1) * d)
    (HE : ∀ x : ℝ, |ex x - Real.exp x| ≤ d * Real.exp x)
    (hmn1 : 1 / 1024 ≤ mn) (hmn2 : mn ≤ 1) (hk0 : 0 ≤ k) (hk1 : k ≤ 100) :
    |T (T (100 / T (lg (T 100))) *
        T (lg (T (T (ex (T (T (lg mn) + T (T (k * T (lg (T 100))) / 100)))) / mn)))) - k| ≤
      9000 * d := by
  obtain ⟨hL1, hL2⟩ := log_hundred
  have rL := knob_float_divisor T lg d hd0 hd1 HT HL
  generalize T (lg (T 100)) = r at rL ⊢
  generalize Real.log 100 = L at hL1 hL2 rL
  have hL0 : 0 < L := by linarith
  obtain ⟨gG, gB⟩ := knob_float_factor T d r L hd0 hd1 HT hL1 rL
  have hs := knob_float_exponent T lg d mn k r L hd0 hd1 HT HL hmn1 hmn2 hk0 hk1 hL1 hL2 rL
  generalize T (100 / r) = g at gG gB ⊢
  generalize T (T (lg mn) + T (T (k * r) / 100)) = s at hs ⊢
  have hw0 : 0 ≤ k * L / 100 := by positivity
  have hw1 : k * L / 100 ≤ 5 := by
    rw [div_le_iff₀ (by norm_num)]
    nlinarith
  have hw := knob_float_log T lg ex d mn s (k * L / 100) hd0 hd1 HT HTR HL HE hmn1 hw0 hw1 hs
  generalize T (lg (T (T (ex s) / mn))) = w at hw ⊢
  have hp := mul_err g w (100 / L) (k * L / 100) (157 * d) (283 * d) 27 5 gG hw gB
    (abs_le.mpr ⟨by linarith, hw1⟩)
  have hk : 100 / L * (k * L / 100) = k := by
    field_simp
    ring
  rw [hk] at hp
  obtain ⟨p1, p2⟩ := abs_le.mp hp
  have hx := HT (g * w) 101 (abs_le.mpr ⟨by linarith, by linarith⟩)
  have := abs_tri _ _ _ _ _ hx hp
  linarith

/-- The function `rintf` moves its argument by at most `1/2`. -/
theorem rintf_err [FloorRing F] (y : F) : |rintf y - y| ≤ 1 / 2 := by
  have h1 := Int.floor_le y
  have h2 := Int.lt_floor_add_one y
  unfold rintf
  simp only
  split_ifs with a b c
  · rw [abs_le]; constructor <;> linarith
  · rw [abs_le]; constructor <;> linarith
  · rw [abs_le]; constructor <;> linarith
  · rw [abs_le]; constructor <;> linarith

/-- Rounding to binary32 has a relative error of at most `2^-24`, and below the
normal range an absolute error of at most `2^-150`. -/
theorem fl32_rel [FloorRing F] (x : F) : |fl32 x - x| ≤ |x| / 2 ^ 24 + 1 / 2 ^ 150 := by
  have hq : ∀ e : Int, (0 : F) < (2 : F) ^ e := fun e => zpow_pos (by norm_num) e
  have herr : ∀ e : Int, |rintf (x / (2 : F) ^ e) * (2 : F) ^ e - x| ≤ (2 : F) ^ e / 2 := by
    intro e
    have h := rintf_err (x / (2 : F) ^ e)
    have e1 : rintf (x / (2 : F) ^ e) * (2 : F) ^ e - x =
        (rintf (x / (2 : F) ^ e) - x / (2 : F) ^ e) * (2 : F) ^ e := by
      field_simp
    rw [e1, abs_mul, abs_of_pos (hq e)]
    calc |rintf (x / (2 : F) ^ e) - x / (2 : F) ^ e| * (2 : F) ^ e ≤ 1 / 2 * (2 : F) ^ e :=
          mul_le_mul_of_nonneg_right h (le_of_lt (hq e))
      _ = (2 : F) ^ e / 2 := by ring
  rcases eq_or_ne x 0 with hx0 | hx0
  · rw [hx0, fl32_zero, sub_zero, abs_zero]
    positivity
  unfold fl32
  simp only
  rcases le_or_lt (-126) (Int.log 2 |x|) with hl | hl
  · rw [max_eq_left hl]
    have hpos : 0 < |x| := abs_pos.mpr hx0
    have hlow : (2 : F) ^ (Int.log 2 |x|) ≤ |x| := by
      have := Int.zpow_log_le_self (b := 2) (by norm_num) hpos
      exact_mod_cast this
    have h := herr (Int.log 2 |x| - 23)
    have e2 : (2 : F) ^ (Int.log 2 |x| - 23) / 2 = (2 : F) ^ (Int.log 2 |x|) / 2 ^ 24 := by
      rw [zpow_sub₀ (by norm_num)]
      norm_num
      ring
    rw [e2] at h
    have h3 : (2 : F) ^ (Int.log 2 |x|) / 2 ^ 24 ≤ |x| / 2 ^ 24 :=
      div_le_div_of_nonneg_right hlow (by positivity)
    have h4 : (0 : F) ≤ 1 / 2 ^ 150 := by positivity
    linarith
  · rw [max_eq_right (le_of_lt hl)]
    have h := herr (-126 - 23)
    have e2 : (2 : F) ^ (-126 - 23 : Int) / 2 = 1 / 2 ^ 150 := by
      have : (-126 - 23 : Int) = -(149 : ℕ) := by norm_num
      rw [this, zpow_neg, zpow_natCast]
      field_simp
      norm_num
    rw [e2] at h
    have h4 : (0 : F) ≤ |x| / 2 ^ 24 := by positivity
    linarith

/-- The accuracy hypotheses on the operations, in the form the error analysis
uses them. -/
theorem knob_float_hyps (T lg ex : ℝ → ℝ)
    (hT : ∀ x, |T x - x| ≤ |x| / 2 ^ 20 + 1 / 2 ^ 100)
    (hL : ∀ x, 0 < x → |lg x - Real.log x| ≤ |Real.log x| / 2 ^ 20 + 1 / 2 ^ 100)
    (hE : ∀ x, |ex x - Real.exp x| ≤ Real.exp x / 2 ^ 20) :
    (∀ x B : ℝ, |x| ≤ B → |T x - x| ≤ (B + 1) * (1 / 2 ^ 20)) ∧
    (∀ x : ℝ, 1 / 2 ^ 80 ≤ x → |T x - x| ≤ 2 * (1 / 2 ^ 20) * x) ∧
    (∀ x B : ℝ, 0 < x → |Real.log x| ≤ B → |lg x - Real.log x| ≤ (B + 1) * (1 / 2 ^ 20)) ∧
    (∀ x : ℝ, |ex x - Real.exp x| ≤ 1 / 2 ^ 20 * Real.exp x) := by
  have hη : (1 : ℝ) / 2 ^ 100 ≤ 1 / 2 ^ 20 := by norm_num
  refine ⟨?_, ?_, ?_, ?_⟩
  · intro x B hx
    have h := hT x
    have : |x| / 2 ^ 20 ≤ B / 2 ^ 20 := div_le_div_of_nonneg_right hx (by positivity)
    calc |T x - x| ≤ |x| / 2 ^ 20 + 1 / 2 ^ 100 := h
      _ ≤ B / 2 ^ 20 + 1 / 2 ^ 20 := by linarith
      _ = (B + 1) * (1 / 2 ^ 20) := by ring
  · intro x hx
    have h := hT x
    have hx0 : 0 ≤ x := le_trans (by positivity) hx
    rw [abs_of_nonneg hx0] at h
    have : (1 : ℝ) / 2 ^ 100 ≤ x / 2 ^ 20 := by
      rw [le_div_iff₀ (by positivity)]
      calc (1 : ℝ) / 2 ^ 100 * 2 ^ 20 = 1 / 2 ^ 80 := by norm_num
        _ ≤ x := hx
    calc |T x - x| ≤ x / 2 ^ 20 + 1 / 2 ^ 100 := h
      _ ≤ x / 2 ^ 20 + x / 2 ^ 20 := by linarith
      _ = 2 * (1 / 2 ^ 20) * x := by ring
  · intro x B hx0 hx
    have h := hL x hx0
    have : |Real.log x| / 2 ^ 20 ≤ B / 2 ^ 20 := div_le_div_of_nonneg_right hx (by positivity)
    calc |lg x - Real.log x| ≤ |Real.log x| / 2 ^ 20 + 1 / 2 ^ 100 := h
      _ ≤ B / 2 ^ 20 + 1 / 2 ^ 20 := by linarith
      _ = (B + 1) * (1 / 2 ^ 20) := by ring
  · intro x
    have h := hE x
    calc |ex x - Real.exp x| ≤ Real.exp x / 2 ^ 20 := h
      _ = 1 / 2 ^ 20 * Real.exp x := by ring

/-- The round trip of a control with the logarithmic law at an integer knob
position between 0 and 100, when `logf`, `expf` and the rounding of each
operation are accurate to the relative error `2^-20` (binary32 rounds to
`2^-24`): `rintf` removes the error. -/
theorem knob_log_float (m : Libm ℝ) (sqrt : ℝ → ℝ) (c : Fin 5) (z : Int)
    (hc : c = 3 ∨ c = 4)
    (hT : ∀ x, |m.tofloat x - x| ≤ |x| / 2 ^ 20 + 1 / 2 ^ 100)
    (hL : ∀ x, 0 < x → |m.logf x - Real.log x| ≤ |Real.log x| / 2 ^ 20 + 1 / 2 ^ 100)
    (hE : ∀ x, |m.expf x - Real.exp x| ≤ Real.exp x / 2 ^ 20)
    (hz0 : 0 ≤ z) (hz1 : z ≤ 100) :
    ctrl_to_gui m c (gui_to_ctrl m sqrt c (z : ℝ)) = (z : ℝ) := by
  obtain ⟨_, _, _, _, _, _, _, _, _, _, r3a, r3b, r3c, r3d, r4a, r4b, r4c, r4d⟩ :=
    ctrl_range_rows (F := ℝ)
  obtain ⟨HT, HTR, HL, HE⟩ := knob_float_hyps m.tofloat m.logf m.expf hT hL hE
  have hk0 : (0 : ℝ) ≤ (z : ℝ) := by exact_mod_cast hz0
  have hk1 : (z : ℝ) ≤ 100 := by exact_mod_cast hz1
  have hd : (9000 : ℝ) * (1 / 2 ^ 20) < 1 / 2 := by norm_num
  rcases hc with rfl | rfl
  · apply knob_log_rint m 3 _ z r3a (by rw [r3b]; norm_num)
    simp only [gui_to_ctrl, r3a, r3b, r3c, r3d, Bool.not_true, Bool.false_eq_true, if_false]
    have h100 : (1 / 10 : ℝ) / (1 / 1000) = 100 := by norm_num
    rw [if_neg (by norm_num), h100]
    exact lt_of_le_of_lt (knob_float_core m.tofloat m.logf m.expf (1 / 2 ^ 20) (1 / 1000) z
      (by positivity) (by norm_num) HT HTR HL HE (by norm_num) (by norm_num) hk0 hk1) hd
  · apply knob_log_rint m 4 _ z r4a (by rw [r4b]; norm_num)
    simp only [gui_to_ctrl, r4a, r4b, r4c, r4d, Bool.not_true, Bool.false_eq_true, if_false]
    have h100 : (3 : ℝ) / (3 / 100) = 100 := by norm_num
    rw [if_neg (by norm_num), h100]
    exact lt_of_le_of_lt (knob_float_core m.tofloat m.logf m.expf (1 / 2 ^ 20) (3 / 100) z
      (by positivity) (by norm_num) HT HTR HL HE (by norm_num) (by norm_num) hk0 hk1) hd

/-- The round trip of the control with the square-root law (the ratio), when
`sqrt` and the rounding of each operation are accurate to the relative error
`2^-20`: the knob position comes back with a relative error of at most
`30 * 2^-20`. -/
theorem knob_sqrt_float (m : Libm ℝ) (sqrt : ℝ → ℝ) (k : ℝ)
    (hT : ∀ x, |m.tofloat x - x| ≤ |x| / 2 ^ 20 + 1 / 2 ^ 100)
    (hS : ∀ x, 0 ≤ x → |sqrt x - Real.sqrt x| ≤ Real.sqrt x / 2 ^ 20)
    (hk0 : 1 / 2 ^ 30 ≤ k) (hk1 : k ≤ 72) :
    |ctrl_to_gui m 2 (gui_to_ctrl m sqrt 2 k) - k| ≤ 30 * (1 / 2 ^ 20) * k := by
  obtain ⟨_, _, _, _, _, _, r2a, r2b, _, r2d, _⟩ := ctrl_range_rows (F := ℝ)
  have hd0 : (0 : ℝ) < 1 / 2 ^ 20 := by positivity
  have hd1 : (1 : ℝ) / 2 ^ 20 ≤ 1 / 1000000 := by norm_num
  have HTR : ∀ x : ℝ, 1 / 2 ^ 80 ≤ x → |m.tofloat x - x| ≤ 2 * (1 / 2 ^ 20) * x := by
    intro x hx
    have h := hT x
    have hx0 : 0 ≤ x := le_trans (by positivity) hx
    rw [abs_of_nonneg hx0] at h
    have : (1 : ℝ) / 2 ^ 100 ≤ x / 2 ^ 20 := by
      rw [le_div_iff₀ (by positivity)]
      calc (1 : ℝ) / 2 ^ 100 * 2 ^ 20 = 1 / 2 ^ 80 := by norm_num
        _ ≤ x := hx
    calc |m.tofloat x - x| ≤ x / 2 ^ 20 + 1 / 2 ^ 100 := h
      _ ≤ x / 2 ^ 20 + x / 2 ^ 20 := by linarith
      _ = 2 * (1 / 2 ^ 20) * x := by ring
  simp only [ctrl_to_gui, gui_to_ctrl, r2a, r2b, r2d, Bool.not_true, Bool.false_eq_true,
    if_false, if_true]
  generalize hd : (1 : ℝ) / 2 ^ 20 = d at hd0 hd1 HTR ⊢
  have hkpos : 0 < k := lt_of_lt_of_le (by positivity) hk0
  have hE0 : (1 : ℝ) / 2 ^ 40 ≤ k / 72 := by
    rw [le_div_iff₀ (by norm_num)]
    calc (1 : ℝ) / 2 ^ 40 * 72 ≤ 1 / 2 ^ 30 := by norm_num
      _ ≤ k := hk0
  have hE1 : k / 72 ≤ 1 := by
    rw [div_le_iff₀ (by norm_num)]
    linarith
  generalize hE : k / 72 = E at hE0 hE1
  have hEpos : 0 < E := lt_of_lt_of_le (by positivity) hE0
  have hkE : k = E * 72 := by rw [← hE]; ring
  -- the square root S of E
  have hS0 : 0 < Real.sqrt E := Real.sqrt_pos.mpr hEpos
  have hSS : Real.sqrt E * Real.sqrt E = E := Real.mul_self_sqrt (le_of_lt hEpos)
  have hS1 : Real.sqrt E ≤ 1 := Real.sqrt_le_one.mpr hE1
  have hS40 : 1 / 2 ^ 40 ≤ Real.sqrt E :=
    calc (1 : ℝ) / 2 ^ 40 ≤ E := hE0
      _ = Real.sqrt E * Real.sqrt E := hSS.symm
      _ ≤ Real.sqrt E * 1 := mul_le_mul_of_nonneg_left hS1 (le_of_lt hS0)
      _ = Real.sqrt E := mul_one _
  -- a = T (k / 72)
  have a1 : |m.tofloat E - E| ≤ (0 + 3) * d * E :=
    knob_float_round m.tofloat d E E 0 hd0 hd1 HTR hE0 (le_refl 0) (by norm_num)
      (by rw [sub_self, abs_zero]; positivity)
  generalize m.tofloat E = a at a1 ⊢
  obtain ⟨a1a, a1b⟩ := abs_le.mp a1
  have hdE : 0 < d * E := mul_pos hd0 hEpos
  have hdE1 : d * E ≤ 1 / 1000000 * E := mul_le_mul_of_nonneg_right hd1 (le_of_lt hEpos)
  have ha0 : 0 ≤ a := by nlinarith
  generalize hSdef : Real.sqrt E = S at hS0 hSS hS1 hS40
  have hdS : 0 < d * S := mul_pos hd0 hS0
  have hdS1 : d * S ≤ 1 / 1000000 * S := mul_le_mul_of_nonneg_right hd1 (le_of_lt hS0)
  have hddS : d * (d * S) ≤ 1 / 1000000 * (d * S) :=
    mul_le_mul_of_nonneg_right hd1 (le_of_lt hdS)
  -- sqrt a
  have q1 : Real.sqrt a ≤ S + 3 * (d * S) := by
    have hnn : 0 ≤ S + 3 * (d * S) := by linarith
    rw [← Real.sqrt_sq hnn]
    apply Real.sqrt_le_sqrt
    have : (S + 3 * (d * S)) ^ 2 = E + 6 * d * E + 9 * d * d * E := by
      rw [← hSS]; ring
    rw [this]
    have : 0 ≤ 9 * d * d * E := by positivity
    linarith
  have q2 : S - 3 * (d * S) ≤ Real.sqrt a := by
    have hnn : 0 ≤ S - 3 * (d * S) := by linarith
    rw [← Real.sqrt_sq hnn]
    apply Real.sqrt_le_sqrt
    have : (S - 3 * (d * S)) ^ 2 = E - 6 * d * E + 9 * d * (d * E) := by
      rw [← hSS]; ring
    rw [this]
    have hddE : d * (d * E) ≤ 1 / 1000000 * (d * E) :=
      mul_le_mul_of_nonneg_right hd1 (le_of_lt hdE)
    linarith
  have q3 : |sqrt a - Real.sqrt a| ≤ 2 * (d * S) := by
    have h := hS a ha0
    have e : Real.sqrt a / 2 ^ 20 = d * Real.sqrt a := by rw [← hd]; ring
    rw [e] at h
    have : d * Real.sqrt a ≤ d * (S + 3 * (d * S)) :=
      mul_le_mul_of_nonneg_left q1 (le_of_lt hd0)
    have e2 : d * (S + 3 * (d * S)) = d * S + 3 * (d * (d * S)) := by ring
    linarith
  have q4 : |sqrt a - S| ≤ 5 * d * S := by
    have h0 : |Real.sqrt a - S| ≤ 3 * (d * S) := abs_le.mpr ⟨by linarith, by linarith⟩
    have := abs_tri _ _ _ _ _ q3 h0
    linarith
  have v1 : |m.tofloat (sqrt a) - S| ≤ (5 + 3) * d * S :=
    knob_float_round m.tofloat d (sqrt a) S 5 hd0 hd1 HTR hS40 (by norm_num) (by norm_num) q4
  generalize m.tofloat (sqrt a) = v at v1 ⊢
  clear q1 q2 q3 q4 a1 a1a a1b ha0
  -- v * v
  have v1' : |v - S| ≤ 8 * (d * S) := by
    have : (5 + 3) * d * S = 8 * (d * S) := by ring
    rw [this] at v1
    exact v1
  obtain ⟨v1a, v1b⟩ := abs_le.mp v1'
  have p0 : |v * v - S * S| ≤ 2 * S * (8 * (d * S)) + S * (8 * (d * S)) :=
    mul_err v v S S (8 * (d * S)) (8 * (d * S)) (2 * S) S v1' v1'
      (abs_le.mpr ⟨by linarith, by linarith⟩) (le_of_eq (abs_of_pos hS0))
  have p1 : |v * v - E| ≤ 24 * d * E := by
    have e : 2 * S * (8 * (d * S)) + S * (8 * (d * S)) = 24 * d * (S * S) := by ring
    rw [e, hSS] at p0
    exact p0
  have p2 : |m.tofloat (v * v) - E| ≤ (24 + 3) * d * E :=
    knob_float_round m.tofloat d (v * v) E 24 hd0 hd1 HTR hE0 (by norm_num) (by norm_num) p1
  generalize m.tofloat (v * v) = p at p2 ⊢
  have x0 : |p * 72 - k| ≤ 27 * d * k := by
    have e : p * 72 - k = (p - E) * 72 := by rw [hkE]; ring
    rw [e, abs_mul, abs_of_pos (by norm_num : (0 : ℝ) < 72), hkE]
    have : |p - E| * 72 ≤ (24 + 3) * d * E * 72 :=
      mul_le_mul_of_nonneg_right p2 (by norm_num)
    linarith
  have x1 : |m.tofloat (p * 72) - k| ≤ (27 + 3) * d * k :=
    knob_float_round m.tofloat d (p * 72) k 27 hd0 hd1 HTR
      (le_trans (by norm_num) hk0) (by norm_num) (by norm_num) x0
  have : (27 + 3) * d * k = 30 * d * k := by ring
  rw [this] at x1
  exact x1


/-- Rounding to binary32 is accurate to the relative error `2^-20` asked of
the operations in C27. -/
theorem fl32_accurate (x : ℝ) : |fl32 x - x| ≤ |x| / 2 ^ 20 + 1 / 2 ^ 100 := by
  have h := fl32_rel x
  have h1 : |x| / 2 ^ 24 ≤ |x| / 2 ^ 20 :=
    div_le_div_of_nonneg_left (abs_nonneg x) (by positivity) (by norm_num)
  have h2 : (1 : ℝ) / 2 ^ 150 ≤ 1 / 2 ^ 100 := by norm_num
  linarith

/-- C27 (as amended). Knob positions survive the round trip to the DSP and
back as follows, in `float` arithmetic: `logf`, `expf`, `sqrt` and the rounding
of each operation (`m.tofloat`) are only taken to be accurate to the relative
error `2^-20` (binary32 rounds to `2^-24`). For the two linear controls
`ctrl_to_gui (c, gui_to_ctrl (c, k))` is `k` for every `k` between `k_min` and
`k_max`, and the control value is in `[min, max]`: no arithmetic is involved.
For attack and release the round trip returns `k` for every integer `k` in
`[0, 100]`: `rintf` removes the rounding errors. For ratio the round trip
returns `k` only up to the relative error `30 * 2^-20`, for `k` in
`[2^-30, 72]`. In exact arithmetic (every operation without rounding, the real
`ln`, `exp` and `sqrt`) the round trip returns `k` for every control, also for
every `k` in `[0, 72]` for ratio, and the control value `gui_to_ctrl (c, k)`
lies in the range `[min, max]` of the control. -/
theorem C27_knob_roundtrip (m : Libm ℝ) (sqrt : ℝ → ℝ) (c : Fin 5) (k : ℝ)
    (hT : ∀ x, |m.tofloat x - x| ≤ |x| / 2 ^ 20 + 1 / 2 ^ 100)
    (hL : ∀ x, 0 < x → |m.logf x - Real.log x| ≤ |Real.log x| / 2 ^ 20 + 1 / 2 ^ 100)
    (hE : ∀ x, |m.expf x - Real.exp x| ≤ Real.exp x / 2 ^ 20)
    (hS : ∀ x, 0 ≤ x → |sqrt x - Real.sqrt x| ≤ Real.sqrt x / 2 ^ 20)
    (hmin : k_min c ≤ k) (hmax : k ≤ k_max c)
    (hgrid : c = 3 ∨ c = 4 → ∃ z : Int, k = (z : ℝ)) :
    (c = 0 ∨ c = 1 ∨ c = 3 ∨ c = 4 → ctrl_to_gui m c (gui_to_ctrl m sqrt c k) = k) ∧
    (c = 2 → 1 / 2 ^ 30 ≤ k →
      |ctrl_to_gui m c (gui_to_ctrl m sqrt c k) - k| ≤ 30 * (1 / 2 ^ 20) * k) ∧
    (c = 0 ∨ c = 1 →
      (ctrl_range c : CtrlRange ℝ).min ≤ gui_to_ctrl m sqrt c k ∧
      gui_to_ctrl m sqrt c k ≤ (ctrl_range c : CtrlRange ℝ).max) ∧
    ((∀ x, m.tofloat x = x) → (∀ x, m.logf x = Real.log x) →
      (∀ x, m.expf x = Real.exp x) → (∀ x, sqrt x = Real.sqrt x) →
      ctrl_to_gui m c (gui_to_ctrl m sqrt c k) = k ∧
      (ctrl_range c : CtrlRange ℝ).min ≤ gui_to_ctrl m sqrt c k ∧
      gui_to_ctrl m sqrt c k ≤ (ctrl_range c : CtrlRange ℝ).max) := by
  obtain ⟨r0a, r0b, r0c, r1a, r1b, r1c, r2a, r2b, r2c, r2d, r3a, r3b, r3c, r3d,
    r4a, r4b, r4c, r4d⟩ := ctrl_range_rows (F := ℝ)
  have hc : c = 0 ∨ c = 1 ∨ c = 2 ∨ c = 3 ∨ c = 4 := by
    fin_cases c <;> simp
  have hint : ∀ c2 : Fin 5, c2 = 3 ∨ c2 = 4 → k_min c2 ≤ k → k ≤ k_max c2 →
      (∃ z : Int, k = (z : ℝ)) → ctrl_to_gui m c2 (gui_to_ctrl m sqrt c2 k) = k := by
    intro c2 h2 hmin2 hmax2 hz
    obtain ⟨z, rfl⟩ := hz
    have hz0 : (0 : ℝ) ≤ (z : ℝ) := by
      rcases h2 with rfl | rfl
      · simpa [k_min, r3a] using hmin2
      · simpa [k_min, r4a] using hmin2
    have hz1 : (z : ℝ) ≤ 100 := by
      rcases h2 with rfl | rfl
      · simpa [k_max, r3a, r3d] using hmax2
      · simpa [k_max, r4a, r4d] using hmax2
    exact knob_log_float m sqrt c2 z h2 hT hL hE (by exact_mod_cast hz0) (by exact_mod_cast hz1)
  refine ⟨?_, ?_, ?_, ?_⟩
  · rintro (rfl | rfl | rfl | rfl)
    · exact (knob_linear m sqrt 0 k r0a hmin hmax).1
    · exact (knob_linear m sqrt 1 k r1a hmin hmax).1
    · exact hint 3 (Or.inl rfl) hmin hmax (hgrid (Or.inl rfl))
    · exact hint 4 (Or.inr rfl) hmin hmax (hgrid (Or.inr rfl))
  · rintro rfl hk
    have hk72 : k ≤ 72 := by simpa [k_max, r2a, r2d] using hmax
    exact knob_sqrt_float m sqrt k hT hS hk hk72
  · rintro (rfl | rfl)
    · exact (knob_linear m sqrt 0 k r0a hmin hmax).2
    · exact (knob_linear m sqrt 1 k r1a hmin hmax).2
  · intro hex hlog hexp hsqrt
    rcases hc with rfl | rfl | rfl | rfl | rfl
    · exact knob_linear m sqrt 0 k r0a hmin hmax
    · exact knob_linear m sqrt 1 k r1a hmin hmax
    · exact knob_sqrt m sqrt 2 k hsqrt hex r2a r2b r2c (by rw [r2d]; norm_num) hmin hmax
    · exact knob_log m sqrt 3 k hlog hexp hex r3a (by rw [r3b]; norm_num)
        (by rw [r3b, r3c]; norm_num) (by rw [r3d]; norm_num) hmin hmax (hgrid (Or.inl rfl))
    · exact knob_log m sqrt 4 k hlog hexp hex r4a (by rw [r4b]; norm_num)
        (by rw [r4b, r4c]; norm_num) (by rw [r4d]; norm_num) hmin hmax (hgrid (Or.inr rfl))

/-- C27 witness: in binary32 (`fl32`, with the real `ln`, `exp` and `sqrt`
rounded to `float`) the attack knob at position 50 comes back as 50 and the
ratio knob at position 2 comes back within `60 * 2^-20` of 2; in exact
arithmetic the ratio knob at position 2 comes back as 2. -/
theorem C27_knob_roundtrip_witness :
    ctrl_to_gui
      (Libm.mk Real.log Real.exp (fun x => (10 : ℝ) ^ x) (Real.logb 10) (fun _ => true) fl32) 3
      (gui_to_ctrl
        (Libm.mk Real.log Real.exp (fun x => (10 : ℝ) ^ x) (Real.logb 10) (fun _ => true) fl32)
        Real.sqrt 3 50) = 50 ∧
    |ctrl_to_gui
      (Libm.mk Real.log Real.exp (fun x => (10 : ℝ) ^ x) (Real.logb 10) (fun _ => true) fl32) 2
      (gui_to_ctrl
        (Libm.mk Real.log Real.exp (fun x => (10 : ℝ) ^ x) (Real.logb 10) (fun _ => true) fl32)
        Real.sqrt 2 2) - 2| ≤ 30 * (1 / 2 ^ 20) * 2 ∧
    ctrl_to_gui
      (Libm.mk Real.log Real.exp (fun x => (10 : ℝ) ^ x) (Real.logb 10) (fun _ => true)
        (fun x => x)) 2
      (gui_to_ctrl
        (Libm.mk Real.log Real.exp (fun x => (10 : ℝ) ^ x) (Real.logb 10) (fun _ => true)
          (fun x => x))
        Real.sqrt 2 2) = 2 :=
  ⟨(C27_knob_roundtrip
      (Libm.mk Real.log Real.exp (fun x => (10 : ℝ) ^ x) (Real.logb 10) (fun _ => true) fl32)
      Real.sqrt 3 50 fl32_accurate
      (fun x _ => by rw [sub_self, abs_zero]; positivity)
      (fun x => by rw [sub_self, abs_zero]; positivity)
      (fun x _ => by rw [sub_self, abs_zero]; positivity)
      (by norm_num [k_min, ctrl_range]) (by norm_num [k_max, ctrl_range])
      (fun _ => ⟨50, by norm_num⟩)).1 (Or.inr (Or.inr (Or.inl rfl))),
   (C27_knob_roundtrip
      (Libm.mk Real.log Real.exp (fun x => (10 : ℝ) ^ x) (Real.logb 10) (fun _ => true) fl32)
      Real.sqrt 2 2 fl32_accurate
      (fun x _ => by rw [sub_self, abs_zero]; positivity)
      (fun x => by rw [sub_self, abs_zero]; positivity)
      (fun x _ => by rw [sub_self, abs_zero]; positivity)
      (by norm_num [k_min, ctrl_range]) (by norm_num [k_max, ctrl_range])
      (fun h => by rcases h with h | h <;> exact absurd h (by decide))).2.1 rfl (by norm_num),
   ((C27_knob_roundtrip
      (Libm.mk Real.log Real.exp (fun x => (10 : ℝ) ^ x) (Real.logb 10) (fun _ => true)
        (fun x => x))
      Real.sqrt 2 2
      (fun x => by rw [sub_self, abs_zero]; positivity)
      (fun x _ => by rw [sub_self, abs_zero]; positivity)
      (fun x => by rw [sub_self, abs_zero]; positivity)
      (fun x _ => by rw [sub_self, abs_zero]; positivity)
      (by norm_num [k_min, ctrl_range]) (by norm_num [k_max, ctrl_range])
      (fun h => by rcases h with h | h <;> exact absurd h (by decide))).2.2.2
      (fun _ => rfl) (fun _ => rfl) (fun _ => rfl) (fun _ => rfl)).1⟩

/-- C27 counterexample: the ratio knob at position 2 in binary32, every
`float` operation rounded by `fl32`. `gui_to_ctrl` computes
`2 / 72 -> 14913081 / 2^29` and its square root `-> 11184811 / 2^26`
(0.16666667); `ctrl_to_gui` squares that to `14913082 / 2^29` and multiplies
by 72: the result is `8388609 / 2^22 = 2 + 2^-22` (2.00000024), not 2. -/
theorem C27_ratio_roundtrip_inexact :
    gui_to_ctrl
      (Libm.mk Real.log Real.exp (fun x => (10 : ℝ) ^ x) (Real.logb 10) (fun _ => true) fl32)
      Real.sqrt 2 2 = 11184811 / 67108864 ∧
    ctrl_to_gui
      (Libm.mk Real.log Real.exp (fun x => (10 : ℝ) ^ x) (Real.logb 10) (fun _ => true) fl32) 2
      (gui_to_ctrl
        (Libm.mk Real.log Real.exp (fun x => (10 : ℝ) ^ x) (Real.logb 10) (fun _ => true) fl32)
        Real.sqrt 2 2) = 2 + 1 / 2 ^ 22 ∧
    k_min (2 : Fin 5) ≤ (2 : ℝ) ∧ (2 : ℝ) ≤ k_max (2 : Fin 5) := by
  have a1 : fl32 (2 / 72 : ℝ) = 14913081 / 536870912 := by
    rw [fl32_at_pos (2 / 72 : ℝ) 29 14913081 (by norm_num) (by norm_num) (by norm_num)
      (by norm_num) (by norm_num)]
    norm_num
  have hL : (22369621 / 134217728 : ℝ) < Real.sqrt (14913081 / 536870912) :=
    (Real.lt_sqrt (by norm_num)).mpr (by norm_num)
  have hU : Real.sqrt (14913081 / 536870912) < (22369623 / 134217728 : ℝ) :=
    (Real.sqrt_lt' (by norm_num)).mpr (by norm_num)
  have a2 : fl32 (Real.sqrt (14913081 / 536870912)) = 11184811 / 67108864 := by
    rw [fl32_at_pos (Real.sqrt (14913081 / 536870912)) 26 11184811 (by norm_num)
      (by linarith) (by linarith) (by push_cast; linarith) (by push_cast; linarith)]
    norm_num
  have a3 : fl32 (11184811 / 67108864 * (11184811 / 67108864) : ℝ) = 7456541 / 268435456 := by
    rw [fl32_at_pos (11184811 / 67108864 * (11184811 / 67108864) : ℝ) 29 14913082
      (by norm_num) (by norm_num) (by norm_num) (by norm_num) (by norm_num)]
    norm_num
  have a4 : fl32 (7456541 / 268435456 * 72 : ℝ) = 2 + 1 / 2 ^ 22 := by
    rw [fl32_at_pos (7456541 / 268435456 * 72 : ℝ) 22 8388609 (by norm_num) (by norm_num)
      (by norm_num) (by norm_num) (by norm_num)]
    norm_num
  have hg : gui_to_ctrl
      (Libm.mk Real.log Real.exp (fun x => (10 : ℝ) ^ x) (Real.logb 10) (fun _ => true) fl32)
      Real.sqrt 2 2 = 11184811 / 67108864 := by
    simp only [gui_to_ctrl, ctrl_range, Bool.not_true, Bool.false_eq_true, if_false, if_true]
    rw [a1, a2]
  refine ⟨hg, ?_, by norm_num [k_min, ctrl_range], by norm_num [k_max, ctrl_range]⟩
  rw [hg]
  simp only [ctrl_to_gui, ctrl_range, Bool.not_true, Bool.false_eq_true, if_false, if_true]
  rw [a3, a4]

/-! ## The empty block (C28) -/

/-- C28. A zero-length block is not a no-op. `Dyncomp_process` with
`n_samples = 0` returns the buffers untouched and, with a finite `za1`, stores
`za1`, `zr1`, `zr2` unchanged; but when the new-window flag is set it stores
`gmin = 100`, `gmax = -100` and clears the flag, so `gmin > gmax`, the next
`Dyncomp_get_gain` reports `gain_min_db = 868.589` and `gain_max_db = -868.589`,
and the metering loop of `run` clamps these to 40 and -20. With the flag clear
the stored extrema are kept. -/
theorem C28_empty_block (m : Libm F) (s : Dyncomp F) (io : Nat → Nat → F)
    (self : Darc_handle F) :
    (Dyncomp_process m s 0 io).2 = io ∧
    (m.isfinite s.za1 = true →
      (Dyncomp_process m s 0 io).1.za1 = s.za1 ∧
      (Dyncomp_process m s 0 io).1.zr1 = s.zr1 ∧
      (Dyncomp_process m s 0 io).1.zr2 = s.zr2 ∧
      (s.newg = true →
        (Dyncomp_process m s 0 io).1.gmin = 100 ∧
        (Dyncomp_process m s 0 io).1.gmax = -100 ∧
        (Dyncomp_process m s 0 io).1.newg = false ∧
        (Dyncomp_process m s 0 io).1.gmax < (Dyncomp_process m s 0 io).1.gmin ∧
        (Dyncomp_get_gain m (Dyncomp_process m s 0 io).1).2.gmin = 868589 / 1000 ∧
        (Dyncomp_get_gain m (Dyncomp_process m s 0 io).1).2.gmax = -(868589 / 1000) ∧
        (run_meter_body m { self with dyncomp := (Dyncomp_process m s 0 io).1 })._gmin = 40 ∧
        (run_meter_body m { self with dyncomp := (Dyncomp_process m s 0 io).1 })._gmax = -20) ∧
      (s.newg = false →
        (Dyncomp_process m s 0 io).1.gmin = s.gmin ∧
        (Dyncomp_process m s 0 io).1.gmax = s.gmax)) := by
  refine ⟨rfl, ?_⟩
  intro hf
  have hf' : m.isfinite (Dyncomp_at m s io 0).za1 = true := hf
  obtain ⟨p1, p2, p3, p4, p5⟩ := process_finite m s 0 io hf'
  have pn := process_newg m s 0 io hf'
  have g1 : (Dyncomp_at m s io 0).gmax = if s.newg = true then -100 else s.gmax := rfl
  have g2 : (Dyncomp_at m s io 0).gmin = if s.newg = true then 100 else s.gmin := rfl
  rw [g1] at p4
  rw [g2] at p5
  refine ⟨p1, p2, p3, ?_, ?_⟩
  · intro hn
    rw [if_pos hn] at p4 p5
    have r1 : (Dyncomp_get_gain m (Dyncomp_process m s 0 io).1).2.gmin = 868589 / 1000 := by
      simp only [Dyncomp_get_gain, p5]
      norm_num
    have r2 : (Dyncomp_get_gain m (Dyncomp_process m s 0 io).1).2.gmax =
        -(868589 / 1000) := by
      simp only [Dyncomp_get_gain, p4]
      norm_num
    refine ⟨p5, p4, pn, ?_, r1, r2, ?_, ?_⟩
    · rw [p4, p5]; norm_num
    · show min 40 (max (-20) (Dyncomp_get_gain m (Dyncomp_process m s 0 io).1).2.gmin) = 40
      rw [r1, max_eq_right (by norm_num), min_eq_left (by norm_num)]
    · show min 40 (max (-20) (Dyncomp_get_gain m (Dyncomp_process m s 0 io).1).2.gmax) = -20
      rw [r2, max_eq_left (by norm_num), min_eq_right (by norm_num)]
  · intro hn
    rw [if_neg (by rw [hn]; decide)] at p4 p5
    exact ⟨p5, p4⟩

/-- C28 witness: the mono engine right after `Dyncomp_init` (flag set, `za1 = 0`)
and an empty block: the stored `gmin` is 100. -/
theorem C28_empty_block_witness :
    (Dyncomp_process
      (Libm.mk Real.log Real.exp (fun x => (10 : ℝ) ^ x) (Real.logb 10) (fun _ => true) fl32)
      (Dyncomp_init Dyncomp_calloc 48000 1) 0 (fun _ _ => 0)).1.gmin = 100 :=
  (((C28_empty_block
    (Libm.mk Real.log Real.exp (fun x => (10 : ℝ) ^ x) (Real.logb 10) (fun _ => true) fl32)
    (Dyncomp_init Dyncomp_calloc 48000 1) (fun _ _ => 0)
    { dyncomp := Dyncomp_init Dyncomp_calloc 48000 1, _gmin := 0, _gmax := 0, _rms := 0,
      samplecnt := 2400, sampletme := 2400 }).2 rfl).2.2.2.1
    (by rw [init_fields])).1

/-! ## The metering loop of `run` (C29) -/

end Darc
